import Mathlib

/-! OpenViewAdvanced: interval parsing, validation and candle aggregation.

A shallow embedding of `src/utils/dataTransformation.js` and of
`filterDataByRange` of `src/utils/intervalUtils.js`.

Modelling conventions.
* JavaScript strings are Lean strings; the regular expression and the
  `includes` tests only look at characters of the Basic Multilingual Plane.
* JavaScript numbers are exact: the parsed value is a natural number and
  minutes, prices and volumes are rationals, so `/` and `%` are exact. The
  numbers of the code are binary64 numbers; the two readings agree as long as
  no operation rounds, which is the case for whole numbers up to 2^53
  (`maxExactInt`) and for the lengths in minutes described by `ExactMinutes`.
  Statements that depend on the numeric value of a parsed number carry these
  bounds.
* A `Date` is its time value, an integer number of milliseconds since the
  epoch, and the host time zone is UTC. A date of the code is valid only for
  time values within 8.64e15 milliseconds of the epoch (`InDateRange`);
  statements about bucket starts that may leave this range carry the bound.
* Property access on the tables of `intervalUtils.js` is modelled for the own
  keys of the tables; statements about the range argument are made for the
  range tokens of the tables (`rangeTokens`).
-/

namespace OpenView

/-! ## Character classes of the interval pattern -/

/-- Class `\d` of a JavaScript pattern without the unicode flag. -/
def isDigitChar (c : Char) : Bool :=
  decide ('0'.toNat ≤ c.toNat) && decide (c.toNat ≤ '9'.toNat)

/-- Class `\w` of a JavaScript pattern: ASCII letters, digits and underscore. -/
def isWordChar (c : Char) : Bool :=
  isDigitChar c
    || (decide ('a'.toNat ≤ c.toNat) && decide (c.toNat ≤ 'z'.toNat))
    || (decide ('A'.toNat ≤ c.toNat) && decide (c.toNat ≤ 'Z'.toNat))
    || decide (c.toNat = '_'.toNat)

/-- Class `\s` of a JavaScript pattern: the WhiteSpace and LineTerminator
code points of ECMAScript. -/
def isSpaceChar (c : Char) : Bool :=
  let n := c.toNat
  decide (n = 0x09) || decide (n = 0x0A) || decide (n = 0x0B) || decide (n = 0x0C)
    || decide (n = 0x0D) || decide (n = 0x20) || decide (n = 0xA0) || decide (n = 0x1680)
    || (decide (0x2000 ≤ n) && decide (n ≤ 0x200A))
    || decide (n = 0x2028) || decide (n = 0x2029) || decide (n = 0x202F)
    || decide (n = 0x205F) || decide (n = 0x3000) || decide (n = 0xFEFF)

/-! ## The pattern `^(\d+)\s*(\w+)$` as a backtracking matcher -/

/-- Matches `(\w+)$`: the rest of the input is a non-empty run of word
characters. Returns the captured word. -/
def matchWord (s : List Char) : Option (List Char) :=
  if s ≠ [] ∧ s.all isWordChar = true then some s else none

/-- Matches `\s*(\w+)$`: the star is greedy, and gives a character back when
the continuation fails. -/
def matchSpaceWord : List Char → Option (List Char)
  | [] => matchWord []
  | c :: cs =>
    if isSpaceChar c then
      match matchSpaceWord cs with
      | some w => some w
      | none => matchWord (c :: cs)
    else matchWord (c :: cs)

/-- Matches the tail of `(\d+)` after the digits `pre` have been consumed and
at least one more digit is required: it takes as many digits as it can and
gives them back one at a time while the continuation `\s*(\w+)$` fails.
Returns the two captures. -/
def matchDigits (pre : List Char) : List Char → Option (List Char × List Char)
  | [] => none
  | c :: cs =>
    if isDigitChar c then
      match matchDigits (pre ++ [c]) cs with
      | some r => some r
      | none => (matchSpaceWord cs).map (fun w => (pre ++ [c], w))
    else none

/-- Result of `interval.match(/^(\d+)\s*(\w+)$/)`: the digit capture and the
word capture, or `none` when the pattern does not match. -/
def matchInterval (s : List Char) : Option (List Char × List Char) :=
  matchDigits [] s

/-- Base-10 `parseInt` on a string of decimal digits, as an exact natural number.
The code returns the nearest binary64 number, which is this number whenever it
is at most 2^53. -/
def parseInt (ds : List Char) : Nat :=
  ds.foldl (fun acc c => 10 * acc + (c.toNat - '0'.toNat)) 0

/-! ## parseInterval -/

/-- Parsed interval `{ value, unit }`. -/
structure IntervalSpec where
  value : Nat
  unit : String
deriving DecidableEq, Repr

/-- Values handed to `parseInterval`: a bare string, a structured
`{ full, short }` pair, or anything else (`null`, `undefined`, a number). -/
inductive IntervalInput where
  | text (s : String)
  | pair (full : String) (short : String)
  | other
deriving DecidableEq, Repr

/-- The expression `intervalStr?.full || intervalStr` followed by the guard
`!interval || typeof interval !== 'string'`: the string that is matched
against the pattern, if there is one. A pair whose `full` is empty is falsy on
the left of `||`, so the pair itself is kept and it is not a string. -/
def intervalText : IntervalInput → Option String
  | .text s => if s = "" then none else some s
  | .pair full _ => if full = "" then none else some full
  | .other => none

/-- Model of `parseInterval`. The unit capture is a run of ASCII word
characters, on which `toLowerCase` is the ASCII lower-casing `Char.toLower`. -/
def parseInterval (intervalStr : IntervalInput) : Option IntervalSpec :=
  match intervalText intervalStr with
  | none => none
  | some interval =>
    match matchInterval interval.toList with
    | none => none
    | some (value, unit) =>
      some { value := parseInt value, unit := String.mk (unit.map Char.toLower) }

/-! ## getMinutesFromUnit -/

/-- Model of `getMinutesFromUnit` on exact numbers. The code rounds the quotient
and the products to binary64; nothing is rounded for the intervals described by
`ExactMinutes`. -/
def getMinutesFromUnit (value : ℚ) (unit : String) : Option ℚ :=
  if unit = "second" ∨ unit = "seconds" then some (value / 60)
  else if unit = "minute" ∨ unit = "minutes" then some value
  else if unit = "hour" ∨ unit = "hours" then some (value * 60)
  else if unit = "day" ∨ unit = "days" then some (value * 1440)
  else if unit = "week" ∨ unit = "weeks" then some (value * 10080)
  else if unit = "month" ∨ unit = "months" then some (value * 43200)
  else none

/-! ## canTransformData and getTransformationError -/

/-- The method `String.prototype.includes` on character lists. -/
def includesChars (s pat : List Char) : Bool :=
  s.tails.any (fun t => pat.isPrefixOf t)

/-- The method `String.prototype.includes`. -/
def includes (s pat : String) : Bool :=
  includesChars s.toList pat.toList

/-- Truncation towards zero. -/
def truncQ (q : ℚ) : ℤ :=
  if 0 ≤ q then ⌊q⌋ else ⌈q⌉

/-- The remainder operator `%` on exact numbers: the result has the sign of the
dividend, `a % b = a - b * trunc (a / b)`. On two binary64 numbers the operator
of the code returns this remainder without rounding. -/
def jsMod (a b : ℚ) : ℚ :=
  a - b * (truncQ (a / b) : ℚ)

/-- Model of `canTransformData`. The test `!rawMinutes || !targetMinutes` holds
when one of the two is `null` or is the number zero. -/
def canTransformData (rawDataInterval targetInterval : String) : Bool :=
  if includes targetInterval "tick" || includes targetInterval "range" then false
  else
    match parseInterval (.text rawDataInterval), parseInterval (.text targetInterval) with
    | some rawParsed, some targetParsed =>
      let rawMinutes := getMinutesFromUnit rawParsed.value rawParsed.unit
      let targetMinutes := getMinutesFromUnit targetParsed.value targetParsed.unit
      match rawMinutes, targetMinutes with
      | some r, some t =>
        if r = 0 ∨ t = 0 then false
        else decide (t ≥ r) && decide (jsMod t r = 0)
      | _, _ => false
    | _, _ => false

/-- Message for a tick target. -/
def msgTick : String :=
  "Cannot transform to tick-based intervals. Tick data requires specialized market data."

/-- Message for a range target. -/
def msgRange : String :=
  "Cannot transform to range-based intervals. Range data requires specialized market data."

/-- Message when one of the two intervals does not match the pattern. -/
def msgInvalidFormat : String := "Invalid interval format."

/-- Message when one of the two intervals has no (or a zero) length in minutes. -/
def msgUnsupportedUnit : String := "Unsupported time unit."

/-- Message when the target is shorter than the source. -/
def msgSmaller (rawDataInterval targetInterval : String) : String :=
  "Cannot transform from " ++ rawDataInterval ++ " to " ++ targetInterval
    ++ ": target interval is smaller than source data resolution."

/-- Message when the target is not a whole multiple of the source. -/
def msgNotDivisible (rawDataInterval targetInterval : String) : String :=
  "Cannot transform from " ++ rawDataInterval ++ " to " ++ targetInterval
    ++ ": intervals are not evenly divisible."

/-- Model of `getTransformationError`; `none` is `null`. The test
`!rawMinutes || !targetMinutes` holds when one of the two is `null` or zero. -/
def getTransformationError (rawDataInterval targetInterval : String) : Option String :=
  if includes targetInterval "tick" then some msgTick
  else if includes targetInterval "range" then some msgRange
  else
    match parseInterval (.text rawDataInterval), parseInterval (.text targetInterval) with
    | some rawParsed, some targetParsed =>
      let rawMinutes := getMinutesFromUnit rawParsed.value rawParsed.unit
      let targetMinutes := getMinutesFromUnit targetParsed.value targetParsed.unit
      match rawMinutes, targetMinutes with
      | some r, some t =>
        if r = 0 ∨ t = 0 then some msgUnsupportedUnit
        else if t < r then some (msgSmaller rawDataInterval targetInterval)
        else if jsMod t r ≠ 0 then some (msgNotDivisible rawDataInterval targetInterval)
        else none
      | _, _ => some msgUnsupportedUnit
    | _, _ => some msgInvalidFormat

/-! ## The `Date` operations used by the engine (host time zone UTC) -/

/-- Milliseconds per minute, hour and day. -/
def msPerMinute : Int := 60000
/-- Milliseconds per hour. -/
def msPerHour : Int := 3600000
/-- Milliseconds per day. -/
def msPerDay : Int := 86400000

/-- Day number `Day(t) = floor(t / msPerDay)`. -/
def dayOf (t : Int) : Int := t / msPerDay

/-- Time within the day `t mod msPerDay`. -/
def timeWithinDay (t : Int) : Int := t % msPerDay

/-- Civil date `(year, month index 0..11, day of month 1..31)` of a day number
counted from 1970-01-01 in the proleptic Gregorian calendar. -/
def civilFromDays (z0 : Int) : Int × Int × Int :=
  let z := z0 + 719468
  let era := z / 146097
  let doe := z - era * 146097
  let yoe := (doe - doe / 1460 + doe / 36524 - doe / 146096) / 365
  let doy := doe - (365 * yoe + yoe / 4 - yoe / 100)
  let mp := (5 * doy + 2) / 153
  let d := doy - (153 * mp + 2) / 5 + 1
  let m := if mp < 10 then mp + 2 else mp - 10
  let y := yoe + era * 400
  (if m ≤ 1 then y + 1 else y, m, d)

/-- Day number of the first day of month index `month` (0..11) of `year`. -/
def daysFromCivil (year month : Int) : Int :=
  let y := if month ≤ 1 then year - 1 else year
  let era := y / 400
  let yoe := y - era * 400
  let mp := if month ≤ 1 then month + 10 else month - 2
  let doy := (153 * mp + 2) / 5
  let doe := yoe * 365 + yoe / 4 - yoe / 100 + doy
  era * 146097 + doe - 719468

/-- Abstract operation `MakeDay(year, month, date)`: months outside 0..11 carry
into the year and the date may be any integer. -/
def makeDay (year month date : Int) : Int :=
  daysFromCivil (year + month / 12) (month % 12) + date - 1

/-- Abstract operation `MakeTime(hour, min, sec, ms)`. -/
def makeTime (hour min sec ms : Int) : Int :=
  hour * msPerHour + min * msPerMinute + sec * 1000 + ms

/-- Abstract operation `MakeDate(day, time)`. -/
def makeDate (day time : Int) : Int := day * msPerDay + time

/-- Method `getFullYear`. -/
def getFullYear (t : Int) : Int := (civilFromDays (dayOf t)).1
/-- Method `getMonth` (January is 0). -/
def getMonth (t : Int) : Int := (civilFromDays (dayOf t)).2.1
/-- Method `getDate` (day of the month). -/
def getDate (t : Int) : Int := (civilFromDays (dayOf t)).2.2
/-- Method `getDay` (Sunday is 0; 1970-01-01 was a Thursday). -/
def getDay (t : Int) : Int := (dayOf t + 4) % 7
/-- Method `getHours`. -/
def getHours (t : Int) : Int := (t / msPerHour) % 24
/-- Method `getMinutes`. -/
def getMinutes (t : Int) : Int := (t / msPerMinute) % 60

/-- Method `setMinutes(min, sec, ms)`. -/
def setMinutes (t min sec ms : Int) : Int :=
  makeDate (dayOf t) (makeTime (getHours t) min sec ms)
/-- Method `setHours(hour, min, sec, ms)`. -/
def setHours (t hour min sec ms : Int) : Int :=
  makeDate (dayOf t) (makeTime hour min sec ms)
/-- Method `setDate(date)`. -/
def setDate (t date : Int) : Int :=
  makeDate (makeDay (getFullYear t) (getMonth t) date) (timeWithinDay t)
/-- Method `setMonth(month)`. -/
def setMonth (t month : Int) : Int :=
  makeDate (makeDay (getFullYear t) month (getDate t)) (timeWithinDay t)
/-- Constructor `new Date(year, month, date)`; years 0..99 mean 1900..1999. -/
def newDate (year month date : Int) : Int :=
  let yr := if 0 ≤ year ∧ year ≤ 99 then 1900 + year else year
  makeDate (makeDay yr month date) (makeTime 0 0 0 0)

/-! ## Bars and aggregateCandles -/

/-- One OHLCV record; `date` is the time value in milliseconds. -/
structure Bar where
  date : Int
  open_ : ℚ
  high : ℚ
  low : ℚ
  close : ℚ
  volume : ℚ
deriving DecidableEq, Repr

/-- Body of the `for` loop of `aggregateCandles` on `(high, low, volume)`. -/
def aggStep (acc : ℚ × ℚ × ℚ) (candle : Bar) : ℚ × ℚ × ℚ :=
  (if candle.high > acc.1 then candle.high else acc.1,
   if candle.low < acc.2.1 then candle.low else acc.2.1,
   acc.2.2 + candle.volume)

/-- Model of `aggregateCandles`; `none` is `null`. -/
def aggregateCandles (candles : List Bar) : Option Bar :=
  match candles with
  | [] => none
  | firstCandle :: _ =>
    let lastCandle := candles.getLastD firstCandle
    let acc := candles.foldl aggStep (firstCandle.high, firstCandle.low, 0)
    some { date := firstCandle.date, open_ := firstCandle.open_, high := acc.1,
           low := acc.2.1, close := lastCandle.close, volume := acc.2.2 }

/-! ## transformDataToInterval -/

/-- The bucket start computed for one data point inside the loop of
`transformDataToInterval`. The divisions by `value` are only reached with
`value ≥ 1`, because the target resolved to at least one minute. The value is
an exact natural number and the result an integer time value: it is the date of
the code when the value is at most 2^53 and the result is in the range of the
valid dates; outside of these bounds the code obtains an invalid date. -/
def bucketStart (targetParsed : IntervalSpec) (dataTime : Int) : Int :=
  let value : Int := targetParsed.value
  if includes targetParsed.unit "minute" then
    let minutes := getMinutes dataTime / value * value
    setMinutes dataTime minutes 0 0
  else if includes targetParsed.unit "hour" then
    let hours := getHours dataTime / value * value
    setHours dataTime hours 0 0 0
  else if includes targetParsed.unit "day" then
    let midnight := setHours dataTime 0 0 0 0
    if value > 1 then
      let daysSinceEpoch := midnight / (1000 * 60 * 60 * 24)
      let alignedDays := daysSinceEpoch / value * value
      alignedDays * 1000 * 60 * 60 * 24
    else midnight
  else if includes targetParsed.unit "week" then
    let dayOfWeek := (getDay dataTime + 6) % 7
    let monday := setDate dataTime (getDate dataTime - dayOfWeek)
    setHours monday 0 0 0 0
  else if includes targetParsed.unit "month" then
    let first := newDate (getFullYear dataTime) (getMonth dataTime) 1
    if value > 1 then
      let monthsAligned := getMonth first / value * value
      setMonth first monthsAligned
    else first
  else dataTime

/-- Variables of the loop of `transformDataToInterval`. -/
structure LoopState where
  result : List Bar
  currentGroup : List Bar
  groupStartTime : Option Int
deriving DecidableEq, Repr

/-- Pushes the aggregate of `group` on `result` when there is one. -/
def flushGroup (result group : List Bar) : List Bar :=
  if group.length > 0 then
    match aggregateCandles group with
    | some aggregated => result ++ [aggregated]
    | none => result
  else result

/-- One iteration of the loop of `transformDataToInterval`. -/
def loopStep (targetParsed : IntervalSpec) (st : LoopState) (dataPoint : Bar) : LoopState :=
  let bucket := bucketStart targetParsed dataPoint.date
  if st.groupStartTime = none ∨ st.groupStartTime ≠ some bucket then
    { result := flushGroup st.result st.currentGroup,
      currentGroup := [dataPoint],
      groupStartTime := some bucket }
  else
    { st with currentGroup := st.currentGroup ++ [dataPoint] }

/-- The loop and the final flush of `transformDataToInterval`. -/
def bucketLoop (targetParsed : IntervalSpec) (rawData : List Bar) : List Bar :=
  let st := rawData.foldl (loopStep targetParsed) { result := [], currentGroup := [], groupStartTime := none }
  flushGroup st.result st.currentGroup

/-- Text that a template literal prints for the target. -/
def renderInput : IntervalInput → String
  | .text s => s
  | .pair _ _ => "[object Object]"
  | .other => "null"

/-- Message of the error thrown for a target below one minute. -/
def msgSubResolution (targetInterval : IntervalInput) : String :=
  "Cannot transform to " ++ renderInput targetInterval
    ++ ": target interval is smaller than source data resolution"

/-- Model of `transformDataToInterval`: `.ok` is a normal return and `.error`
carries the message of the thrown `Error`. The test `!targetMinutes` holds
for `null` and for zero. -/
def transformDataToInterval (rawData : List Bar) (targetInterval : IntervalInput) :
    Except String (List Bar) :=
  if rawData.length = 0 then .ok rawData
  else
    match parseInterval targetInterval with
    | none => .ok rawData
    | some targetParsed =>
      match getMinutesFromUnit targetParsed.value targetParsed.unit with
      | none => .ok rawData
      | some targetMinutes =>
        if targetMinutes = 0 then .ok rawData
        else if targetMinutes < 1 then .error (msgSubResolution targetInterval)
        else .ok (bucketLoop targetParsed rawData)

/-! ## filterDataByRange (`src/utils/intervalUtils.js`) -/

/-- The `switch` of `filterDataByRange`: the start date for a range token, and
`none` for `All` and for any other token, on which the data is returned as it
is. -/
def rangeStartDate (endDate : Int) (range : String) : Option Int :=
  if range = "1D" then some (endDate - 24 * 60 * 60 * 1000)
  else if range = "5D" then some (endDate - 5 * 24 * 60 * 60 * 1000)
  else if range = "1M" then some (endDate - 30 * 24 * 60 * 60 * 1000)
  else if range = "3M" then some (endDate - 90 * 24 * 60 * 60 * 1000)
  else if range = "6M" then some (endDate - 180 * 24 * 60 * 60 * 1000)
  else if range = "YTD" then some (newDate (getFullYear endDate) 0 1)
  else if range = "1Y" then some (endDate - 365 * 24 * 60 * 60 * 1000)
  else if range = "5Y" then some (endDate - 5 * 365 * 24 * 60 * 60 * 1000)
  else none

/-- Model of `filterDataByRange`. The variable `now` of the source is never
read. -/
def filterDataByRange (data : List Bar) (range : String) : List Bar :=
  match data.getLast? with
  | none => data
  | some last =>
    let endDate := last.date
    match rangeStartDate endDate range with
    | none => data
    | some startDate => data.filter (fun item => decide (item.date ≥ startDate))

/-! ## calculateCandleCount (`src/utils/intervalUtils.js`) -/

/-- The object `intervalToMinutes`; `none` is the value `null`. -/
def intervalToMinutes : List (String × Option ℚ) :=
  [("1 tick", none), ("10 ticks", none), ("100 ticks", none), ("1000 ticks", none),
   ("1 second", some (1 / 60)), ("5 seconds", some (5 / 60)), ("10 seconds", some (10 / 60)),
   ("15 seconds", some (15 / 60)), ("30 seconds", some (30 / 60)),
   ("45 seconds", some (45 / 60)),
   ("1 minute", some 1), ("2 minutes", some 2), ("3 minutes", some 3), ("5 minutes", some 5),
   ("10 minutes", some 10), ("15 minutes", some 15), ("30 minutes", some 30),
   ("45 minutes", some 45),
   ("1 hour", some 60), ("2 hours", some 120), ("3 hours", some 180), ("4 hours", some 240),
   ("1 day", some 1440), ("1 week", some 10080), ("1 month", some 43200),
   ("3 months", some 129600), ("6 months", some 259200), ("12 months", some 525600)]

/-- The object `rangeToMinutes`; `none` is the value `null`. -/
def rangeToMinutes : List (String × Option ℚ) :=
  [("1D", some 1440), ("5D", some 7200), ("1M", some 43200), ("3M", some 129600),
   ("6M", some 259200), ("YTD", none), ("1Y", some 525600), ("5Y", some 2628000),
   ("All", none)]

/-- The object `rangeToDays`; `none` is the value `null`. -/
def rangeToDays : List (String × Option ℚ) :=
  [("1D", some 1), ("5D", some 5), ("1M", some 30), ("3M", some 90), ("6M", some 180),
   ("YTD", none), ("1Y", some 365), ("5Y", some 1825), ("All", none)]

/-- Property access `table[key]` followed by the test `!value`: the number
found, and `none` when the key is absent (`undefined`), the value is `null` or
the number is 0. Properties inherited from the prototype of the object are not
modelled. -/
def truthyLookup (table : List (String × Option ℚ)) (key : String) : Option ℚ :=
  match table.lookup key with
  | some (some v) => if v = 0 then none else some v
  | _ => none

/-- Result of `calculateCandleCount`: `null`, a number that is not finite (`NaN`
or an infinity, which `Math.floor` returns as they are), or an integer. -/
inductive Count where
  | null
  | notFinite
  | int (n : Int)
deriving DecidableEq, Repr

/-- Value of a character as a digit of the radix, if it is one. -/
def radixDigit (radix : Nat) (c : Char) : Option Nat :=
  let n := c.toNat
  let v : Option Nat :=
    if '0'.toNat ≤ n ∧ n ≤ '9'.toNat then some (n - '0'.toNat)
    else if 'a'.toNat ≤ n ∧ n ≤ 'z'.toNat then some (n - 'a'.toNat + 10)
    else if 'A'.toNat ≤ n ∧ n ≤ 'Z'.toNat then some (n - 'A'.toNat + 10)
    else none
  v.filter (fun d => decide (d < radix))

/-- The function `parseInt` with one argument: leading white space is skipped, a
sign is read, the prefix `0x` or `0X` selects radix 16, and the longest run of
digits of the radix is the value; `none` is `NaN`. -/
def jsParseInt (s : List Char) : Option Int :=
  let s1 := s.dropWhile isSpaceChar
  let neg : Bool := decide (s1.head? = some '-')
  let s2 := if s1.head? = some '-' ∨ s1.head? = some '+' then s1.drop 1 else s1
  let hex : Bool := decide (s2.take 2 = ['0', 'x'] ∨ s2.take 2 = ['0', 'X'])
  let radix : Nat := if hex then 16 else 10
  let s3 := if hex then s2.drop 2 else s2
  let z := s3.takeWhile (fun c => (radixDigit radix c).isSome)
  if z = [] then none
  else
    let v : Nat := z.foldl (fun acc c => radix * acc + (radixDigit radix c).getD 0) 0
    some (if neg then -(v : Int) else (v : Int))

/-- The expression `interval.split(" ")[0]`: the text before the first space. -/
def firstToken (s : String) : List Char :=
  s.toList.takeWhile (fun c => decide (c ≠ ' '))

/-- The expression `Math.floor(total / value)` for the result `value` of
`parseInt`: not finite when `value` is `NaN` or zero. -/
def floorQuotient (total : ℚ) (value : Option Int) : Count :=
  match value with
  | none => .notFinite
  | some v => if v = 0 then .notFinite else .int ⌊total / (v : ℚ)⌋

/-- Model of `calculateCandleCount`. -/
def calculateCandleCount (interval range : String) : Count :=
  if includes interval "tick" then
    match truthyLookup rangeToDays range with
    | none => .null
    | some days =>
      let ticksPerDay : ℚ := 1000
      let totalTicks := days * ticksPerDay
      let tickValue := jsParseInt (firstToken interval)
      floorQuotient totalTicks tickValue
  else if includes interval "range" then
    match truthyLookup rangeToDays range with
    | none => .null
    | some days =>
      let rangesPerDay : ℚ := 100
      let totalRanges := days * rangesPerDay
      let rangeValue := jsParseInt (firstToken interval)
      floorQuotient totalRanges rangeValue
  else
    match truthyLookup intervalToMinutes interval, truthyLookup rangeToMinutes range with
    | some intervalMinutes, some rangeMinutes => .int ⌊rangeMinutes / intervalMinutes⌋
    | _, _ => .null

/-! ## Specification-level definitions -/

/-- The input `s` is a digit group `ds`, then white space `ws`, then a word
`w`, and nothing else. -/
def IsIntervalSplit (s ds ws w : List Char) : Prop :=
  s = ds ++ ws ++ w ∧ ds ≠ [] ∧ (∀ c ∈ ds, isDigitChar c = true)
    ∧ (∀ c ∈ ws, isSpaceChar c = true) ∧ w ≠ [] ∧ (∀ c ∈ w, isWordChar c = true)

/-- Decimal value of a digit string, most significant digit first. -/
def decimalValue (ds : List Char) : Nat :=
  Nat.ofDigits 10 ((ds.map (fun c => c.toNat - '0'.toNat)).reverse)

/-- The unit spellings with a length in minutes. -/
def timeUnits : List String :=
  ["second", "seconds", "minute", "minutes", "hour", "hours", "day", "days",
   "week", "weeks", "month", "months"]

/-- Two bars have the same computed bucket start for the parsed target. -/
def sameBucket (targetParsed : IntervalSpec) (a b : Bar) : Bool :=
  bucketStart targetParsed a.date == bucketStart targetParsed b.date

/-- The bar that the aggregation law assigns to one run of bars: date and open
of the first bar, close of the last bar, greatest high, least low and the sum
of the volumes. There is none for an empty run. -/
def runBar (run : List Bar) : Option Bar :=
  match run.head?, run.getLast?, (run.map (fun b => b.high)).max?,
      (run.map (fun b => b.low)).min? with
  | some first, some last, some hi, some lo =>
    some { date := first.date, open_ := first.open_, high := hi, low := lo,
           close := last.close, volume := (run.map (fun b => b.volume)).sum }
  | _, _, _, _ => none

/-- The groups closed by the loop of `transformDataToInterval` when it holds the
open group `cur` with bucket start `k` and still has to read `bs`. -/
def groupsFrom (key : Bar → Int) : List Bar → Int → List Bar → List (List Bar)
  | cur, _, [] => [cur]
  | cur, k, b :: bs =>
    if key b = k then groupsFrom key (cur ++ [b]) k bs
    else cur :: groupsFrom key [b] (key b) bs

/-- Sum of the volumes of a list of bars. -/
def totalVolume (bars : List Bar) : ℚ := (bars.map (fun b => b.volume)).sum

/-- Sixty one-minute bars 00:00 to 00:59 of 1970-01-01, each of volume 1. -/
def exampleBars : List Bar :=
  (List.range 60).map (fun (i : Nat) =>
    { date := 60000 * (i : Int), open_ := i, high := i + 1, low := i, close := i + 1,
      volume := 1 })

/-- Three bars at 00:00, 00:01 and 00:05 of 1970-01-01. -/
def sampleBars : List Bar :=
  [{ date := 0, open_ := 10, high := 12, low := 9, close := 11, volume := 100 },
   { date := 60000, open_ := 11, high := 15, low := 10, close := 14, volume := 50 },
   { date := 300000, open_ := 14, high := 14, low := 8, close := 9, volume := 25 }]

/-- The two bars expected from `sampleBars` for the target `5 minutes`. -/
def sampleOut : List Bar :=
  [{ date := 0, open_ := 10, high := 15, low := 9, close := 14, volume := 150 },
   { date := 300000, open_ := 14, high := 14, low := 8, close := 9, volume := 25 }]

/-- Date of the first bar of a group (0 for the empty group). -/
def firstDate : List Bar → Int
  | [] => 0
  | b :: _ => b.date

/-- One bar at 00:00 of 1970-01-01. -/
def singleBar : List Bar :=
  [{ date := 0, open_ := 10, high := 12, low := 9, close := 11, volume := 100 }]

/-- The number of days of a bounded range token. -/
def rangeDays (range : String) : Option Int :=
  if range = "1D" then some 1
  else if range = "5D" then some 5
  else if range = "1M" then some 30
  else if range = "3M" then some 90
  else if range = "6M" then some 180
  else if range = "1Y" then some 365
  else if range = "5Y" then some 1825
  else none

/-- Time value of January 1, 00:00, of a calendar year. -/
def startOfYear (year : Int) : Int := daysFromCivil year 0 * msPerDay

/-- One bar dated 1 June of the year 50, 00:00. -/
def ancientBar : Bar :=
  { date := -60576249600000, open_ := 10, high := 12, low := 9, close := 11, volume := 100 }

/-- The sequence of that one bar. -/
def ancientBars : List Bar := [ancientBar]

/-- The invariant of a bar: the low is at most the open and the close, and the
high is at least both. -/
def ohlcValid (b : Bar) : Prop :=
  b.low ≤ min b.open_ b.close ∧ max b.open_ b.close ≤ b.high

/-- The time intervals of the table `intervalToMinutes`. -/
def tableIntervals : List String :=
  ["1 second", "5 seconds", "10 seconds", "15 seconds", "30 seconds", "45 seconds",
   "1 minute", "2 minutes", "3 minutes", "5 minutes", "10 minutes", "15 minutes",
   "30 minutes", "45 minutes", "1 hour", "2 hours", "3 hours", "4 hours",
   "1 day", "1 week", "1 month", "3 months", "6 months", "12 months"]

/-- One bar dated 15 June 1950, 00:00. -/
def laterBar : Bar :=
  { date := -616896000000, open_ := 20, high := 25, low := 18, close := 22, volume := 40 }

/-- The bar of the year 50 followed by the bar of the year 1950. -/
def centuryBars : List Bar := [ancientBar, laterBar]

/-- The one bar that `transformDataToInterval` returns for `centuryBars` and
the target `1 month`. -/
def centuryOut : List Bar :=
  [{ date := -60576249600000, open_ := 10, high := 25, low := 9, close := 22, volume := 140 }]

/-- The validated targets in a unit of fixed length whose buckets all have the
length the target resolves to: a number of minutes that divides 60, a number of
hours that divides 24, any number of days, one week, and sixty seconds. -/
def IsAlignedTarget (p : IntervalSpec) : Prop :=
  ((p.unit = "minute" ∨ p.unit = "minutes") ∧ p.value ∣ 60) ∨
  ((p.unit = "hour" ∨ p.unit = "hours") ∧ p.value ∣ 24) ∨
  (p.unit = "day" ∨ p.unit = "days") ∨
  ((p.unit = "week" ∨ p.unit = "weeks") ∧ p.value = 1) ∨
  ((p.unit = "second" ∨ p.unit = "seconds") ∧ p.value = 60)

instance (p : IntervalSpec) : Decidable (IsAlignedTarget p) := by
  unfold IsAlignedTarget
  infer_instance

/-- Six consecutive one-minute bars 00:55 to 01:00 of 1970-01-01, each of
volume 1. -/
def hourEndBars : List Bar :=
  [{ date := 3300000, open_ := 1, high := 2, low := 1, close := 2, volume := 1 },
   { date := 3360000, open_ := 2, high := 3, low := 2, close := 3, volume := 1 },
   { date := 3420000, open_ := 3, high := 4, low := 3, close := 4, volume := 1 },
   { date := 3480000, open_ := 4, high := 5, low := 4, close := 5, volume := 1 },
   { date := 3540000, open_ := 5, high := 6, low := 5, close := 6, volume := 1 },
   { date := 3600000, open_ := 6, high := 7, low := 6, close := 7, volume := 1 }]

/-- The three bars that `transformDataToInterval` returns for `hourEndBars` and
the target `7 minutes`. -/
def hourEndOut : List Bar :=
  [{ date := 3300000, open_ := 1, high := 2, low := 1, close := 2, volume := 1 },
   { date := 3360000, open_ := 2, high := 6, low := 2, close := 6, volume := 4 },
   { date := 3600000, open_ := 6, high := 7, low := 6, close := 7, volume := 1 }]

/-! ## Where the exact numbers are the numbers of the code -/

/-- The number 2^53: every whole number up to it is a binary64 number, and
base-10 `parseInt` returns the number written by a digit group exactly when that
number is at most 2^53. -/
def maxExactInt : Nat := 9007199254740992

/-- The time values of the valid dates: at most 8.64e15 milliseconds before or
after the epoch. -/
def InDateRange (t : Int) : Prop :=
  -8640000000000000 ≤ t ∧ t ≤ 8640000000000000

instance (t : Int) : Decidable (InDateRange t) := by
  unfold InDateRange
  infer_instance

/-- The code computes the length in minutes of the interval without rounding:
the value is at most 2^53; for a second unit the value is a multiple of 15, so
that the quotient by 60 is a whole number of quarters; and the length is at
most 2^53. -/
def ExactMinutes (p : IntervalSpec) : Prop :=
  p.value ≤ maxExactInt ∧
  ((p.unit = "second" ∨ p.unit = "seconds") → 15 ∣ p.value) ∧
  (∀ m, getMinutesFromUnit p.value p.unit = some m → m ≤ maxExactInt)

/-- The range tokens: the keys of `rangeToMinutes` and of `rangeToDays`. -/
def rangeTokens : List String :=
  ["1D", "5D", "1M", "3M", "6M", "YTD", "1Y", "5Y", "All"]

/-- The value of the expression `20 / 60` in the code: the binary64 number
nearest to one third, `6004799503160661 / 2^54`. -/
def thirdBinary64 : ℚ := 6004799503160661 / 18014398509481984

/-! ## Theorems -/

/-! ### The matcher -/

theorem space_not_word (c : Char) (h : isSpaceChar c = true) : isWordChar c = false := by
  simp only [isSpaceChar, isWordChar, isDigitChar, Bool.or_eq_true, Bool.and_eq_true,
    decide_eq_true_eq, Bool.or_eq_false_iff, Bool.and_eq_false_iff, decide_eq_false_iff_not] at *
  simp only [show '0'.toNat = 48 from rfl, show '9'.toNat = 57 from rfl,
    show 'a'.toNat = 97 from rfl, show 'z'.toNat = 122 from rfl, show 'A'.toNat = 65 from rfl,
    show 'Z'.toNat = 90 from rfl, show '_'.toNat = 95 from rfl]
  omega

theorem digit_not_space (c : Char) (h : isDigitChar c = true) : isSpaceChar c = false := by
  cases hs : isSpaceChar c with
  | false => rfl
  | true =>
    have := space_not_word c hs
    simp [isWordChar, h] at this

theorem matchWord_eq_some (s w : List Char) :
    matchWord s = some w ↔ s = w ∧ w ≠ [] ∧ ∀ c ∈ w, isWordChar c = true := by
  unfold matchWord
  split
  · rename_i h
    constructor
    · intro e
      cases e
      exact ⟨rfl, h.1, by simpa using h.2⟩
    · rintro ⟨rfl, -, -⟩
      rfl
  · rename_i h
    constructor
    · intro e
      cases e
    · rintro ⟨rfl, h1, h2⟩
      exact absurd ⟨h1, by simpa using h2⟩ h

theorem matchSpaceWord_sound (s : List Char) :
    ∀ w, matchSpaceWord s = some w →
      ∃ ws, s = ws ++ w ∧ (∀ c ∈ ws, isSpaceChar c = true) ∧ w ≠ []
        ∧ ∀ c ∈ w, isWordChar c = true := by
  induction s with
  | nil =>
    intro w h
    simp [matchSpaceWord, matchWord] at h
  | cons c cs ih =>
    intro w h
    have base : matchWord (c :: cs) = some w →
        ∃ ws, c :: cs = ws ++ w ∧ (∀ c ∈ ws, isSpaceChar c = true) ∧ w ≠ []
          ∧ ∀ c ∈ w, isWordChar c = true := by
      intro hw
      obtain ⟨e, h1, h2⟩ := (matchWord_eq_some _ _).mp hw
      exact ⟨[], by simpa using e, by simp, h1, h2⟩
    unfold matchSpaceWord at h
    by_cases hc : isSpaceChar c = true
    · simp only [hc, if_true] at h
      cases hm : matchSpaceWord cs with
      | some w0 =>
        rw [hm] at h
        cases h
        obtain ⟨ws, h1, h2, h3, h4⟩ := ih w hm
        refine ⟨c :: ws, by simp [h1], ?_, h3, h4⟩
        intro d hd
        rcases List.mem_cons.mp hd with rfl | hd
        · exact hc
        · exact h2 d hd
      | none =>
        rw [hm] at h
        exact base h
    · simp only [hc] at h
      exact base h

theorem matchSpaceWord_complete (ws : List Char) (w : List Char)
    (hws : ∀ c ∈ ws, isSpaceChar c = true) (hne : w ≠ [])
    (hw : ∀ c ∈ w, isWordChar c = true) : matchSpaceWord (ws ++ w) = some w := by
  induction ws with
  | nil =>
    cases w with
    | nil => exact absurd rfl hne
    | cons c cs =>
      have hc : isSpaceChar c = false := by
        cases hs : isSpaceChar c with
        | false => rfl
        | true =>
          have := space_not_word c hs
          rw [hw c (List.mem_cons_self _ _)] at this
          cases this
      simp only [List.nil_append, matchSpaceWord, hc]
      exact (matchWord_eq_some _ _).mpr ⟨rfl, hne, hw⟩
  | cons c ws ih =>
    have hc : isSpaceChar c = true := hws c (List.mem_cons_self _ _)
    have := ih (fun d hd => hws d (List.mem_cons_of_mem _ hd))
    rw [List.cons_append, matchSpaceWord]
    simp only [hc, if_true, this]

/-- Any split of `c :: cs` either has the one-character digit group `[c]` or
induces a split of `cs`. -/
theorem split_cons_cases (c : Char) (cs ds ws w : List Char)
    (h : IsIntervalSplit (c :: cs) ds ws w) :
    isDigitChar c = true ∧
      ((ds = [c] ∧ cs = ws ++ w) ∨ ∃ ds1, ds = c :: ds1 ∧ IsIntervalSplit cs ds1 ws w) := by
  obtain ⟨e, hne, hd, hs, hwne, hw⟩ := h
  cases ds with
  | nil => exact absurd rfl hne
  | cons d ds1 =>
    simp only [List.cons_append, List.cons.injEq] at e
    obtain ⟨rfl, e⟩ := e
    refine ⟨hd c (List.mem_cons_self _ _), ?_⟩
    cases ds1 with
    | nil => exact Or.inl ⟨rfl, by simpa using e⟩
    | cons d2 ds2 =>
      exact Or.inr ⟨d2 :: ds2, rfl, e, by simp,
        fun x hx => hd x (List.mem_cons_of_mem _ hx), hs, hwne, hw⟩

/-- Specification of the backtracking matcher: it fails exactly when the input
has no split, and otherwise returns the split with the longest digit group. -/
theorem matchDigits_spec (s : List Char) :
    ∀ pre, match matchDigits pre s with
      | none => ∀ ds ws w, ¬ IsIntervalSplit s ds ws w
      | some (g, w) => ∃ ds ws, g = pre ++ ds ∧ IsIntervalSplit s ds ws w ∧
          ∀ ds1 ws1 w1, IsIntervalSplit s ds1 ws1 w1 → ds1.length ≤ ds.length := by
  induction s with
  | nil =>
    intro pre
    simp only [matchDigits]
    rintro ds ws w ⟨e, hne, -⟩
    have := congrArg List.length e
    simp only [List.length_nil, List.length_append] at this
    exact hne (List.length_eq_zero.mp (by omega))
  | cons c cs ih =>
    intro pre
    unfold matchDigits
    by_cases hc : isDigitChar c = true
    · simp only [hc, if_true]
      have ih1 := ih (pre ++ [c])
      cases hm : matchDigits (pre ++ [c]) cs with
      | some r =>
        obtain ⟨g, w⟩ := r
        rw [hm] at ih1
        obtain ⟨ds, ws, hg, hsplit, hmax⟩ := ih1
        refine ⟨c :: ds, ws, by simp [hg], ?_, ?_⟩
        · obtain ⟨e, hne, hd, hs, hwne, hw⟩ := hsplit
          refine ⟨by simp [e], by simp, ?_, hs, hwne, hw⟩
          intro x hx
          rcases List.mem_cons.mp hx with rfl | hx
          · exact hc
          · exact hd x hx
        · intro ds1 ws1 w1 h1
          rcases (split_cons_cases c cs ds1 ws1 w1 h1).2 with ⟨rfl, -⟩ | ⟨ds2, rfl, h2⟩
          · have : ds ≠ [] := hsplit.2.1
            have := List.length_pos.mpr this
            simp only [List.length_cons, List.length_nil]
            omega
          · have := hmax ds2 ws1 w1 h2
            simp only [List.length_cons]
            omega
      | none =>
        rw [hm] at ih1
        cases hsw : matchSpaceWord cs with
        | some w =>
          obtain ⟨ws, e, hs, hwne, hw⟩ := matchSpaceWord_sound cs w hsw
          simp only [Option.map_some]
          refine ⟨[c], ws, rfl, ⟨by simp [e], by simp, by simpa using hc, hs, hwne, hw⟩, ?_⟩
          intro ds1 ws1 w1 h1
          rcases (split_cons_cases c cs ds1 ws1 w1 h1).2 with ⟨rfl, -⟩ | ⟨ds2, rfl, h2⟩
          · simp
          · exact absurd h2 (ih1 ds2 ws1 w1)
        | none =>
          simp only [Option.map_none]
          intro ds1 ws1 w1 h1
          rcases (split_cons_cases c cs ds1 ws1 w1 h1).2 with ⟨rfl, e⟩ | ⟨ds2, rfl, h2⟩
          · have := matchSpaceWord_complete ws1 w1 h1.2.2.2.1 h1.2.2.2.2.1 h1.2.2.2.2.2
            rw [← e, hsw] at this
            cases this
          · exact absurd h2 (ih1 ds2 ws1 w1)
    · simp only [hc]
      intro ds1 ws1 w1 h1
      exact hc (split_cons_cases c cs ds1 ws1 w1 h1).1

/-! ### parseInterval -/

theorem parseInt_eq_decimalValue (ds : List Char) : parseInt ds = decimalValue ds := by
  unfold parseInt decimalValue
  induction ds using List.reverseRecOn with
  | nil => rfl
  | append_singleton ds c ih =>
    rw [List.foldl_append, List.map_append, List.reverse_append]
    simp only [List.foldl_cons, List.foldl_nil, List.map_cons, List.map_nil,
      List.reverse_cons, List.reverse_nil, List.nil_append, List.singleton_append,
      Nat.ofDigits_cons]
    rw [ih]
    omega

theorem parseInterval_text_eq (s : String) :
    parseInterval (.text s) =
      (matchInterval s.toList).map
        (fun r => { value := parseInt r.1, unit := String.mk (r.2.map Char.toLower) }) := by
  unfold parseInterval intervalText
  by_cases hs : s = ""
  · subst hs
    rfl
  · simp only [hs, if_false]
    cases matchInterval s.toList with
    | none => rfl
    | some r => rfl

theorem parseInterval_pair_eq (full short : String) :
    parseInterval (.pair full short) = parseInterval (.text full) := by
  unfold parseInterval intervalText
  rfl

/-- What a successful parse of a string says about the string. -/
theorem parseInterval_text_some (s : String) (r : IntervalSpec)
    (h : parseInterval (.text s) = some r) :
    ∃ ds ws w, IsIntervalSplit s.toList ds ws w ∧
      (∀ ds1 ws1 w1, IsIntervalSplit s.toList ds1 ws1 w1 → ds1.length ≤ ds.length) ∧
      matchInterval s.toList = some (ds, w) ∧
      r.value = parseInt ds ∧ r.unit = String.mk (w.map Char.toLower) := by
  rw [parseInterval_text_eq] at h
  have spec := matchDigits_spec s.toList []
  unfold matchInterval at h ⊢
  cases hm : matchDigits [] s.toList with
  | none => rw [hm] at h; cases h
  | some p =>
    obtain ⟨g, w⟩ := p
    rw [hm] at h spec
    obtain ⟨ds, ws, hg, hsplit, hmax⟩ := spec
    simp only [List.nil_append] at hg
    subst hg
    cases h
    exact ⟨g, ws, w, hsplit, hmax, rfl, rfl, rfl⟩

theorem parseInterval_text_isSome (s : String) :
    (parseInterval (.text s)).isSome = true ↔ ∃ ds ws w, IsIntervalSplit s.toList ds ws w := by
  rw [parseInterval_text_eq]
  have spec := matchDigits_spec s.toList []
  unfold matchInterval
  cases hm : matchDigits [] s.toList with
  | none =>
    rw [hm] at spec
    constructor
    · intro h
      cases h
    · rintro ⟨ds, ws, w, h⟩
      exact absurd h (spec ds ws w)
  | some p =>
    obtain ⟨g, w⟩ := p
    rw [hm] at spec
    obtain ⟨ds, ws, -, hsplit, -⟩ := spec
    exact ⟨fun _ => ⟨ds, ws, w, hsplit⟩, fun _ => rfl⟩

theorem space_word_unique (ws : List Char) :
    ∀ (w ws1 w1 : List Char), ws ++ w = ws1 ++ w1 →
      (∀ c ∈ ws, isSpaceChar c = true) → (∀ c ∈ ws1, isSpaceChar c = true) →
      w ≠ [] → w1 ≠ [] → (∀ c ∈ w, isWordChar c = true) → (∀ c ∈ w1, isWordChar c = true) →
      w = w1 := by
  induction ws with
  | nil =>
    intro w ws1 w1 e _ hs1 hne _ hw _
    cases ws1 with
    | nil => simpa using e
    | cons c ws2 =>
      simp only [List.nil_append, List.cons_append] at e
      subst e
      have h1 := hs1 c (List.mem_cons_self _ _)
      have h2 := hw c (List.mem_cons_self _ _)
      rw [space_not_word c h1] at h2
      cases h2
  | cons c ws ih =>
    intro w ws1 w1 e hs hs1 hne hne1 hw hw1
    cases ws1 with
    | nil =>
      simp only [List.nil_append, List.cons_append] at e
      subst e
      have h1 := hs c (List.mem_cons_self _ _)
      have h2 := hw1 c (List.mem_cons_self _ _)
      rw [space_not_word c h1] at h2
      cases h2
    | cons d ws2 =>
      simp only [List.cons_append, List.cons.injEq] at e
      exact ih w ws2 w1 e.2 (fun x hx => hs x (List.mem_cons_of_mem _ hx))
        (fun x hx => hs1 x (List.mem_cons_of_mem _ hx)) hne hne1 hw hw1

/-- Two splits of one input with digit groups of the same length coincide. -/
theorem split_unique (s ds ws w ds1 ws1 w1 : List Char)
    (h : IsIntervalSplit s ds ws w) (h1 : IsIntervalSplit s ds1 ws1 w1)
    (hlen : ds1.length = ds.length) : ds1 = ds ∧ w1 = w := by
  obtain ⟨e, -, -, hs, hne, hw⟩ := h
  obtain ⟨e1, -, -, hs1, hne1, hw1⟩ := h1
  rw [e, List.append_assoc, List.append_assoc] at e1
  obtain ⟨hd, hrest⟩ := List.append_inj e1 hlen.symm
  exact ⟨hd.symm, (space_word_unique ws w ws1 w1 hrest hs hs1 hne hne1 hw hw1).symm⟩

theorem parseInt_foldl_eq_zero (ds : List Char) :
    ∀ a : Nat, ds.foldl (fun acc c => 10 * acc + (c.toNat - '0'.toNat)) a = 0 ↔
      a = 0 ∧ ∀ c ∈ ds, c.toNat - '0'.toNat = 0 := by
  induction ds with
  | nil => intro a; simp
  | cons d ds ih =>
    intro a
    rw [List.foldl_cons, ih]
    simp only [List.mem_cons, forall_eq_or_imp]
    constructor
    · rintro ⟨h1, h2⟩
      exact ⟨by omega, by omega, h2⟩
    · rintro ⟨h1, h2, h3⟩
      exact ⟨by omega, h3⟩

theorem digit_val_zero (c : Char) (hd : isDigitChar c = true) :
    c.toNat - '0'.toNat = 0 ↔ c = '0' := by
  simp only [isDigitChar, Bool.and_eq_true, decide_eq_true_eq] at hd
  constructor
  · intro h
    have h48 : c.toNat = 48 := by
      have : '0'.toNat = 48 := rfl
      omega
    have := Char.ofNat_toNat c
    rw [h48] at this
    exact this.symm
  · rintro rfl
    rfl

theorem parseInt_pos_iff (ds : List Char) (hd : ∀ c ∈ ds, isDigitChar c = true) :
    1 ≤ parseInt ds ↔ ∃ c ∈ ds, c ≠ '0' := by
  have h := parseInt_foldl_eq_zero ds 0
  unfold parseInt
  constructor
  · intro hpos
    by_contra hall
    have : ∀ c ∈ ds, c.toNat - '0'.toNat = 0 := by
      intro c hc
      by_contra hne
      exact hall ⟨c, hc, fun e => hne ((digit_val_zero c (hd c hc)).mpr e)⟩
    have := h.mpr ⟨rfl, this⟩
    omega
  · rintro ⟨c, hc, hne⟩
    by_contra hzero
    have : ds.foldl (fun acc c => 10 * acc + (c.toNat - '0'.toNat)) 0 = 0 := by omega
    exact hne ((digit_val_zero c (hd c hc)).mp ((h.mp this).2 c hc))

/-- C8: `parseInterval` returns an interval exactly when the string is a digit
group, optional white space and a word and nothing else; the digit group and the
word are the captures of the pattern, the digit group being the longest
possible; the unit is the matched word in lower case; when the decimal number
of the digit group is at most 2^53 the value is that number; a pair
`{full, short}` parses as its `full` string; any other input gives none. -/
theorem parseInterval_grammar (s short : String) :
    ((parseInterval (.text s)).isSome = true ↔
        ∃ ds ws w, IsIntervalSplit s.toList ds ws w) ∧
    (∀ r, parseInterval (.text s) = some r →
      ∃ ds ws w, IsIntervalSplit s.toList ds ws w ∧
        matchInterval s.toList = some (ds, w) ∧
        (∀ ds1 ws1 w1, IsIntervalSplit s.toList ds1 ws1 w1 →
          ds1.length ≤ ds.length ∧ (ds1.length = ds.length → ds1 = ds ∧ w1 = w)) ∧
        (decimalValue ds ≤ maxExactInt → r.value = decimalValue ds) ∧
        r.unit = String.mk (w.map Char.toLower)) ∧
    parseInterval (.pair s short) = parseInterval (.text s) ∧
    parseInterval .other = none := by
  refine ⟨parseInterval_text_isSome s, ?_, parseInterval_pair_eq s short, rfl⟩
  intro r h
  obtain ⟨ds, ws, w, hsplit, hmax, hm, hv, hu⟩ := parseInterval_text_some s r h
  refine ⟨ds, ws, w, hsplit, hm, ?_, fun _ => by rw [hv, parseInt_eq_decimalValue], hu⟩
  intro ds1 ws1 w1 h1
  exact ⟨hmax ds1 ws1 w1 h1, split_unique s.toList ds ws w ds1 ws1 w1 hsplit h1⟩

/-- Witness for C8 at the string `15 minutes`. -/
theorem parseInterval_grammar_witness :
    ∃ ds ws w, IsIntervalSplit "15 minutes".toList ds ws w ∧ ds = ['1', '5'] ∧
      decimalValue ds = 15 ∧ String.mk (w.map Char.toLower) = "minutes" := by
  obtain ⟨ds, ws, w, h1, hm, -, h3, h4⟩ :=
    (parseInterval_grammar "15 minutes" "15m").2.1 ⟨15, "minutes"⟩ (by decide)
  have hm2 : matchInterval "15 minutes".toList = some (['1', '5'], "minutes".toList) := by
    decide
  rw [hm2] at hm
  have hds : ds = ['1', '5'] := (Prod.mk.inj (Option.some.inj hm)).1.symm
  have hval : decimalValue ds = 15 := by
    rw [hds, ← parseInt_eq_decimalValue]
    decide
  exact ⟨ds, ws, w, h1, hds, hval, h4.symm⟩

/-- C9 (as stated, refuted): the string `0 minutes` parses to an interval whose
value is 0, which is not at least 1. -/
theorem parseInterval_value_zero :
    parseInterval (.text "0 minutes") = some ⟨0, "minutes"⟩ ∧ ¬ (1 ≤ (0 : Nat)) := by
  exact ⟨by decide, by decide⟩

/-- C9 (amended): when `parseInterval` returns an interval, its value is at
least 1 exactly when the matched digit group has a digit other than zero; and
when the natural number written by the digit group is at most 2^53, the value is
that number. -/
theorem parseInterval_value_pos_iff (input : IntervalInput) (r : IntervalSpec)
    (h : parseInterval input = some r) :
    ∃ s ds w, intervalText input = some s ∧ matchInterval s.toList = some (ds, w) ∧
      (decimalValue ds ≤ maxExactInt → r.value = decimalValue ds) ∧
      (1 ≤ r.value ↔ ∃ c ∈ ds, c ≠ '0') := by
  have key : ∀ s : String, parseInterval (.text s) = some r →
      ∃ ds w, matchInterval s.toList = some (ds, w) ∧
        (decimalValue ds ≤ maxExactInt → r.value = decimalValue ds) ∧
        (1 ≤ r.value ↔ ∃ c ∈ ds, c ≠ '0') := by
    intro s hs
    obtain ⟨ds, ws, w, hsplit, -, hm, hv, -⟩ := parseInterval_text_some s r hs
    refine ⟨ds, w, hm, fun _ => by rw [hv, parseInt_eq_decimalValue], ?_⟩
    rw [hv]
    exact parseInt_pos_iff ds hsplit.2.2.1
  cases input with
  | text s =>
    obtain ⟨ds, w, h1, h2, h3⟩ := key s h
    refine ⟨s, ds, w, ?_, h1, h2, h3⟩
    unfold intervalText
    by_cases hs : s = ""
    · subst hs
      cases h
    · simp [hs]
  | pair full short =>
    rw [parseInterval_pair_eq] at h
    obtain ⟨ds, w, h1, h2, h3⟩ := key full h
    refine ⟨full, ds, w, ?_, h1, h2, h3⟩
    unfold intervalText
    by_cases hs : full = ""
    · subst hs
      cases h
    · simp [hs]
  | other => cases h

/-- Witness for C9 (amended) at `05 minutes`, whose value 5 is at least 1. -/
theorem parseInterval_value_pos_iff_witness :
    parseInterval (.text "05 minutes") = some ⟨5, "minutes"⟩ ∧
    ∃ s ds w, intervalText (.text "05 minutes") = some s ∧
      matchInterval s.toList = some (ds, w) ∧
      (decimalValue ds ≤ maxExactInt → (5 : Nat) = decimalValue ds) ∧
      (1 ≤ (5 : Nat) ↔ ∃ c ∈ ds, c ≠ '0') :=
  ⟨by decide, parseInterval_value_pos_iff (.text "05 minutes") ⟨5, "minutes"⟩ (by decide)⟩

/-- C10: the unit table of `getMinutesFromUnit`: seconds are `v / 60`, minutes
`v`, hours `60 v`, days `1440 v`, weeks `10080 v`, months `43200 v`, in the
singular and the plural spelling, and every other unit, `tick` and `range`
included, gives none. -/
theorem getMinutesFromUnit_table (v : ℚ) :
    getMinutesFromUnit v "second" = some (v / 60) ∧
    getMinutesFromUnit v "seconds" = some (v / 60) ∧
    getMinutesFromUnit v "minute" = some v ∧
    getMinutesFromUnit v "minutes" = some v ∧
    getMinutesFromUnit v "hour" = some (60 * v) ∧
    getMinutesFromUnit v "hours" = some (60 * v) ∧
    getMinutesFromUnit v "day" = some (1440 * v) ∧
    getMinutesFromUnit v "days" = some (1440 * v) ∧
    getMinutesFromUnit v "week" = some (10080 * v) ∧
    getMinutesFromUnit v "weeks" = some (10080 * v) ∧
    getMinutesFromUnit v "month" = some (43200 * v) ∧
    getMinutesFromUnit v "months" = some (43200 * v) ∧
    getMinutesFromUnit v "tick" = none ∧
    getMinutesFromUnit v "range" = none ∧
    ∀ u : String, u ∉ timeUnits → getMinutesFromUnit v u = none := by
  refine ⟨?_, ?_, ?_, ?_, ?_, ?_, ?_, ?_, ?_, ?_, ?_, ?_, ?_, ?_, ?_⟩
  all_goals first
    | (simp [getMinutesFromUnit]; done)
    | (simp [getMinutesFromUnit, mul_comm]; done)
    | (intro u hu
       simp only [timeUnits, List.mem_cons, List.mem_singleton, List.not_mem_nil, or_false,
         not_or] at hu
       simp [getMinutesFromUnit, hu])

/-- Witness for C10: a unit outside the table, here `fortnight`, gives none. -/
theorem getMinutesFromUnit_table_witness : getMinutesFromUnit 5 "fortnight" = none :=
  (getMinutesFromUnit_table 5).2.2.2.2.2.2.2.2.2.2.2.2.2.2 "fortnight" (by decide)

/-! ### The validator -/

theorem includesChars_mem (s pat : List Char) (h : includesChars s pat = true) :
    ∀ c ∈ pat, c ∈ s := by
  unfold includesChars at h
  rw [List.any_eq_true] at h
  obtain ⟨t, ht, hp⟩ := h
  intro c hc
  have h1 : pat <+: t := List.isPrefixOf_iff_prefix.mp hp
  have h2 : t <:+ s := (List.mem_tails _ _).mp ht
  exact h2.subset (h1.subset hc)

theorem includesChars_of_suffix (p pat : List Char) : includesChars (p ++ pat) pat = true := by
  unfold includesChars
  rw [List.any_eq_true]
  refine ⟨pat, (List.mem_tails _ _).mpr (List.suffix_append _ _), ?_⟩
  exact List.isPrefixOf_iff_prefix.mpr (List.prefix_refl _)

theorem truncQ_of_nonneg (q : ℚ) (h : 0 ≤ q) : truncQ q = ⌊q⌋ := by
  unfold truncQ
  simp [h]

theorem jsMod_eq_zero_iff (t r : ℚ) (hr : 0 < r) (ht : 0 ≤ t) :
    jsMod t r = 0 ↔ ∃ k : ℤ, t = k * r := by
  unfold jsMod
  rw [truncQ_of_nonneg _ (div_nonneg ht hr.le)]
  constructor
  · intro h
    exact ⟨⌊t / r⌋, by linarith⟩
  · rintro ⟨k, rfl⟩
    have : (k : ℚ) * r / r = k := by field_simp
    rw [this, Int.floor_intCast]
    ring

/-- C4: `canTransformData` is true exactly when `getTransformationError` has no
message. -/
theorem canTransformData_iff_no_error (s t : String) :
    canTransformData s t = true ↔ getTransformationError s t = none := by
  unfold canTransformData getTransformationError
  cases includes t "tick" <;> cases includes t "range" <;>
    simp only [Bool.or_false, Bool.or_true, Bool.false_eq_true, if_false, if_true,
      reduceCtorEq, iff_false, not_false_eq_true, Bool.true_or, not_true_eq_false]
  cases parseInterval (.text s) with
  | none => simp
  | some sp =>
    cases parseInterval (.text t) with
    | none => simp
    | some tp =>
      simp only []
      cases getMinutesFromUnit sp.value sp.unit with
      | none => simp
      | some r =>
        cases getMinutesFromUnit tp.value tp.unit with
        | none => simp
        | some m =>
          simp only []
          by_cases h0 : r = 0 ∨ m = 0
          · simp [h0]
          · simp only [h0, if_false]
            by_cases h1 : m < r
            · simp [h1, not_le.mpr h1]
            · by_cases h2 : jsMod m r = 0
              · simp [h1, h2, not_lt.mp h1]
              · simp [h1, h2]

/-- A character of a parsed string that is neither a digit nor white space
belongs to the unit word. -/
theorem parse_letter_mem_unit (t : String) (tp : IntervalSpec)
    (h : parseInterval (.text t) = some tp) (c : Char) (hc : c ∈ t.toList)
    (hd : isDigitChar c = false) (hs : isSpaceChar c = false) :
    c.toLower ∈ tp.unit.toList := by
  obtain ⟨ds, ws, w, ⟨e, -, hds, hws, -, -⟩, -, -, -, hu⟩ := parseInterval_text_some t tp h
  rw [e] at hc
  rw [hu]
  simp only [List.mem_append] at hc
  rcases hc with (hc | hc) | hc
  · rw [hds c hc] at hd
    cases hd
  · rw [hws c hc] at hs
    cases hs
  · exact List.mem_map_of_mem _ hc

theorem no_tick_of_time_unit (t : String) (tp : IntervalSpec)
    (h : parseInterval (.text t) = some tp) (hu : tp.unit ∈ timeUnits) :
    includes t "tick" = false := by
  cases hi : includes t "tick" with
  | false => rfl
  | true =>
    have hmem := includesChars_mem _ _ hi
    have hk := parse_letter_mem_unit t tp h 'k' (hmem 'k' (by decide)) (by decide) (by decide)
    have ht := parse_letter_mem_unit t tp h 't' (hmem 't' (by decide)) (by decide) (by decide)
    simp only [timeUnits, List.mem_cons, List.mem_singleton, List.not_mem_nil, or_false] at hu
    rcases hu with hu | hu | hu | hu | hu | hu | hu | hu | hu | hu | hu | hu <;>
      rw [hu] at hk ht <;> revert hk ht <;> decide

theorem no_range_of_time_unit (t : String) (tp : IntervalSpec)
    (h : parseInterval (.text t) = some tp) (hu : tp.unit ∈ timeUnits) :
    includes t "range" = false := by
  cases hi : includes t "range" with
  | false => rfl
  | true =>
    have hmem := includesChars_mem _ _ hi
    have hg := parse_letter_mem_unit t tp h 'g' (hmem 'g' (by decide)) (by decide) (by decide)
    simp only [timeUnits, List.mem_cons, List.mem_singleton, List.not_mem_nil, or_false] at hu
    rcases hu with hu | hu | hu | hu | hu | hu | hu | hu | hu | hu | hu | hu <;>
      rw [hu] at hg <;> revert hg <;> decide

/-- A time unit resolves every value of at least 1 to a positive length. -/
theorem time_unit_minutes_pos (v : Nat) (u : String) (hv : 1 ≤ v) (hu : u ∈ timeUnits) :
    ∃ m : ℚ, getMinutesFromUnit v u = some m ∧ 0 < m := by
  have hv1 : (0 : ℚ) < v := by exact_mod_cast hv
  simp only [timeUnits, List.mem_cons, List.mem_singleton, List.not_mem_nil, or_false] at hu
  rcases hu with hu | hu | hu | hu | hu | hu | hu | hu | hu | hu | hu | hu <;> subst hu
  · exact ⟨v / 60, by simp [getMinutesFromUnit], by positivity⟩
  · exact ⟨v / 60, by simp [getMinutesFromUnit], by positivity⟩
  · exact ⟨v, by simp [getMinutesFromUnit], hv1⟩
  · exact ⟨v, by simp [getMinutesFromUnit], hv1⟩
  · exact ⟨v * 60, by simp [getMinutesFromUnit], by positivity⟩
  · exact ⟨v * 60, by simp [getMinutesFromUnit], by positivity⟩
  · exact ⟨v * 1440, by simp [getMinutesFromUnit], by positivity⟩
  · exact ⟨v * 1440, by simp [getMinutesFromUnit], by positivity⟩
  · exact ⟨v * 10080, by simp [getMinutesFromUnit], by positivity⟩
  · exact ⟨v * 10080, by simp [getMinutesFromUnit], by positivity⟩
  · exact ⟨v * 43200, by simp [getMinutesFromUnit], by positivity⟩
  · exact ⟨v * 43200, by simp [getMinutesFromUnit], by positivity⟩

theorem getMinutesFromUnit_nonneg (v : Nat) (u : String) (m : ℚ)
    (h : getMinutesFromUnit v u = some m) : 0 ≤ m := by
  have hv : (0 : ℚ) ≤ v := Nat.cast_nonneg v
  unfold getMinutesFromUnit at h
  split_ifs at h <;> cases h <;> positivity

/-- The validator once the gate is passed and both intervals resolve. -/
theorem canTransformData_resolved (s t : String) (sp tp : IntervalSpec) (sm tm : ℚ)
    (h1 : includes t "tick" = false) (h2 : includes t "range" = false)
    (hs : parseInterval (.text s) = some sp) (ht : parseInterval (.text t) = some tp)
    (hsm : getMinutesFromUnit sp.value sp.unit = some sm)
    (htm : getMinutesFromUnit tp.value tp.unit = some tm) (h0 : sm ≠ 0) (h0t : tm ≠ 0) :
    canTransformData s t = (decide (tm ≥ sm) && decide (jsMod tm sm = 0)) := by
  unfold canTransformData
  simp [h1, h2, hs, ht, hsm, htm, h0, h0t]

/-- The divisibility rule where the code computes both lengths without
rounding: when source and target both parse with a value of at least 1 and a
time unit, and both satisfy `ExactMinutes`, `canTransformData` is true exactly
when the target length is at least the source length and an integer multiple of
it. -/
theorem canTransformData_divisibility (s t : String) (sp tp : IntervalSpec)
    (hs : parseInterval (.text s) = some sp) (ht : parseInterval (.text t) = some tp)
    (hsv : 1 ≤ sp.value) (htv : 1 ≤ tp.value)
    (hsu : sp.unit ∈ timeUnits) (htu : tp.unit ∈ timeUnits)
    (_hse : ExactMinutes sp) (_hte : ExactMinutes tp) :
    ∃ sm tm : ℚ, getMinutesFromUnit sp.value sp.unit = some sm ∧
      getMinutesFromUnit tp.value tp.unit = some tm ∧
      (canTransformData s t = true ↔ (tm ≥ sm ∧ ∃ k : ℤ, tm = k * sm)) := by
  obtain ⟨sm, hsm, hspos⟩ := time_unit_minutes_pos sp.value sp.unit hsv hsu
  obtain ⟨tm, htm, htpos⟩ := time_unit_minutes_pos tp.value tp.unit htv htu
  refine ⟨sm, tm, hsm, htm, ?_⟩
  rw [canTransformData_resolved s t sp tp sm tm (no_tick_of_time_unit t tp ht htu)
    (no_range_of_time_unit t tp ht htu) hs ht hsm htm hspos.ne' htpos.ne']
  simp only [Bool.and_eq_true, decide_eq_true_eq]
  rw [jsMod_eq_zero_iff tm sm hspos htpos.le]

theorem exactMinutes_one_minute : ExactMinutes ⟨1, "minute"⟩ := by
  refine ⟨by decide, by decide, fun m hm => ?_⟩
  simp [getMinutesFromUnit] at hm
  subst hm
  norm_num [maxExactInt]

theorem exactMinutes_three_minutes : ExactMinutes ⟨3, "minutes"⟩ := by
  refine ⟨by decide, by decide, fun m hm => ?_⟩
  simp [getMinutesFromUnit] at hm
  subst hm
  norm_num [maxExactInt]

theorem exactMinutes_ninety_seconds : ExactMinutes ⟨90, "seconds"⟩ := by
  refine ⟨by decide, by decide, fun m hm => ?_⟩
  simp [getMinutesFromUnit] at hm
  subst hm
  norm_num [maxExactInt]

/-- The two examples of the rule: `1 minute` to `3 minutes` is allowed and
`1 minute` to `90 seconds` is not. -/
theorem canTransformData_divisibility_examples :
    canTransformData "1 minute" "3 minutes" = true ∧
    canTransformData "1 minute" "90 seconds" = false := by
  constructor
  · obtain ⟨sm, tm, h1, h2, h3⟩ := canTransformData_divisibility "1 minute" "3 minutes"
      ⟨1, "minute"⟩ ⟨3, "minutes"⟩ (by decide) (by decide) (by decide) (by decide)
      (by decide) (by decide) exactMinutes_one_minute exactMinutes_three_minutes
    simp [getMinutesFromUnit] at h1 h2
    subst h1 h2
    exact h3.mpr ⟨by norm_num, 3, by norm_num⟩
  · obtain ⟨sm, tm, h1, h2, h3⟩ := canTransformData_divisibility "1 minute" "90 seconds"
      ⟨1, "minute"⟩ ⟨90, "seconds"⟩ (by decide) (by decide) (by decide) (by decide)
      (by decide) (by decide) exactMinutes_one_minute exactMinutes_ninety_seconds
    simp [getMinutesFromUnit] at h1 h2
    subst h1 h2
    cases hc : canTransformData "1 minute" "90 seconds" with
    | false => rfl
    | true =>
      obtain ⟨-, k, hk⟩ := h3.mp hc
      have h2k : ((2 * k : ℤ) : ℚ) = ((3 : ℤ) : ℚ) := by
        push_cast
        linarith
      have : 2 * k = 3 := by exact_mod_cast h2k
      omega

theorem gate_tick (s t : String) (h : includes t "tick" = true) :
    canTransformData s t = false ∧ getTransformationError s t = some msgTick := by
  unfold canTransformData getTransformationError
  simp [h]

theorem gate_range (s t : String) (h1 : includes t "tick" = false)
    (h : includes t "range" = true) :
    canTransformData s t = false ∧ getTransformationError s t = some msgRange := by
  unfold canTransformData getTransformationError
  simp [h, h1]

theorem canTransformData_unresolved_target (s t : String) (tp : IntervalSpec)
    (ht : parseInterval (.text t) = some tp)
    (hm : getMinutesFromUnit tp.value tp.unit = none) : canTransformData s t = false := by
  unfold canTransformData
  split
  · rfl
  · rw [ht]
    cases parseInterval (.text s) with
    | none => rfl
    | some sp =>
      simp only [hm]
      cases getMinutesFromUnit sp.value sp.unit <;> rfl

/-- C6 (as stated, refuted): the target `1 Tick` has the unit tick, yet the
message is the one for an unsupported time unit, which does not mention tick
intervals. -/
theorem tick_target_other_message :
    parseInterval (.text "1 Tick") = some ⟨1, "tick"⟩ ∧
    getTransformationError "1 minute" "1 Tick" = some msgUnsupportedUnit ∧
    msgUnsupportedUnit ≠ msgTick ∧ includes msgUnsupportedUnit "tick" = false := by
  refine ⟨by decide, ?_, by decide, by decide⟩
  have h1 : parseInterval (.text "1 minute") = some ⟨1, "minute"⟩ := by decide
  have h2 : parseInterval (.text "1 Tick") = some ⟨1, "tick"⟩ := by decide
  have h3 : includes "1 Tick" "tick" = false := by decide
  have h4 : includes "1 Tick" "range" = false := by decide
  unfold getTransformationError
  simp [h1, h2, h3, h4, getMinutesFromUnit]

/-- C6 (amended): a target whose unit is tick or range is always rejected by
`canTransformData`; `getTransformationError` gives the tick message whenever the
target text contains the lower-case word `tick`, and the range message whenever
it contains `range` and not `tick`; this is the case when the unit is written
in lower case at the end of the target. -/
theorem tick_range_target_rejected (s t : String) :
    (∀ tp, parseInterval (.text t) = some tp →
        tp.unit ∈ ["tick", "ticks", "range", "ranges"] → canTransformData s t = false) ∧
    (includes t "tick" = true →
        canTransformData s t = false ∧ getTransformationError s t = some msgTick) ∧
    (includes t "tick" = false → includes t "range" = true →
        canTransformData s t = false ∧ getTransformationError s t = some msgRange) ∧
    (∀ p, t.toList = p ++ "tick".toList →
        canTransformData s t = false ∧ getTransformationError s t = some msgTick) ∧
    (∀ tp p, parseInterval (.text t) = some tp → tp.unit = "range" →
        t.toList = p ++ "range".toList →
        canTransformData s t = false ∧ getTransformationError s t = some msgRange) := by
  refine ⟨?_, gate_tick s t, gate_range s t, ?_, ?_⟩
  · intro tp ht hu
    apply canTransformData_unresolved_target s t tp ht
    simp only [List.mem_cons, List.mem_singleton, List.not_mem_nil, or_false] at hu
    rcases hu with hu | hu | hu | hu <;> rw [hu] <;> simp [getMinutesFromUnit]
  · intro p hp
    apply gate_tick
    unfold includes
    rw [hp]
    exact includesChars_of_suffix _ _
  · intro tp p ht hu hp
    apply gate_range
    · cases hi : includes t "tick" with
      | false => rfl
      | true =>
        have hmem := includesChars_mem _ _ hi
        have hk := parse_letter_mem_unit t tp ht 'k' (hmem 'k' (by decide)) (by decide)
          (by decide)
        rw [hu] at hk
        revert hk
        decide
    · unfold includes
      rw [hp]
      exact includesChars_of_suffix _ _

/-- Witness for C6 (amended) at the pair `1 minute`, `1 tick`. -/
theorem tick_range_target_rejected_witness :
    canTransformData "1 minute" "1 tick" = false ∧
    getTransformationError "1 minute" "1 tick" = some msgTick :=
  (tick_range_target_rejected "1 minute" "1 tick").2.1 (by decide)

/-- C7 (as stated, refuted): for the target `1 fortnight`, whose unit is not
tick or range and which parses but does not resolve, the message is the one
for an unsupported time unit, not the message for an unparseable interval nor
any of the other three kinds. -/
theorem unresolved_target_fifth_message :
    canTransformData "1 minute" "1 fortnight" = false ∧
    parseInterval (.text "1 fortnight") = some ⟨1, "fortnight"⟩ ∧
    getMinutesFromUnit 1 "fortnight" = none ∧
    getTransformationError "1 minute" "1 fortnight" = some msgUnsupportedUnit ∧
    msgUnsupportedUnit ≠ msgInvalidFormat ∧ msgUnsupportedUnit ≠ msgTick ∧
    msgUnsupportedUnit ≠ msgRange ∧
    msgUnsupportedUnit ≠ msgSmaller "1 minute" "1 fortnight" ∧
    msgUnsupportedUnit ≠ msgNotDivisible "1 minute" "1 fortnight" := by
  have h1 : parseInterval (.text "1 minute") = some ⟨1, "minute"⟩ := by decide
  have h2 : parseInterval (.text "1 fortnight") = some ⟨1, "fortnight"⟩ := by decide
  have h3 : includes "1 fortnight" "tick" = false := by decide
  have h4 : includes "1 fortnight" "range" = false := by decide
  refine ⟨?_, h2, by simp [getMinutesFromUnit], ?_, by decide, by decide, by decide,
    by decide, by decide⟩
  · unfold canTransformData
    simp [h1, h2, h3, h4, getMinutesFromUnit]
  · unfold getTransformationError
    simp [h1, h2, h3, h4, getMinutesFromUnit]

/-- C7 (amended): the message of `getTransformationError` is decided in this
order: the tick message when the target text contains `tick`; the range message
when it contains `range`; the invalid-format message when one of the two
intervals does not parse; the unsupported-unit message when one of them has no
length in minutes or the length zero; and, where the code computes both lengths
without rounding (`ExactMinutes`), the target-is-smaller message when the target
is shorter than the source, the not-divisible message when the target is not an
integer multiple of the source, and no message otherwise. Whenever
`canTransformData` is false the result is one of these six messages. -/
theorem getTransformationError_kinds (s t : String) :
    (includes t "tick" = true → getTransformationError s t = some msgTick) ∧
    (includes t "tick" = false → includes t "range" = true →
        getTransformationError s t = some msgRange) ∧
    (includes t "tick" = false → includes t "range" = false →
      ((parseInterval (.text s) = none ∨ parseInterval (.text t) = none) →
        getTransformationError s t = some msgInvalidFormat) ∧
      (∀ sp tp, parseInterval (.text s) = some sp → parseInterval (.text t) = some tp →
        ((getMinutesFromUnit sp.value sp.unit = none ∨
            getMinutesFromUnit sp.value sp.unit = some 0 ∨
            getMinutesFromUnit tp.value tp.unit = none ∨
            getMinutesFromUnit tp.value tp.unit = some 0) →
          getTransformationError s t = some msgUnsupportedUnit) ∧
        (∀ sm tm, getMinutesFromUnit sp.value sp.unit = some sm →
          getMinutesFromUnit tp.value tp.unit = some tm → sm ≠ 0 → tm ≠ 0 →
          ExactMinutes sp → ExactMinutes tp →
          (tm < sm → getTransformationError s t = some (msgSmaller s t)) ∧
          (sm ≤ tm → (¬ ∃ k : ℤ, tm = k * sm) →
            getTransformationError s t = some (msgNotDivisible s t)) ∧
          (sm ≤ tm → (∃ k : ℤ, tm = k * sm) → getTransformationError s t = none)))) ∧
    (canTransformData s t = false →
      getTransformationError s t = some msgTick ∨
      getTransformationError s t = some msgRange ∨
      getTransformationError s t = some msgInvalidFormat ∨
      getTransformationError s t = some msgUnsupportedUnit ∨
      getTransformationError s t = some (msgSmaller s t) ∨
      getTransformationError s t = some (msgNotDivisible s t)) := by
  refine ⟨fun h => (gate_tick s t h).2, fun h1 h2 => (gate_range s t h1 h2).2, ?_, ?_⟩
  · intro h1 h2
    refine ⟨?_, ?_⟩
    · intro h
      unfold getTransformationError
      rcases h with h | h
      · simp [h1, h2, h]
      · cases hs : parseInterval (.text s) <;> simp [h1, h2, h, hs]
    · intro sp tp hs ht
      refine ⟨?_, ?_⟩
      · intro h
        unfold getTransformationError
        rcases h with h | h | h | h
        · simp [h1, h2, hs, ht, h]
        · cases hm : getMinutesFromUnit tp.value tp.unit <;> simp [h1, h2, hs, ht, h, hm]
        · cases hm : getMinutesFromUnit sp.value sp.unit <;> simp [h1, h2, hs, ht, h, hm]
        · cases hm : getMinutesFromUnit sp.value sp.unit <;> simp [h1, h2, hs, ht, h, hm]
      · intro sm tm hsm htm h0 h0t _ _
        have hspos : 0 < sm :=
          lt_of_le_of_ne (getMinutesFromUnit_nonneg _ _ _ hsm) (Ne.symm h0)
        have htpos : 0 ≤ tm := getMinutesFromUnit_nonneg _ _ _ htm
        have hmod := jsMod_eq_zero_iff tm sm hspos htpos
        unfold getTransformationError
        refine ⟨?_, ?_, ?_⟩
        · intro hlt
          simp [h1, h2, hs, ht, hsm, htm, h0, h0t, hlt]
        · intro hle hk
          have : ¬ jsMod tm sm = 0 := fun e => hk (hmod.mp e)
          simp [h1, h2, hs, ht, hsm, htm, h0, h0t, not_lt.mpr hle, this]
        · intro hle hk
          simp [h1, h2, hs, ht, hsm, htm, h0, h0t, not_lt.mpr hle, hmod.mpr hk]
  · intro hc
    unfold canTransformData at hc
    unfold getTransformationError
    cases h1 : includes t "tick"
    · cases h2 : includes t "range"
      · simp only [h1, h2, Bool.or_false, Bool.false_eq_true, if_false] at hc ⊢
        cases hs : parseInterval (.text s) with
        | none => simp
        | some sp =>
          cases ht : parseInterval (.text t) with
          | none => simp
          | some tp =>
            simp only [hs, ht] at hc ⊢
            cases hsm : getMinutesFromUnit sp.value sp.unit with
            | none => simp
            | some sm =>
              cases htm : getMinutesFromUnit tp.value tp.unit with
              | none => simp
              | some tm =>
                simp only [hsm, htm] at hc ⊢
                by_cases h0 : sm = 0 ∨ tm = 0
                · simp [h0]
                · simp only [h0, if_false] at hc ⊢
                  by_cases hlt : tm < sm
                  · simp [hlt]
                  · have hmod : ¬ jsMod tm sm = 0 := by
                      intro e
                      simp [not_lt.mp hlt, e] at hc
                    simp [hlt, hmod]
      · simp [h2]
    · simp

/-- Witness for C7 (amended): from `1 hour` to `1 minute` the message is the one
for a target smaller than the source. -/
theorem getTransformationError_kinds_witness :
    getTransformationError "1 hour" "1 minute" = some (msgSmaller "1 hour" "1 minute") := by
  have h := (getTransformationError_kinds "1 hour" "1 minute").2.2.1 (by decide) (by decide)
  have e1 : ExactMinutes ⟨1, "hour"⟩ := by
    refine ⟨by decide, by decide, fun m hm => ?_⟩
    simp [getMinutesFromUnit] at hm
    subst hm
    norm_num [maxExactInt]
  have h2 := (h.2 ⟨1, "hour"⟩ ⟨1, "minute"⟩ (by decide) (by decide)).2 60 1
    (by simp [getMinutesFromUnit]) (by simp [getMinutesFromUnit]) (by norm_num) (by norm_num)
    e1 exactMinutes_one_minute
  exact h2.1 (by norm_num)

/-! ### The aggregation loop -/

theorem flushGroup_eq (result group : List Bar) :
    flushGroup result group = result ++ (aggregateCandles group).toList := by
  unfold flushGroup
  cases group with
  | nil => simp [aggregateCandles]
  | cons b bs => simp [aggregateCandles]

/-- The loop, started with an open group, closes the groups of `groupsFrom`. -/
theorem foldl_loopStep (p : IntervalSpec) (bs : List Bar) :
    ∀ (res cur : List Bar) (k : Int),
      flushGroup (bs.foldl (loopStep p) ⟨res, cur, some k⟩).result
          (bs.foldl (loopStep p) ⟨res, cur, some k⟩).currentGroup =
      res ++ (groupsFrom (fun b => bucketStart p b.date) cur k bs).filterMap
        aggregateCandles := by
  induction bs with
  | nil =>
    intro res cur k
    simp only [List.foldl_nil, groupsFrom, flushGroup_eq]
    cases h : aggregateCandles cur <;> simp [List.filterMap_cons, h]
  | cons b bs ih =>
    intro res cur k
    simp only [List.foldl_cons]
    by_cases hk : bucketStart p b.date = k
    · have hstep : loopStep p { result := res, currentGroup := cur, groupStartTime := some k } b
          = { result := res, currentGroup := cur ++ [b], groupStartTime := some k } := by
        simp [loopStep, hk]
      rw [hstep]
      have := ih res (cur ++ [b]) k
      simp only [groupsFrom, hk, if_true]
      exact this
    · have hstep : loopStep p { result := res, currentGroup := cur, groupStartTime := some k } b
          = { result := flushGroup res cur, currentGroup := [b],
              groupStartTime := some (bucketStart p b.date) } := by
        have : ¬ k = bucketStart p b.date := fun e => hk e.symm
        simp [loopStep, this]
      rw [hstep]
      have := ih (flushGroup res cur) [b] (bucketStart p b.date)
      simp only [groupsFrom, hk, if_false]
      rw [this, flushGroup_eq]
      cases h : aggregateCandles cur <;> simp [List.filterMap_cons, h]

theorem bucketLoop_nil (p : IntervalSpec) : bucketLoop p [] = [] := by
  simp [bucketLoop, flushGroup_eq, aggregateCandles]

theorem bucketLoop_cons (p : IntervalSpec) (b : Bar) (bs : List Bar) :
    bucketLoop p (b :: bs) =
      (groupsFrom (fun b => bucketStart p b.date) [b] (bucketStart p b.date) bs).filterMap
        aggregateCandles := by
  unfold bucketLoop
  simp only [List.foldl_cons]
  have hstep : loopStep p { result := [], currentGroup := [], groupStartTime := none } b
      = { result := [], currentGroup := [b],
          groupStartTime := some (bucketStart p b.date) } := by
    simp [loopStep, flushGroup_eq, aggregateCandles]
  rw [hstep]
  have := foldl_loopStep p bs [] [b] (bucketStart p b.date)
  simpa using this

/-- The loop of the library function `List.splitBy` builds the same groups. -/
theorem splitBy_loop_eq (key : Bar → Int) (l : List Bar) :
    ∀ (ag : Bar) (g : List Bar) (gs : List (List Bar)),
      List.splitBy.loop (fun a b => key a == key b) l ag g gs =
        gs.reverse ++ groupsFrom key ((ag :: g).reverse) (key ag) l := by
  induction l with
  | nil =>
    intro ag g gs
    simp [List.splitBy.loop, groupsFrom]
  | cons a as ih =>
    intro ag g gs
    unfold List.splitBy.loop
    by_cases h : key a = key ag
    · have hb : (key ag == key a) = true := by simp [h]
      simp only [hb]
      rw [ih a (ag :: g) gs]
      simp only [groupsFrom, h, if_true]
      simp
    · have hb : (key ag == key a) = false := by
        simp only [beq_eq_false_iff_ne]
        exact fun e => h e.symm
      simp only [hb]
      rw [ih a [] ((ag :: g).reverse :: gs)]
      simp only [groupsFrom, h, if_false]
      simp

/-- The loop and the final flush aggregate the maximal runs of bars with the
same bucket start. -/
theorem bucketLoop_eq_splitBy (p : IntervalSpec) (bars : List Bar) :
    bucketLoop p bars = (bars.splitBy (sameBucket p)).filterMap aggregateCandles := by
  cases bars with
  | nil => simp [bucketLoop_nil, List.splitBy]
  | cons b bs =>
    rw [bucketLoop_cons]
    have := splitBy_loop_eq (fun b => bucketStart p b.date) bs b [] []
    have e : sameBucket p = fun a b => bucketStart p a.date == bucketStart p b.date := rfl
    rw [e]
    show _ = List.filterMap _ (List.splitBy.loop _ bs b [] [])
    rw [this]
    simp

theorem foldl_aggStep (cs : List Bar) :
    ∀ h l v : ℚ, cs.foldl aggStep (h, l, v) =
      ((cs.map (fun b => b.high)).foldl max h, (cs.map (fun b => b.low)).foldl min l,
        v + (cs.map (fun b => b.volume)).sum) := by
  induction cs with
  | nil => intro h l v; simp
  | cons c cs ih =>
    intro h l v
    simp only [List.foldl_cons, List.map_cons, List.sum_cons]
    have e : aggStep (h, l, v) c = (max h c.high, min l c.low, v + c.volume) := by
      unfold aggStep
      simp only [Prod.mk.injEq, and_true]
      constructor
      · rw [max_def]
        split_ifs <;> first | rfl | linarith
      · rw [min_def]
        split_ifs <;> first | rfl | linarith
    rw [e, ih]
    simp only [Prod.mk.injEq, true_and]
    ring

/-- The bar built by `aggregateCandles` is the bar of the aggregation law. -/
theorem aggregateCandles_eq_runBar (g : List Bar) : aggregateCandles g = runBar g := by
  cases g with
  | nil => rfl
  | cons f rest =>
    have hmax : ((f :: rest).map (fun b => b.high)).max? =
        some ((rest.map (fun b => b.high)).foldl max f.high) := rfl
    have hmin : ((f :: rest).map (fun b => b.low)).min? =
        some ((rest.map (fun b => b.low)).foldl min f.low) := rfl
    have hlast : (f :: rest).getLast? = some ((f :: rest).getLastD f) := by
      rw [List.getLastD_eq_getLast?]
      cases h : (f :: rest).getLast? with
      | none => simp at h
      | some x => rfl
    unfold runBar aggregateCandles
    rw [hmax, hmin, hlast]
    simp only [List.head?_cons, List.foldl_cons]
    have e : aggStep (f.high, f.low, 0) f = (f.high, f.low, f.volume) := by
      unfold aggStep
      simp
    rw [e, foldl_aggStep]
    simp

theorem aggregate_volume (g : List Bar) :
    totalVolume (aggregateCandles g).toList = totalVolume g := by
  rw [aggregateCandles_eq_runBar]
  cases g with
  | nil => rfl
  | cons f rest =>
    have hmax : ((f :: rest).map (fun b => b.high)).max? =
        some ((rest.map (fun b => b.high)).foldl max f.high) := rfl
    have hmin : ((f :: rest).map (fun b => b.low)).min? =
        some ((rest.map (fun b => b.low)).foldl min f.low) := rfl
    cases hl : (f :: rest).getLast? with
    | none => simp at hl
    | some x =>
      unfold runBar
      rw [hmax, hmin, hl]
      simp [totalVolume]

theorem totalVolume_append (a b : List Bar) :
    totalVolume (a ++ b) = totalVolume a + totalVolume b := by
  simp [totalVolume]

theorem filterMap_aggregate_volume (gs : List (List Bar)) :
    totalVolume (gs.filterMap aggregateCandles) = totalVolume gs.flatten := by
  induction gs with
  | nil => rfl
  | cons g gs ih =>
    rw [List.flatten_cons, totalVolume_append, ← ih, ← aggregate_volume g]
    cases h : aggregateCandles g with
    | none => simp [List.filterMap_cons, h, totalVolume]
    | some a => simp [List.filterMap_cons, h, totalVolume]

theorem bucketLoop_volume (p : IntervalSpec) (bars : List Bar) :
    totalVolume (bucketLoop p bars) = totalVolume bars := by
  rw [bucketLoop_eq_splitBy, filterMap_aggregate_volume, List.flatten_splitBy]

/-- The normal returns of `transformDataToInterval`: the input itself or the
result of the loop for a parsed target. -/
theorem transform_ok_cases (bars : List Bar) (target : IntervalInput) (out : List Bar)
    (h : transformDataToInterval bars target = .ok out) :
    out = bars ∨ ∃ p, parseInterval target = some p ∧ out = bucketLoop p bars := by
  unfold transformDataToInterval at h
  split_ifs at h with h0
  · cases h
    exact Or.inl rfl
  · cases hp : parseInterval target with
    | none =>
      rw [hp] at h
      cases h
      exact Or.inl rfl
    | some p =>
      rw [hp] at h
      simp only at h
      cases hm : getMinutesFromUnit p.value p.unit with
      | none =>
        rw [hm] at h
        cases h
        exact Or.inl rfl
      | some m =>
        rw [hm] at h
        simp only at h
        split_ifs at h
        · cases h
          exact Or.inl rfl
        · cases h
          exact Or.inr ⟨p, rfl, rfl⟩

/-- The aggregating return of `transformDataToInterval`. -/
theorem transform_aggregates (bars : List Bar) (target : IntervalInput) (p : IntervalSpec)
    (m : ℚ) (hne : bars ≠ []) (hp : parseInterval target = some p)
    (hm : getMinutesFromUnit p.value p.unit = some m) (h1 : 1 ≤ m) :
    transformDataToInterval bars target = .ok (bucketLoop p bars) := by
  unfold transformDataToInterval
  have h0 : ¬ bars.length = 0 := fun e => hne (List.length_eq_zero.mp e)
  have hm0 : ¬ m = 0 := by
    intro e
    rw [e] at h1
    norm_num at h1
  simp [h0, hp, hm, hm0, not_lt.mpr h1]

/-- C1: whenever `transformDataToInterval` returns normally, the volumes of the
output bars add up to the volumes of the input bars. -/
theorem transform_volume_conservation (bars : List Bar) (target : IntervalInput)
    (out : List Bar) (h : transformDataToInterval bars target = .ok out) :
    (out.map (fun b => b.volume)).sum = (bars.map (fun b => b.volume)).sum := by
  rcases transform_ok_cases bars target out h with rfl | ⟨p, -, rfl⟩
  · rfl
  · exact bucketLoop_volume p bars

/-- C2: for a non-empty input and a target that parses and resolves to at least
one minute, the output is the list of the maximal runs of consecutive bars with
the same bucket start, each run mapped to the bar of the aggregation law. -/
theorem transform_aggregation_law (bars : List Bar) (target : IntervalInput)
    (p : IntervalSpec) (m : ℚ) (hne : bars ≠ []) (hp : parseInterval target = some p)
    (hm : getMinutesFromUnit p.value p.unit = some m) (h1 : 1 ≤ m) :
    ∃ out, transformDataToInterval bars target = .ok out ∧
      (bars.splitBy (sameBucket p)).map runBar = out.map some := by
  refine ⟨bucketLoop p bars, transform_aggregates bars target p m hne hp hm h1, ?_⟩
  rw [bucketLoop_eq_splitBy]
  have hnil := List.nil_not_mem_splitBy (sameBucket p) bars
  generalize bars.splitBy (sameBucket p) = gs at hnil
  induction gs with
  | nil => rfl
  | cons g gs ih =>
    have hg : g ≠ [] := fun e => hnil (e ▸ List.mem_cons_self _ _)
    have hrest : [] ∉ gs := fun e => hnil (List.mem_cons_of_mem _ e)
    cases g with
    | nil => exact absurd rfl hg
    | cons f rest =>
      have : ∃ a, aggregateCandles (f :: rest) = some a := ⟨_, rfl⟩
      obtain ⟨a, ha⟩ := this
      rw [List.filterMap_cons, ha, List.map_cons, List.map_cons, ← ih hrest,
        ← aggregateCandles_eq_runBar, ha]

/-! ### Minute targets on consecutive one-minute bars -/

theorem divisors_sixty (N : Nat) (hdiv : N ∣ 60) :
    N = 1 ∨ N = 2 ∨ N = 3 ∨ N = 4 ∨ N = 5 ∨ N = 6 ∨ N = 10 ∨ N = 12 ∨ N = 15 ∨ N = 20
      ∨ N = 30 ∨ N = 60 := by
  have hle : N ≤ 60 := Nat.le_of_dvd (by norm_num) hdiv
  interval_cases N <;> omega

theorem parse_minutes_target (N : Nat) (hdiv : N ∣ 60) :
    parseInterval (.text (toString N ++ " minutes")) = some ⟨N, "minutes"⟩ := by
  rcases divisors_sixty N hdiv with h | h | h | h | h | h | h | h | h | h | h | h <;>
    subst h <;> decide

theorem bucketStart_minutes (N : Nat) (hdiv : N ∣ 60) (t : Int) :
    bucketStart ⟨N, "minutes"⟩ t = 60000 * ((N : Int) * (t / 60000 / (N : Int))) := by
  have hinc : includes "minutes" "minute" = true := by decide
  unfold bucketStart
  simp only [hinc, if_true, setMinutes, makeDate, makeTime, dayOf, getHours, getMinutes,
    msPerDay, msPerHour, msPerMinute]
  rcases divisors_sixty N hdiv with h | h | h | h | h | h | h | h | h | h | h | h <;>
    subst h <;> simp only [Nat.cast_ofNat, Nat.cast_one] <;> omega

theorem groupsFrom_append_same (key : Bar → Int) (k : Int) (g : List Bar) :
    ∀ (cur rest : List Bar), (∀ b ∈ g, key b = k) →
      groupsFrom key cur k (g ++ rest) = groupsFrom key (cur ++ g) k rest := by
  induction g with
  | nil => intro cur rest _; simp
  | cons x g ih =>
    intro cur rest h
    have hx : key x = k := h x (List.mem_cons_self _ _)
    have := ih (cur ++ [x]) rest (fun b hb => h b (List.mem_cons_of_mem _ hb))
    simp only [List.cons_append, groupsFrom, hx, if_true]
    simpa using this

/-- A leading run of bars with one bucket start, followed by a bar with another
bucket start (or by nothing), is closed as one output bar. -/
theorem bucketLoop_chunk (p : IntervalSpec) (g rest : List Bar) (k : Int) (hg : g ≠ [])
    (hk : ∀ b ∈ g, bucketStart p b.date = k)
    (hrest : ∀ b, rest.head? = some b → bucketStart p b.date ≠ k) :
    bucketLoop p (g ++ rest) = (aggregateCandles g).toList ++ bucketLoop p rest := by
  cases g with
  | nil => exact absurd rfl hg
  | cons x g =>
    have hx : bucketStart p x.date = k := hk x (List.mem_cons_self _ _)
    rw [List.cons_append, bucketLoop_cons, hx,
      groupsFrom_append_same (fun b => bucketStart p b.date) k g [x] rest
        (fun b hb => hk b (List.mem_cons_of_mem _ hb))]
    cases rest with
    | nil =>
      simp only [groupsFrom, bucketLoop_nil, List.append_nil, List.singleton_append]
      cases h : aggregateCandles (x :: g) <;> simp [List.filterMap_cons, h]
    | cons r rs =>
      have hr : bucketStart p r.date ≠ k := hrest r rfl
      simp only [groupsFrom, hr, if_false, List.singleton_append]
      rw [bucketLoop_cons]
      cases h : aggregateCandles (x :: g) <;> simp [List.filterMap_cons, h]

theorem runBar_isSome (run : List Bar) (h : run ≠ []) : ∃ a, runBar run = some a := by
  rw [← aggregateCandles_eq_runBar]
  cases run with
  | nil => exact absurd rfl h
  | cons f rest => exact ⟨_, rfl⟩

/-- Fields of the bar of a run. -/
theorem runBar_fields (run : List Bar) (a : Bar) (h : runBar run = some a) :
    run.head?.map (fun b => b.date) = some a.date ∧
    run.getLast?.map (fun b => b.close) = some a.close ∧
    a.volume = (run.map (fun b => b.volume)).sum := by
  cases run with
  | nil => cases h
  | cons f rest =>
    have hmax : ((f :: rest).map (fun b => b.high)).max? =
        some ((rest.map (fun b => b.high)).foldl max f.high) := rfl
    have hmin : ((f :: rest).map (fun b => b.low)).min? =
        some ((rest.map (fun b => b.low)).foldl min f.low) := rfl
    cases hl : (f :: rest).getLast? with
    | none => simp at hl
    | some x =>
      unfold runBar at h
      rw [hmax, hmin, hl] at h
      simp only [List.head?_cons, Option.some.injEq] at h
      subst h
      simp

/-- On consecutive one-minute bars that start at a multiple of `N` minutes, the
loop for the target `N minutes` aggregates the successive blocks of `N` bars. -/
theorem bucketLoop_minutes_blocks (N : Nat) (hdiv : N ∣ 60) (m : Nat) :
    ∀ (bars : List Bar) (t0 : Int), (N : Int) ∣ t0 / 60000 → bars.length = m * N →
      (∀ i (h : i < bars.length), bars[i].date = t0 + 60000 * (i : Int)) →
      (bucketLoop ⟨N, "minutes"⟩ bars).map some =
        (List.range m).map (fun k => runBar ((bars.drop (k * N)).take N)) := by
  have hNpos : 0 < N := Nat.pos_of_dvd_of_pos hdiv (by norm_num)
  have hNZ : (0 : Int) < N := by exact_mod_cast hNpos
  induction m with
  | zero =>
    intro bars t0 _ hlen _
    have : bars = [] := List.length_eq_zero.mp (by simpa using hlen)
    subst this
    simp [bucketLoop_nil]
  | succ m ih =>
    intro bars t0 hq hlen hdates
    have hlenN : N ≤ bars.length := by
      rw [hlen]
      exact Nat.le_mul_of_pos_left N (Nat.succ_pos m)
    obtain ⟨c, hc⟩ := hq
    have hkey : ∀ i : Nat, bucketStart ⟨N, "minutes"⟩ (t0 + 60000 * (i : Int)) =
        60000 * ((N : Int) * (c + (i : Int) / (N : Int))) := by
      intro i
      rw [bucketStart_minutes N hdiv]
      have e1 : (t0 + 60000 * (i : Int)) / 60000 = t0 / 60000 + (i : Int) := by
        rw [Int.add_mul_ediv_left _ _ (by norm_num : (60000 : Int) ≠ 0)]
      rw [e1, hc, Int.add_comm, Int.add_mul_ediv_left _ _ hNZ.ne', Int.add_comm]
    have hsplit : bars = bars.take N ++ bars.drop N := (List.take_append_drop N bars).symm
    have htake_ne : bars.take N ≠ [] := by
      intro e
      have := congrArg List.length e
      simp only [List.length_take, List.length_nil] at this
      omega
    have hchunk := bucketLoop_chunk ⟨N, "minutes"⟩ (bars.take N) (bars.drop N)
      (60000 * ((N : Int) * c)) htake_ne ?_ ?_
    · rw [← hsplit] at hchunk
      have hrestlen : (bars.drop N).length = m * N := by
        rw [List.length_drop, hlen, Nat.succ_mul]
        omega
      have hrest := ih (bars.drop N) (t0 + 60000 * (N : Int)) ?_ hrestlen ?_
      · obtain ⟨a, ha⟩ := runBar_isSome (bars.take N) htake_ne
        rw [hchunk, aggregateCandles_eq_runBar, ha, List.range_succ_eq_map]
        simp only [Option.toList, List.singleton_append, List.map_cons, List.map_map,
          hrest, Nat.zero_mul, List.drop_zero, ha, List.cons.injEq, true_and]
        apply List.map_congr_left
        intro k _
        simp only [Function.comp, List.drop_drop, Nat.succ_mul]
        rw [Nat.add_comm N (k * N)]
      · rw [Int.add_mul_ediv_left _ _ (by norm_num : (60000 : Int) ≠ 0), hc]
        exact ⟨c + 1, by ring⟩
      · intro i hi
        rw [List.getElem_drop, hdates]
        push_cast
        ring
    · intro b hb
      obtain ⟨i, hi, rfl⟩ := List.mem_iff_getElem.mp hb
      have hiN : i < N := by
        rw [List.length_take] at hi
        omega
      rw [List.getElem_take, hdates, hkey]
      have : (i : Int) / (N : Int) = 0 := Int.ediv_eq_zero_of_lt (by omega) (by omega)
      rw [this]
      simp
    · intro b hb
      cases hd : bars.drop N with
      | nil =>
        rw [hd] at hb
        cases hb
      | cons r rs =>
        rw [hd] at hb
        simp only [List.head?_cons, Option.some.injEq] at hb
        subst hb
        have hlt : N < bars.length := by
          by_contra hge
          have : bars.drop N = [] := List.drop_eq_nil_of_le (by omega)
          rw [this] at hd
          cases hd
        have hr : r = bars[N] := by
          have h0 : (bars.drop N)[0]? = some r := by rw [hd]; simp
          rw [List.getElem?_drop] at h0
          simp only [Nat.add_zero] at h0
          rw [List.getElem?_eq_getElem hlt] at h0
          exact (Option.some.inj h0).symm
        rw [hr, hdates, hkey]
        have : (N : Int) / (N : Int) = 1 := Int.ediv_self hNZ.ne'
        rw [this]
        intro e
        have h2 : (N : Int) * (c + 1) = (N : Int) * c := by omega
        have h3 : (N : Int) * (c + 1) = (N : Int) * c + N := by ring
        omega

theorem block_length (bars : List Bar) (N m k : Nat) (hlen : bars.length = m * N)
    (hk : k < m) : ((bars.drop (k * N)).take N).length = N ∧ k * N + N ≤ bars.length := by
  have h1 : (k + 1) * N ≤ m * N := Nat.mul_le_mul_right N hk
  rw [Nat.succ_mul] at h1
  rw [List.length_take, List.length_drop, hlen]
  exact ⟨by omega, by omega⟩

theorem sum_of_all_one (l : List Bar) (h : ∀ b ∈ l, b.volume = 1) :
    (l.map (fun b => b.volume)).sum = l.length := by
  induction l with
  | nil => simp
  | cons x l ih =>
    rw [List.map_cons, List.sum_cons, ih (fun b hb => h b (List.mem_cons_of_mem _ hb)),
      h x (List.mem_cons_self _ _), List.length_cons]
    push_cast
    ring

/-- C3: for `N` dividing 60 and `n` consecutive one-minute bars that start at
minute 0 of an hour, with `n` a multiple of `N`, the target `N minutes` yields
`n / N` bars; output `k` is the bar of the aggregation law for the inputs
`k N .. k N + N - 1`, so its close is the close of input `k N + N - 1`, the
first output has the date of the first input, and when every input volume is 1
every output volume is `N`. -/
theorem transform_minutes_blocks (N n : Nat) (bars : List Bar) (t0 : Int)
    (hN : 1 ≤ N) (hdiv : N ∣ 60) (hlen : bars.length = n) (hn : N ∣ n)
    (hstart : getMinutes t0 = 0)
    (hdates : ∀ i (h : i < bars.length), bars[i].date = t0 + 60000 * (i : Int)) :
    ∃ out, transformDataToInterval bars (.text (toString N ++ " minutes")) = .ok out ∧
      out.length = n / N ∧
      (∀ k (hk : k < out.length), runBar ((bars.drop (k * N)).take N) = some out[k]) ∧
      (∀ k (hk : k < out.length) (hk2 : k * N + N - 1 < bars.length),
        out[k].close = bars[k * N + N - 1].close) ∧
      (∀ (h0 : 0 < out.length) (h1 : 0 < bars.length), out[0].date = bars[0].date) ∧
      ((∀ b ∈ bars, b.volume = 1) → ∀ b ∈ out, b.volume = N) := by
  obtain ⟨m, hm⟩ := hn
  have hlen2 : bars.length = m * N := by rw [hlen, hm, Nat.mul_comm]
  have hq : (N : Int) ∣ t0 / 60000 := by
    have h60 : (60 : Int) ∣ t0 / 60000 := by
      unfold getMinutes msPerMinute at hstart
      exact Int.dvd_of_emod_eq_zero hstart
    have hN60 : (N : Int) ∣ 60 := by exact_mod_cast hdiv
    exact dvd_trans hN60 h60
  have hmap := bucketLoop_minutes_blocks N hdiv m bars t0 hq hlen2 hdates
  have hparse := parse_minutes_target N hdiv
  have hok : transformDataToInterval bars (.text (toString N ++ " minutes"))
      = .ok (bucketLoop ⟨N, "minutes"⟩ bars) := by
    by_cases hb : bars = []
    · subst hb
      rw [bucketLoop_nil]
      rfl
    · have h1 : (1 : ℚ) ≤ (N : ℚ) := by exact_mod_cast hN
      exact transform_aggregates bars _ ⟨N, "minutes"⟩ N hb hparse
        (by simp [getMinutesFromUnit]) h1
  have houtlen : (bucketLoop ⟨N, "minutes"⟩ bars).length = m := by
    have := congrArg List.length hmap
    simpa using this
  have hblock : ∀ k (hk : k < (bucketLoop ⟨N, "minutes"⟩ bars).length),
      runBar ((bars.drop (k * N)).take N) = some (bucketLoop ⟨N, "minutes"⟩ bars)[k] := by
    intro k hk
    have hkm : k < m := by omega
    have := congrArg (fun l => l[k]?) hmap
    simp only [List.getElem?_map, List.getElem?_eq_getElem hk, Option.map_some,
      List.getElem?_range hkm] at this
    simpa using this.symm
  refine ⟨bucketLoop ⟨N, "minutes"⟩ bars, hok, ?_, hblock, ?_, ?_, ?_⟩
  · rw [houtlen, hm]
    exact (Nat.mul_div_cancel_left m (by omega)).symm
  · intro k hk hk2
    have hkm : k < m := by omega
    obtain ⟨hbl, hle⟩ := block_length bars N m k hlen2 hkm
    have hf := (runBar_fields _ _ (hblock k hk)).2.1
    rw [List.getLast?_eq_getElem?, hbl, List.getElem?_take_of_lt (by omega),
      List.getElem?_drop, List.getElem?_eq_getElem (by omega)] at hf
    have hf2 := Option.some.inj hf
    have e : k * N + (N - 1) = k * N + N - 1 := by omega
    simp only [e] at hf2
    exact hf2.symm
  · intro h0 h1
    have hf := (runBar_fields _ _ (hblock 0 h0)).1
    have hNle : N ≤ bars.length := by
      have := (block_length bars N m 0 hlen2 (by omega)).2
      omega
    have hN0 : ¬ N = 0 := by omega
    rw [Nat.zero_mul, List.drop_zero, List.head?_take, if_neg hN0, List.head?_eq_getElem?,
      List.getElem?_eq_getElem h1] at hf
    exact (Option.some.inj hf).symm
  · intro hvol b hb
    obtain ⟨k, hk, rfl⟩ := List.mem_iff_getElem.mp hb
    have hkm : k < m := by omega
    obtain ⟨hbl, -⟩ := block_length bars N m k hlen2 hkm
    have hf := (runBar_fields _ _ (hblock k hk)).2.2
    rw [hf, sum_of_all_one _ (fun b hb =>
      hvol b (List.mem_of_mem_drop (List.mem_of_mem_take hb))), hbl]

theorem sample_eval : bucketLoop ⟨5, "minutes"⟩ sampleBars = sampleOut := by
  have hinc : includes "minutes" "minute" = true := by decide
  have b0 : bucketStart ⟨5, "minutes"⟩ 0 = 0 := by decide
  have b1 : bucketStart ⟨5, "minutes"⟩ 60000 = 0 := by decide
  have b2 : bucketStart ⟨5, "minutes"⟩ 300000 = 300000 := by decide
  simp [bucketLoop, sampleBars, sampleOut, loopStep, flushGroup, aggregateCandles, aggStep,
    b0, b1, b2]
  norm_num

theorem sample_transform :
    transformDataToInterval sampleBars (.text "5 minutes") = .ok sampleOut := by
  rw [transform_aggregates sampleBars _ ⟨5, "minutes"⟩ 5 (by decide) (by decide)
    (by simp [getMinutesFromUnit]) (by norm_num), sample_eval]

/-- Witness for C1: three bars of volumes 100, 50 and 25 become two bars of
volumes 150 and 25. -/
theorem transform_volume_conservation_witness :
    transformDataToInterval sampleBars (.text "5 minutes") = .ok sampleOut ∧
    (sampleOut.map (fun b => b.volume)).sum = (sampleBars.map (fun b => b.volume)).sum :=
  ⟨sample_transform,
    transform_volume_conservation sampleBars (.text "5 minutes") sampleOut sample_transform⟩

/-- Witness for C2: the runs of the three sample bars for `5 minutes` are the
first two bars and the third bar. -/
theorem transform_aggregation_law_witness :
    (sampleBars.splitBy (sameBucket ⟨5, "minutes"⟩)).map runBar = sampleOut.map some := by
  obtain ⟨out, h1, h2⟩ := transform_aggregation_law sampleBars (.text "5 minutes")
    ⟨5, "minutes"⟩ 5 (by decide) (by decide) (by simp [getMinutesFromUnit]) (by norm_num)
  rw [sample_transform] at h1
  cases h1
  exact h2

/-- Witness for C3: sixty one-minute bars 00:00 to 00:59 of volume 1 and the
target `5 minutes` give 12 bars, each of volume 5, the first dated 00:00. -/
theorem transform_minutes_blocks_witness :
    ∃ out, transformDataToInterval exampleBars (.text "5 minutes") = .ok out ∧
      out.length = 12 ∧ (∀ b ∈ out, b.volume = 5) ∧
      (∀ h0 : 0 < out.length, out[0].date = 0) := by
  have hlen : exampleBars.length = 60 := by
    simp only [exampleBars, List.length_map, List.length_range]
  obtain ⟨out, h1, h2, -, -, h5, h6⟩ := transform_minutes_blocks 5 60 exampleBars 0
    (by decide) (by decide) hlen (by decide) (by decide)
    (by intro i h; simp only [exampleBars, List.getElem_map, List.getElem_range, zero_add])
  have e : toString 5 ++ " minutes" = "5 minutes" := by decide
  rw [e] at h1
  refine ⟨out, h1, by rw [h2], ?_, ?_⟩
  · intro b hb
    have := h6 (by intro b hb; simp only [exampleBars, List.mem_map] at hb
                   obtain ⟨i, -, rfl⟩ := hb; rfl) b hb
    rw [this]
    norm_num
  · intro h0
    have := h5 h0 (by rw [hlen]; decide)
    rw [this]
    simp only [exampleBars, List.getElem_map, List.getElem_range, Nat.cast_zero, mul_zero]

/-! ### Passthrough, rejection and the validator -/

/-- The aggregating return of `transformDataToInterval`, with everything that
led to it. -/
theorem transform_ok_inv (bars : List Bar) (target : IntervalInput) (out : List Bar)
    (h : transformDataToInterval bars target = .ok out) :
    out = bars ∨ ∃ p m, bars ≠ [] ∧ parseInterval target = some p ∧
      getMinutesFromUnit p.value p.unit = some m ∧ 1 ≤ m ∧ out = bucketLoop p bars := by
  unfold transformDataToInterval at h
  split_ifs at h with h0
  · cases h
    exact Or.inl rfl
  · have hne : bars ≠ [] := fun e => h0 (by rw [e]; rfl)
    cases hp : parseInterval target with
    | none =>
      rw [hp] at h
      cases h
      exact Or.inl rfl
    | some p =>
      rw [hp] at h
      simp only at h
      cases hm : getMinutesFromUnit p.value p.unit with
      | none =>
        rw [hm] at h
        cases h
        exact Or.inl rfl
      | some m =>
        rw [hm] at h
        simp only at h
        split_ifs at h with h1 h2
        · cases h
          exact Or.inl rfl
        · cases h
          exact Or.inr ⟨p, m, hne, rfl, hm, not_lt.mp h2, rfl⟩

/-- C11: `transformDataToInterval` returns its input unchanged, and does not
raise, when the bar sequence is empty (for every target) and when the target
does not parse. -/
theorem transform_passthrough (bars : List Bar) (target : IntervalInput) :
    transformDataToInterval [] target = .ok [] ∧
    (parseInterval target = none → transformDataToInterval bars target = .ok bars) := by
  refine ⟨rfl, ?_⟩
  intro hp
  unfold transformDataToInterval
  rw [hp]
  split_ifs <;> rfl

/-- Witness for C11: the empty sequence with the target `5 minutes`, and the
sample bars with a target that does not parse. -/
theorem transform_passthrough_witness :
    transformDataToInterval [] (.text "5 minutes") = .ok [] ∧
    transformDataToInterval sampleBars (.text "five minutes") = .ok sampleBars :=
  ⟨(transform_passthrough [] (.text "5 minutes")).1,
    (transform_passthrough sampleBars (.text "five minutes")).2 (by decide)⟩

/-- C12 (as stated, refuted): the target `0 minutes` parses and resolves to 0
minutes, which is less than 1, yet the non-empty input is returned unchanged and
no error is raised. -/
theorem transform_zero_minutes_passthrough :
    parseInterval (.text "0 minutes") = some ⟨0, "minutes"⟩ ∧
    getMinutesFromUnit ((0 : Nat) : ℚ) "minutes" = some 0 ∧ (0 : ℚ) < 1 ∧ sampleBars ≠ [] ∧
    transformDataToInterval sampleBars (.text "0 minutes") = .ok sampleBars := by
  have hp : parseInterval (.text "0 minutes") = some ⟨0, "minutes"⟩ := by decide
  refine ⟨hp, by simp [getMinutesFromUnit], by norm_num, by decide, ?_⟩
  unfold transformDataToInterval
  simp [hp, getMinutesFromUnit, sampleBars]

/-- C12 (amended): for a non-empty bar sequence and a parseable target whose
resolved length is greater than 0 and less than 1 minute,
`transformDataToInterval` fails with the sub-resolution error. -/
theorem transform_sub_resolution (bars : List Bar) (target : IntervalInput)
    (p : IntervalSpec) (m : ℚ) (hne : bars ≠ []) (hp : parseInterval target = some p)
    (hm : getMinutesFromUnit p.value p.unit = some m) (h0 : 0 < m) (h1 : m < 1) :
    transformDataToInterval bars target = .error (msgSubResolution target) := by
  unfold transformDataToInterval
  have hlen : ¬ bars.length = 0 := fun e => hne (List.length_eq_zero.mp e)
  simp [hlen, hp, hm, h0.ne', h1]

/-- Witness for C12 (amended): the sample bars and the target `30 seconds`. -/
theorem transform_sub_resolution_witness :
    transformDataToInterval sampleBars (.text "30 seconds") =
      .error "Cannot transform to 30 seconds: target interval is smaller than source data resolution" :=
  transform_sub_resolution sampleBars (.text "30 seconds") ⟨30, "seconds"⟩ (1 / 2)
    (by decide) (by decide) (by simp [getMinutesFromUnit]; norm_num) (by norm_num)
    (by norm_num)

/-- What a positive answer of the validator says about the two intervals. -/
theorem canTransformData_true_inv (s t : String) (h : canTransformData s t = true) :
    ∃ sp tp sm tm, parseInterval (.text s) = some sp ∧ parseInterval (.text t) = some tp ∧
      getMinutesFromUnit sp.value sp.unit = some sm ∧
      getMinutesFromUnit tp.value tp.unit = some tm ∧ sm ≠ 0 ∧ tm ≠ 0 ∧ sm ≤ tm := by
  unfold canTransformData at h
  split_ifs at h
  cases hs : parseInterval (.text s) with
  | none => simp [hs] at h
  | some sp =>
    cases ht : parseInterval (.text t) with
    | none => simp [hs, ht] at h
    | some tp =>
      simp only [hs, ht] at h
      cases hsm : getMinutesFromUnit sp.value sp.unit with
      | none => simp [hsm] at h
      | some sm =>
        cases htm : getMinutesFromUnit tp.value tp.unit with
        | none => simp [hsm, htm] at h
        | some tm =>
          simp only [hsm, htm] at h
          split_ifs at h with h0
          simp only [Bool.and_eq_true, decide_eq_true_eq] at h
          exact ⟨sp, tp, sm, tm, rfl, rfl, hsm, htm, fun e => h0 (Or.inl e),
            fun e => h0 (Or.inr e), h.1⟩

/-- C13: when the source resolves to at least 1 minute and the validator
accepts the target, `transformDataToInterval` returns normally on every bar
sequence: the sub-resolution error is never raised. -/
theorem validated_target_never_rejected (s t : String) (sp : IntervalSpec) (sm : ℚ)
    (bars : List Bar) (hs : parseInterval (.text s) = some sp)
    (hsm : getMinutesFromUnit sp.value sp.unit = some sm) (h1 : 1 ≤ sm)
    (hv : canTransformData s t = true) :
    ∃ out, transformDataToInterval bars (.text t) = .ok out := by
  obtain ⟨sp2, tp, sm2, tm, hs2, ht, hsm2, htm, -, -, hle⟩ := canTransformData_true_inv s t hv
  rw [hs] at hs2
  cases hs2
  rw [hsm] at hsm2
  cases hsm2
  by_cases hb : bars = []
  · subst hb
    exact ⟨[], rfl⟩
  · exact ⟨_, transform_aggregates bars (.text t) tp tm hb ht htm (le_trans h1 hle)⟩

theorem validated_one_to_three : canTransformData "1 minute" "3 minutes" = true := by
  rw [canTransformData_resolved "1 minute" "3 minutes" ⟨1, "minute"⟩ ⟨3, "minutes"⟩ 1 3
    (by decide) (by decide) (by decide) (by decide) (by simp [getMinutesFromUnit])
    (by simp [getMinutesFromUnit]) (by norm_num) (by norm_num)]
  have hmod : jsMod 3 1 = 0 :=
    (jsMod_eq_zero_iff 3 1 (by norm_num) (by norm_num)).mpr ⟨3, by norm_num⟩
  simp [hmod]

/-- Witness for C13: the source `1 minute`, the target `3 minutes` and the
sample bars. -/
theorem validated_target_never_rejected_witness :
    ∃ out, transformDataToInterval sampleBars (.text "3 minutes") = .ok out :=
  validated_target_never_rejected "1 minute" "3 minutes" ⟨1, "minute"⟩ 1 sampleBars
    (by decide) (by simp [getMinutesFromUnit]) (by norm_num) validated_one_to_three

/-! ### The groups closed by the loop -/

theorem groupsFrom_ne_nil (key : Bar → Int) (bs : List Bar) :
    ∀ (cur : List Bar) (k : Int), cur ≠ [] → ∀ g ∈ groupsFrom key cur k bs, g ≠ [] := by
  induction bs with
  | nil =>
    intro cur k hcur g hg
    simp only [groupsFrom, List.mem_singleton] at hg
    rw [hg]
    exact hcur
  | cons b bs ih =>
    intro cur k hcur g hg
    unfold groupsFrom at hg
    split_ifs at hg with hk
    · exact ih (cur ++ [b]) k (by simp) g hg
    · rcases List.mem_cons.mp hg with rfl | hg
      · exact hcur
      · exact ih [b] (key b) (by simp) g hg

theorem aggregateCandles_date (g : List Bar) (hg : g ≠ []) :
    ∃ a, aggregateCandles g = some a ∧ a.date = firstDate g := by
  cases g with
  | nil => exact absurd rfl hg
  | cons f rest => exact ⟨_, rfl, rfl⟩

/-- With non-empty groups the loop emits one bar per group, dated as the first
bar of the group. -/
theorem filterMap_aggregate_dates (gs : List (List Bar)) (h : ∀ g ∈ gs, g ≠ []) :
    (gs.filterMap aggregateCandles).map (fun b => b.date) = gs.map firstDate := by
  induction gs with
  | nil => rfl
  | cons g gs ih =>
    obtain ⟨a, ha, hd⟩ := aggregateCandles_date g (h g (List.mem_cons_self _ _))
    rw [List.filterMap_cons, ha, List.map_cons, List.map_cons, hd,
      ih (fun x hx => h x (List.mem_cons_of_mem _ hx))]

/-- The number of groups: at most one more than the bars still to read, with
equality exactly when every bar read opens a new group. -/
theorem groupsFrom_length (key : Bar → Int) (bs : List Bar) :
    ∀ (cur : List Bar) (k : Int),
      (groupsFrom key cur k bs).length ≤ 1 + bs.length ∧
      ((groupsFrom key cur k bs).length = 1 + bs.length ↔
        List.Chain (fun a b => a ≠ b) k (bs.map key)) := by
  induction bs with
  | nil =>
    intro cur k
    simp [groupsFrom]
  | cons b bs ih =>
    intro cur k
    unfold groupsFrom
    split_ifs with hk
    · obtain ⟨h1, -⟩ := ih (cur ++ [b]) k
      refine ⟨by simp only [List.length_cons]; omega, ?_⟩
      constructor
      · intro e
        simp only [List.length_cons] at e
        omega
      · intro hc
        simp only [List.map_cons, List.chain_cons] at hc
        exact absurd hk.symm hc.1
    · obtain ⟨h1, h2⟩ := ih [b] (key b)
      refine ⟨by simp only [List.length_cons]; omega, ?_⟩
      simp only [List.length_cons, List.map_cons, List.chain_cons]
      constructor
      · intro e
        exact ⟨fun e2 => hk e2.symm, h2.mp (by omega)⟩
      · rintro ⟨-, hc⟩
        have := h2.mpr hc
        omega

theorem firstDate_append (cur : List Bar) (b : Bar) (h : cur ≠ []) :
    firstDate (cur ++ [b]) = firstDate cur := by
  cases cur with
  | nil => exact absurd rfl h
  | cons c cs => rfl

/-- The dates of the first bars of the groups are a subsequence of the dates of
the bars. -/
theorem groupsFrom_firstDate_sublist (key : Bar → Int) (bs : List Bar) :
    ∀ (cur : List Bar) (k : Int), cur ≠ [] →
      ((groupsFrom key cur k bs).map firstDate).Sublist
        ((cur ++ bs).map (fun b => b.date)) := by
  have hfirst : ∀ cur : List Bar, cur ≠ [] →
      [firstDate cur].Sublist (cur.map (fun b => b.date)) := by
    intro cur hcur
    cases cur with
    | nil => exact absurd rfl hcur
    | cons c cs =>
      simp only [firstDate, List.map_cons]
      exact List.Sublist.cons₂ _ (List.nil_sublist _)
  induction bs with
  | nil =>
    intro cur k hcur
    simpa [groupsFrom] using hfirst cur hcur
  | cons b bs ih =>
    intro cur k hcur
    unfold groupsFrom
    split_ifs with hk
    · have := ih (cur ++ [b]) k (by simp)
      simpa using this
    · have h1 := ih [b] (key b) (by simp)
      have h2 := hfirst cur hcur
      have := List.Sublist.append h2 h1
      simpa using this

/-- The first bars of consecutive groups have different bucket starts. -/
theorem groupsFrom_chain (f : Int → Int) (bs : List Bar) :
    ∀ (cur : List Bar), cur ≠ [] →
      ∃ rest, (groupsFrom (fun b => f b.date) cur (f (firstDate cur)) bs).map firstDate
          = firstDate cur :: rest ∧
        List.Chain (fun a b => f a ≠ f b) (firstDate cur) rest := by
  induction bs with
  | nil =>
    intro cur _
    exact ⟨[], by simp [groupsFrom], List.Chain.nil⟩
  | cons b bs ih =>
    intro cur hcur
    unfold groupsFrom
    split_ifs with hk
    · obtain ⟨rest, h1, h2⟩ := ih (cur ++ [b]) (by simp)
      rw [firstDate_append cur b hcur] at h1 h2
      exact ⟨rest, h1, h2⟩
    · obtain ⟨rest, h1, h2⟩ := ih [b] (by simp)
      simp only [firstDate] at h1 h2
      refine ⟨b.date :: rest, by simp only [List.map_cons, h1], ?_⟩
      exact List.Chain.cons (fun e => hk e.symm) h2

/-! ### Size, order and idempotence of the loop -/

theorem bucketLoop_dates (p : IntervalSpec) (b : Bar) (bs : List Bar) :
    (bucketLoop p (b :: bs)).map (fun x => x.date) =
      (groupsFrom (fun x => bucketStart p x.date) [b] (bucketStart p b.date) bs).map
        firstDate := by
  rw [bucketLoop_cons]
  exact filterMap_aggregate_dates _ (groupsFrom_ne_nil _ bs [b] _ (by simp))

theorem bucketLoop_length (p : IntervalSpec) (b : Bar) (bs : List Bar) :
    (bucketLoop p (b :: bs)).length =
      (groupsFrom (fun x => bucketStart p x.date) [b] (bucketStart p b.date) bs).length := by
  have := congrArg List.length (bucketLoop_dates p b bs)
  simpa using this

theorem groupsFrom_length_pos (key : Bar → Int) (bs : List Bar) :
    ∀ (cur : List Bar) (k : Int), 0 < (groupsFrom key cur k bs).length := by
  induction bs with
  | nil => intro cur k; simp [groupsFrom]
  | cons b bs ih =>
    intro cur k
    unfold groupsFrom
    split_ifs
    · exact ih _ _
    · simp

/-- The loop emits at most as many bars as it reads, and at least one when it
reads one. -/
theorem bucketLoop_length_le (p : IntervalSpec) (bars : List Bar) :
    (bucketLoop p bars).length ≤ bars.length ∧ (bars ≠ [] → bucketLoop p bars ≠ []) := by
  cases bars with
  | nil => simp [bucketLoop_nil]
  | cons b bs =>
    have h1 := (groupsFrom_length (fun x => bucketStart p x.date) bs [b]
      (bucketStart p b.date)).1
    have h2 := bucketLoop_length p b bs
    have h3 := groupsFrom_length_pos (fun x => bucketStart p x.date) bs [b]
      (bucketStart p b.date)
    refine ⟨by simp only [List.length_cons]; omega, ?_⟩
    intro _ e
    rw [e] at h2
    simp only [List.length_nil] at h2
    omega

/-- The loop emits as many bars as it reads exactly when no two adjacent bars
have the same bucket start. -/
theorem bucketLoop_length_eq_iff (p : IntervalSpec) (bars : List Bar) :
    (bucketLoop p bars).length = bars.length ↔
      bars.Chain' (fun a b => bucketStart p a.date ≠ bucketStart p b.date) := by
  cases bars with
  | nil => simp [bucketLoop_nil]
  | cons b bs =>
    have h1 := (groupsFrom_length (fun x => bucketStart p x.date) bs [b]
      (bucketStart p b.date)).2
    rw [bucketLoop_length, List.length_cons, Nat.add_comm, h1]
    exact List.chain_map (fun x : Bar => bucketStart p x.date)

theorem aggregateCandles_singleton (x : Bar) : aggregateCandles [x] = some x := by
  simp [aggregateCandles, aggStep]

/-- On bars of which no two adjacent ones have the same bucket start the loop
returns the bars themselves. -/
theorem bucketLoop_of_chain (p : IntervalSpec) (l : List Bar)
    (h : l.Chain' (fun a b => bucketStart p a.date ≠ bucketStart p b.date)) :
    bucketLoop p l = l := by
  induction l with
  | nil => exact bucketLoop_nil p
  | cons x rest ih =>
    have hchunk := bucketLoop_chunk p [x] rest (bucketStart p x.date) (by simp)
      (by intro b hb; rw [List.mem_singleton.mp hb]) (by
        intro b hb
        cases rest with
        | nil => cases hb
        | cons r rs =>
          simp only [List.head?_cons, Option.some.injEq] at hb
          subst hb
          exact fun e => (List.chain'_cons.mp h).1 e.symm)
    rw [List.singleton_append] at hchunk
    rw [hchunk, aggregateCandles_singleton, ih (List.Chain'.tail h)]
    rfl

/-- No two adjacent bars emitted by the loop have the same bucket start. -/
theorem bucketLoop_chain (p : IntervalSpec) (bars : List Bar) :
    (bucketLoop p bars).Chain' (fun a b => bucketStart p a.date ≠ bucketStart p b.date) := by
  cases bars with
  | nil => simp [bucketLoop_nil]
  | cons b bs =>
    obtain ⟨rest, h1, h2⟩ := groupsFrom_chain (bucketStart p) bs [b] (by simp)
    simp only [firstDate] at h1 h2
    rw [← bucketLoop_dates] at h1
    have h3 : ((bucketLoop p (b :: bs)).map (fun x => x.date)).Chain'
        (fun a b => bucketStart p a ≠ bucketStart p b) := by
      rw [h1]
      exact h2
    exact (List.chain'_map (fun x : Bar => x.date)).mp h3

theorem bucketLoop_idem (p : IntervalSpec) (bars : List Bar) :
    bucketLoop p (bucketLoop p bars) = bucketLoop p bars :=
  bucketLoop_of_chain p _ (bucketLoop_chain p bars)

/-- The dates emitted by the loop are a subsequence of the dates it reads. -/
theorem bucketLoop_sublist (p : IntervalSpec) (bars : List Bar) :
    ((bucketLoop p bars).map (fun b => b.date)).Sublist (bars.map (fun b => b.date)) := by
  cases bars with
  | nil => simp [bucketLoop_nil]
  | cons b bs =>
    rw [bucketLoop_dates]
    have := groupsFrom_firstDate_sublist (fun x => bucketStart p x.date) bs [b]
      (bucketStart p b.date) (by simp)
    simpa using this

/-! ### Compression, idempotence, identity and order of the transformation -/

/-- C14: whenever `transformDataToInterval` returns normally, the output has at
most as many bars as the input, and it is non-empty when the input is. -/
theorem transform_compression (bars : List Bar) (target : IntervalInput) (out : List Bar)
    (h : transformDataToInterval bars target = .ok out) :
    out.length ≤ bars.length ∧ (bars ≠ [] → out ≠ []) := by
  rcases transform_ok_inv bars target out h with rfl | ⟨p, m, -, -, -, -, rfl⟩
  · exact ⟨le_refl _, fun h => h⟩
  · exact bucketLoop_length_le p bars

/-- Witness for C14: the three sample bars give two bars for `5 minutes`. -/
theorem transform_compression_witness :
    sampleOut.length ≤ sampleBars.length ∧ (sampleBars ≠ [] → sampleOut ≠ []) :=
  transform_compression sampleBars (.text "5 minutes") sampleOut sample_transform

/-- C16: transforming the output of a normal return again, to the same target,
returns that output unchanged. -/
theorem transform_idempotent (bars : List Bar) (target : IntervalInput) (out : List Bar)
    (h : transformDataToInterval bars target = .ok out) :
    transformDataToInterval out target = .ok out := by
  rcases transform_ok_inv bars target out h with rfl | ⟨p, m, hne, hp, hm, h1, rfl⟩
  · exact h
  · rw [transform_aggregates (bucketLoop p bars) target p m
      ((bucketLoop_length_le p bars).2 hne) hp hm h1, bucketLoop_idem]

/-- Witness for C16: the two bars obtained from the sample bars for `5 minutes`
are returned unchanged for `5 minutes`. -/
theorem transform_idempotent_witness :
    transformDataToInterval sampleOut (.text "5 minutes") = .ok sampleOut :=
  transform_idempotent sampleBars (.text "5 minutes") sampleOut sample_transform

theorem bucketStart_one_minute (u : String) (hu : u = "minute" ∨ u = "minutes") (t : Int) :
    bucketStart ⟨1, u⟩ t = 60000 * (t / 60000) := by
  have hinc : includes u "minute" = true := by
    rcases hu with rfl | rfl <;> decide
  unfold bucketStart
  simp only [hinc, if_true, setMinutes, makeDate, makeTime, dayOf, getHours, getMinutes,
    msPerDay, msPerHour, msPerMinute, Nat.cast_one]
  omega

theorem bucketStart_seconds (v : Nat) (u : String) (hu : u = "second" ∨ u = "seconds")
    (t : Int) : bucketStart ⟨v, u⟩ t = t := by
  have h1 : includes u "minute" = false := by rcases hu with rfl | rfl <;> decide
  have h2 : includes u "hour" = false := by rcases hu with rfl | rfl <;> decide
  have h3 : includes u "day" = false := by rcases hu with rfl | rfl <;> decide
  have h4 : includes u "week" = false := by rcases hu with rfl | rfl <;> decide
  have h5 : includes u "month" = false := by rcases hu with rfl | rfl <;> decide
  unfold bucketStart
  simp [h1, h2, h3, h4, h5]

/-- Bars in different calendar minutes are never adjacent in one bucket of the
target `1 minute`. -/
theorem chain_one_minute (u : String) (hu : u = "minute" ∨ u = "minutes") (bars : List Bar)
    (hmin : bars.Pairwise (fun a b => a.date / 60000 ≠ b.date / 60000)) :
    bars.Chain' (fun a b => bucketStart ⟨1, u⟩ a.date ≠ bucketStart ⟨1, u⟩ b.date) := by
  refine List.Chain'.imp ?_ (List.Pairwise.chain' hmin)
  intro a b hab
  rw [bucketStart_one_minute u hu, bucketStart_one_minute u hu]
  omega

/-- C17: on bars with strictly ascending timestamps of which no two fall in the
same calendar minute, the target `1 minute` returns the bars unchanged; and a
single bar is returned unchanged for every target that resolves to at least one
minute. -/
theorem transform_identity (bars : List Bar) (b : Bar) (target : IntervalInput)
    (p : IntervalSpec) (m : ℚ) :
    (bars.Pairwise (fun x y => x.date < y.date) →
      bars.Pairwise (fun x y => x.date / 60000 ≠ y.date / 60000) →
      transformDataToInterval bars (.text "1 minute") = .ok bars) ∧
    (parseInterval target = some p → getMinutesFromUnit p.value p.unit = some m → 1 ≤ m →
      transformDataToInterval [b] target = .ok [b]) := by
  constructor
  · intro _ hmin
    by_cases hb : bars = []
    · subst hb
      rfl
    · rw [transform_aggregates bars (.text "1 minute") ⟨1, "minute"⟩ 1 hb (by decide)
        (by simp [getMinutesFromUnit]) (le_refl _),
        bucketLoop_of_chain _ _ (chain_one_minute "minute" (Or.inl rfl) bars hmin)]
  · intro hp hm h1
    rw [transform_aggregates [b] target p m (by simp) hp hm h1,
      bucketLoop_of_chain _ _ (List.chain'_singleton b)]

/-- Witness for C17: the sample bars for `1 minute`, and the single bar for
`5 minutes`. -/
theorem transform_identity_witness :
    transformDataToInterval sampleBars (.text "1 minute") = .ok sampleBars ∧
    transformDataToInterval singleBar (.text "5 minutes") = .ok singleBar := by
  have h := transform_identity sampleBars
    { date := 0, open_ := 10, high := 12, low := 9, close := 11, volume := 100 }
    (.text "5 minutes") ⟨5, "minutes"⟩ 5
  refine ⟨h.1 (by simp [sampleBars]) (by simp [sampleBars]), ?_⟩
  exact h.2 (by decide) (by simp [getMinutesFromUnit]) (by norm_num)

/-- C18: for bars sorted strictly ascending by timestamp, the output of a normal
return has strictly ascending timestamps, which form a subsequence of the input
timestamps; when bars were aggregated, each output date is the date of the first
bar of its run. -/
theorem transform_chronological (bars : List Bar) (target : IntervalInput) (out : List Bar)
    (hsorted : bars.Pairwise (fun a b => a.date < b.date))
    (h : transformDataToInterval bars target = .ok out) :
    out.Pairwise (fun a b => a.date < b.date) ∧
    (out.map (fun b => b.date)).Sublist (bars.map (fun b => b.date)) ∧
    (out = bars ∨ ∃ p, parseInterval target = some p ∧
      out.map (fun b => b.date) = (bars.splitBy (sameBucket p)).map firstDate) := by
  have hsub : (out.map (fun b => b.date)).Sublist (bars.map (fun b => b.date)) := by
    rcases transform_ok_inv bars target out h with rfl | ⟨p, m, -, -, -, -, rfl⟩
    · exact List.Sublist.refl _
    · exact bucketLoop_sublist p bars
  refine ⟨?_, hsub, ?_⟩
  · have h1 : (bars.map (fun b => b.date)).Pairwise (fun a b => a < b) :=
      List.pairwise_map.mpr hsorted
    exact List.pairwise_map.mp (h1.sublist hsub)
  · rcases transform_ok_inv bars target out h with rfl | ⟨p, m, -, hp, -, -, rfl⟩
    · exact Or.inl rfl
    · refine Or.inr ⟨p, hp, ?_⟩
      rw [bucketLoop_eq_splitBy]
      exact filterMap_aggregate_dates _
        (fun g hg e => List.nil_not_mem_splitBy (sameBucket p) bars (e ▸ hg))

/-- Witness for C18: the sample bars, dated 0, 60000 and 300000, give bars dated
0 and 300000 for `5 minutes`. -/
theorem transform_chronological_witness :
    sampleOut.Pairwise (fun a b => a.date < b.date) ∧
    (sampleOut.map (fun b => b.date)).Sublist (sampleBars.map (fun b => b.date)) :=
  let h := transform_chronological sampleBars (.text "5 minutes") sampleOut
    (by simp [sampleBars]) sample_transform
  ⟨h.1, h.2.1⟩

/-- The intervals of exactly one minute: one minute or sixty seconds. -/
theorem resolves_to_one_cases (v : Nat) (u : String)
    (h : getMinutesFromUnit v u = some 1) :
    (v = 1 ∧ (u = "minute" ∨ u = "minutes")) ∨ (v = 60 ∧ (u = "second" ∨ u = "seconds")) := by
  unfold getMinutesFromUnit at h
  split_ifs at h with h1 h2 h3 h4 h5 h6
  · right
    refine ⟨?_, h1⟩
    have e : (v : ℚ) = 60 := by
      have := Option.some.inj h
      field_simp at this
      linarith
    exact_mod_cast e
  · left
    refine ⟨?_, h2⟩
    have e : (v : ℚ) = 1 := Option.some.inj h
    exact_mod_cast e
  · exfalso
    have e : ((v * 60 : Nat) : ℚ) = ((1 : Nat) : ℚ) := by
      push_cast
      exact Option.some.inj h
    have : v * 60 = 1 := by exact_mod_cast e
    omega
  · exfalso
    have e : ((v * 1440 : Nat) : ℚ) = ((1 : Nat) : ℚ) := by
      push_cast
      exact Option.some.inj h
    have : v * 1440 = 1 := by exact_mod_cast e
    omega
  · exfalso
    have e : ((v * 10080 : Nat) : ℚ) = ((1 : Nat) : ℚ) := by
      push_cast
      exact Option.some.inj h
    have : v * 10080 = 1 := by exact_mod_cast e
    omega
  · exfalso
    have e : ((v * 43200 : Nat) : ℚ) = ((1 : Nat) : ℚ) := by
      push_cast
      exact Option.some.inj h
    have : v * 43200 = 1 := by exact_mod_cast e
    omega

theorem validated_one_to_five : canTransformData "1 minute" "5 minutes" = true := by
  rw [canTransformData_resolved "1 minute" "5 minutes" ⟨1, "minute"⟩ ⟨5, "minutes"⟩ 1 5
    (by decide) (by decide) (by decide) (by decide) (by simp [getMinutesFromUnit])
    (by simp [getMinutesFromUnit]) (by norm_num) (by norm_num)]
  have hmod : jsMod 5 1 = 0 :=
    (jsMod_eq_zero_iff 5 1 (by norm_num) (by norm_num)).mpr ⟨5, by norm_num⟩
  simp [hmod]

theorem single_transform :
    transformDataToInterval singleBar (.text "5 minutes") = .ok singleBar := by
  rw [transform_aggregates singleBar (.text "5 minutes") ⟨5, "minutes"⟩ 5 (by decide)
    (by decide) (by simp [getMinutesFromUnit]) (by norm_num)]
  exact congrArg Except.ok (bucketLoop_of_chain _ _ (List.chain'_singleton _))

/-- C15 (as stated, refuted): a single one-minute bar and the validated target
`5 minutes` give one output bar for one input bar, although the target resolves
to 5 minutes and not to 1. -/
theorem compression_equality_single_bar :
    singleBar ≠ [] ∧ canTransformData "1 minute" "5 minutes" = true ∧
    transformDataToInterval singleBar (.text "5 minutes") = .ok singleBar ∧
    parseInterval (.text "5 minutes") = some ⟨5, "minutes"⟩ ∧
    getMinutesFromUnit ((5 : Nat) : ℚ) "minutes" = some 5 ∧ (5 : ℚ) ≠ 1 :=
  ⟨by decide, validated_one_to_five, single_transform, by decide,
    by simp [getMinutesFromUnit], by norm_num⟩

/-- C15 (amended): for a non-empty sequence of one-minute bars, strictly
ascending with at most one bar per calendar minute, and a target accepted by the
validator for the source `1 minute`, the transformation returns normally; the
output has as many bars as the input whenever the target resolves to 1 minute,
and in general exactly when no two adjacent bars have the same bucket start. -/
theorem compression_equality (bars : List Bar) (t : String) (hne : bars ≠ [])
    (hasc : bars.Pairwise (fun a b => a.date < b.date))
    (hmin : bars.Pairwise (fun a b => a.date / 60000 ≠ b.date / 60000))
    (hv : canTransformData "1 minute" t = true) :
    ∃ p m out, parseInterval (.text t) = some p ∧
      getMinutesFromUnit p.value p.unit = some m ∧
      transformDataToInterval bars (.text t) = .ok out ∧
      (m = 1 → out.length = bars.length) ∧
      (out.length = bars.length ↔
        bars.Chain' (fun a b => bucketStart p a.date ≠ bucketStart p b.date)) := by
  obtain ⟨sp, tp, sm, tm, hs, ht, hsm, htm, -, -, hle⟩ := canTransformData_true_inv _ t hv
  have hs1 : parseInterval (.text "1 minute") = some ⟨1, "minute"⟩ := by decide
  rw [hs1] at hs
  cases hs
  have hsm1 : sm = 1 := by
    simp [getMinutesFromUnit] at hsm
    exact hsm.symm
  subst hsm1
  refine ⟨tp, tm, bucketLoop tp bars, ht, htm,
    transform_aggregates bars (.text t) tp tm hne ht htm hle, ?_,
    bucketLoop_length_eq_iff tp bars⟩
  intro h1
  subst h1
  apply (bucketLoop_length_eq_iff tp bars).mpr
  obtain ⟨v, u⟩ := tp
  rcases resolves_to_one_cases v u htm with ⟨rfl, hu⟩ | ⟨rfl, hu⟩
  · exact chain_one_minute u hu bars hmin
  · refine List.Chain'.imp ?_ (List.Pairwise.chain' hasc)
    intro a b hab
    rw [bucketStart_seconds 60 u hu, bucketStart_seconds 60 u hu]
    omega

/-- Witness for C15 (amended): the sample bars and the target `1 minute`. -/
theorem compression_equality_witness :
    ∃ out, transformDataToInterval sampleBars (.text "1 minute") = .ok out ∧
      out.length = sampleBars.length := by
  have hv : canTransformData "1 minute" "1 minute" = true := by
    rw [canTransformData_resolved "1 minute" "1 minute" ⟨1, "minute"⟩ ⟨1, "minute"⟩ 1 1
      (by decide) (by decide) (by decide) (by decide) (by simp [getMinutesFromUnit])
      (by simp [getMinutesFromUnit]) (by norm_num) (by norm_num)]
    have hmod : jsMod 1 1 = 0 :=
      (jsMod_eq_zero_iff 1 1 (by norm_num) (by norm_num)).mpr ⟨1, by norm_num⟩
    simp [hmod]
  obtain ⟨p, m, out, hp, hm, hout, h1, -⟩ := compression_equality sampleBars "1 minute"
    (by decide) (by simp [sampleBars]) (by simp [sampleBars]) hv
  have hp1 : parseInterval (.text "1 minute") = some ⟨1, "minute"⟩ := by decide
  rw [hp1] at hp
  cases hp
  simp [getMinutesFromUnit] at hm
  exact ⟨out, hout, h1 hm.symm⟩


/-! ### The range filter -/

theorem filterDataByRange_nil (range : String) : filterDataByRange [] range = [] := rfl

theorem filterDataByRange_eq (data : List Bar) (last : Bar) (range : String)
    (hlast : data.getLast? = some last) :
    filterDataByRange data range =
      match rangeStartDate last.date range with
      | none => data
      | some startDate => data.filter (fun item => decide (item.date ≥ startDate)) := by
  unfold filterDataByRange
  rw [hlast]

theorem newDate_start_of_year (year : Int) (h : ¬ (0 ≤ year ∧ year ≤ 99)) :
    newDate year 0 1 = startOfYear year := by
  unfold newDate startOfYear makeDate makeDay makeTime
  simp [h]

/-- What `filterDataByRange` keeps for a non-empty sequence whose last bar is
`last`: for a bounded token the bars not older than the token's number of days
before the last bar; for `YTD`, when the year of the last bar is not one of
0..99, the bars from January 1, 00:00, of that year; for `All` everything. -/
theorem filterDataByRange_cutoff (data : List Bar) (last : Bar) (range : String)
    (hlast : data.getLast? = some last) :
    (∀ n, rangeDays range = some n → filterDataByRange data range =
        data.filter (fun b => decide (b.date ≥ last.date - n * msPerDay))) ∧
    (range = "YTD" → ¬ (0 ≤ getFullYear last.date ∧ getFullYear last.date ≤ 99) →
      filterDataByRange data range =
        data.filter (fun b => decide (b.date ≥ startOfYear (getFullYear last.date)))) ∧
    (range = "All" → filterDataByRange data range = data) := by
  rw [filterDataByRange_eq data last range hlast]
  refine ⟨?_, ?_, ?_⟩
  · intro n hn
    unfold rangeDays at hn
    split_ifs at hn with h1 h2 h3 h4 h5 h6 h7 <;> cases hn <;> subst range <;>
      simp [rangeStartDate, msPerDay]
  · intro hr hy
    subst hr
    simp [rangeStartDate, newDate_start_of_year _ hy]
  · intro hr
    subst hr
    simp [rangeStartDate]

/-- For bars sorted by date, keeping the bars from a cutoff on drops a prefix. -/
theorem filter_ge_suffix (c : Int) (l : List Bar)
    (hsorted : l.Pairwise (fun a b => a.date ≤ b.date)) :
    ∃ k, l.filter (fun item => decide (item.date ≥ c)) = l.drop k := by
  induction l with
  | nil => exact ⟨0, rfl⟩
  | cons x xs ih =>
    obtain ⟨hx, hxs⟩ := List.pairwise_cons.mp hsorted
    by_cases hc : x.date ≥ c
    · refine ⟨0, ?_⟩
      rw [List.drop_zero, List.filter_eq_self]
      intro b hb
      rcases List.mem_cons.mp hb with rfl | hb
      · simpa using hc
      · have := hx b hb
        simp only [decide_eq_true_eq]
        omega
    · obtain ⟨k, hk⟩ := ih hxs
      refine ⟨k + 1, ?_⟩
      rw [List.filter_cons, if_neg (by simpa using hc), hk, List.drop_succ_cons]

/-- C20: for bars sorted ascending by timestamp and every range token, the
output of `filterDataByRange` is the input with its first `k` bars dropped, for
some `k`. -/
theorem filterDataByRange_suffix (data : List Bar) (range : String)
    (hsorted : data.Pairwise (fun a b => a.date ≤ b.date)) :
    ∃ k, filterDataByRange data range = data.drop k := by
  unfold filterDataByRange
  cases data.getLast? with
  | none => exact ⟨0, rfl⟩
  | some last =>
    simp only
    cases rangeStartDate last.date range with
    | none => exact ⟨0, rfl⟩
    | some startDate => exact filter_ge_suffix startDate data hsorted

/-- Witness for C20: the sample bars and the token `1D`. -/
theorem filterDataByRange_suffix_witness :
    ∃ k, filterDataByRange sampleBars "1D" = sampleBars.drop k :=
  filterDataByRange_suffix sampleBars "1D" (by simp [sampleBars])

/-- C19 (the code at the failing input): the last bar is dated 1 June of the
year 50, so January 1 of its calendar year is not after it and the bar should
be kept for `YTD`; `filterDataByRange` computes the start date January 1, 1950,
and returns no bar. -/
theorem filterDataByRange_ytd_two_digit_year :
    ancientBars.getLast? = some ancientBar ∧
    getFullYear ancientBar.date = 50 ∧
    startOfYear 50 ≤ ancientBar.date ∧
    rangeStartDate ancientBar.date "YTD" = some (startOfYear 1950) ∧
    filterDataByRange ancientBars "YTD" = [] ∧
    ancientBars.filter (fun b => decide (b.date ≥ startOfYear 50)) = ancientBars := by
  have hd : ancientBar.date = -60576249600000 := rfl
  have hy : getFullYear ancientBar.date = 50 := by decide
  have h50 : startOfYear 50 = -60589296000000 := by decide
  have h1950 : startOfYear 1950 = -631152000000 := by decide
  have hstart : rangeStartDate ancientBar.date "YTD" = some (startOfYear 1950) := by
    rw [h1950]
    decide
  refine ⟨rfl, hy, by rw [h50, hd]; decide, hstart, ?_, ?_⟩
  · rw [filterDataByRange_eq ancientBars ancientBar "YTD" rfl, hstart, h1950]
    simp [ancientBars, hd]
  · rw [h50]
    simp [ancientBars, hd]

/-! ### Decimal numerals in interval strings -/

theorem digitChar_spec (k : Nat) (hk : k < 10) :
    isDigitChar (Nat.digitChar k) = true ∧ (Nat.digitChar k).toNat - '0'.toNat = k := by
  interval_cases k <;> exact ⟨by decide, by decide⟩

theorem parseInt_append_singleton (pre : List Char) (d : Char) :
    parseInt (pre ++ [d]) = 10 * parseInt pre + (d.toNat - '0'.toNat) := by
  simp [parseInt, List.foldl_append]

theorem toDigitsCore_spec (fuel : Nat) :
    ∀ (n : Nat) (ds : List Char), n < fuel →
      ∃ pre, Nat.toDigitsCore 10 fuel n ds = pre ++ ds ∧ pre ≠ [] ∧
        (∀ c ∈ pre, isDigitChar c = true) ∧ parseInt pre = n := by
  induction fuel with
  | zero => intro n ds h; omega
  | succ fuel ih =>
    intro n ds h
    obtain ⟨hd1, hd2⟩ := digitChar_spec (n % 10) (Nat.mod_lt _ (by norm_num))
    unfold Nat.toDigitsCore
    by_cases h0 : n / 10 = 0
    · simp only [h0, if_true]
      refine ⟨[Nat.digitChar (n % 10)], rfl, by simp, by simpa using hd1, ?_⟩
      simp only [parseInt, List.foldl_cons, List.foldl_nil, hd2]
      omega
    · simp only [h0, if_false]
      obtain ⟨pre, h1, h2, h3, h4⟩ := ih (n / 10) (Nat.digitChar (n % 10) :: ds) (by omega)
      refine ⟨pre ++ [Nat.digitChar (n % 10)], by simp [h1], by simp, ?_, ?_⟩
      · intro c hc
        rcases List.mem_append.mp hc with hc | hc
        · exact h3 c hc
        · rw [List.mem_singleton.mp hc]; exact hd1
      · rw [parseInt_append_singleton, h4, hd2]
        omega

/-- The decimal numeral of a natural number is a non-empty string of digits
that `parseInt` reads back as the number. -/
theorem numeral_spec (n : Nat) :
    (toString n).toList ≠ [] ∧ (∀ c ∈ (toString n).toList, isDigitChar c = true) ∧
      parseInt (toString n).toList = n := by
  obtain ⟨pre, h1, h2, h3, h4⟩ := toDigitsCore_spec (n + 1) n [] (by omega)
  have e : (toString n).toList = pre := by
    show (Nat.repr n).toList = pre
    unfold Nat.repr Nat.toDigits
    rw [h1]
    simp [List.asString]
  rw [e]
  exact ⟨h2, h3, h4⟩

/-- The interval string made of a numeral, one space and a word parses to the
number and the lower-cased word. -/
theorem parseInterval_numeral (N : Nat) (suffix : String) (u : List Char)
    (hs : suffix.toList = ' ' :: u) (hu : u ≠ []) (hw : ∀ c ∈ u, isWordChar c = true) :
    parseInterval (.text (toString N ++ suffix)) =
      some ⟨N, String.mk (u.map Char.toLower)⟩ := by
  obtain ⟨hne, hdig, hval⟩ := numeral_spec N
  have hlist : (toString N ++ suffix).toList = (toString N).toList ++ [' '] ++ u := by
    show (toString N ++ suffix).data = _
    rw [String.data_append]
    show (toString N).toList ++ suffix.toList = _
    rw [hs]
    simp
  have hsplit : IsIntervalSplit (toString N ++ suffix).toList (toString N).toList [' '] u :=
    ⟨hlist, hne, hdig, by simp; decide, hu, hw⟩
  have hsome := (parseInterval_text_isSome (toString N ++ suffix)).mpr ⟨_, _, _, hsplit⟩
  cases hp : parseInterval (.text (toString N ++ suffix)) with
  | none => rw [hp] at hsome; cases hsome
  | some r =>
    obtain ⟨ds, ws, w, hsp, hmax, -, hv, hun⟩ := parseInterval_text_some _ r hp
    have h1 := hmax _ _ _ hsplit
    have h2 : ds.length ≤ (toString N).toList.length := by
      by_contra hgt
      have hlt : (toString N).toList.length < ds.length := by omega
      have e := hsp.1
      rw [hlist, List.append_assoc, List.append_assoc] at e
      have e2 := congrArg (fun l => l[(toString N).toList.length]?) e
      simp only [List.getElem?_append_right (le_refl _), Nat.sub_self, List.singleton_append,
        List.getElem?_cons_zero, List.getElem?_append_left hlt] at e2
      have hmem : ' ' ∈ ds := by
        rw [List.getElem?_eq_getElem hlt] at e2
        have := Option.some.inj e2
        rw [this]
        exact List.getElem_mem _
      have := hsp.2.2.1 ' ' hmem
      revert this
      decide
    obtain ⟨hds, hwu⟩ := split_unique _ _ _ _ _ _ _ hsplit hsp (by omega)
    rw [hds, hval] at hv
    rw [hwu] at hun
    cases r
    simp only at hv hun
    rw [hv, hun]

theorem parse_minutes (N : Nat) :
    parseInterval (.text (toString N ++ " minutes")) = some ⟨N, "minutes"⟩ :=
  parseInterval_numeral N " minutes" "minutes".toList rfl (by decide) (by decide)

theorem parse_hours (N : Nat) :
    parseInterval (.text (toString N ++ " hours")) = some ⟨N, "hours"⟩ :=
  parseInterval_numeral N " hours" "hours".toList rfl (by decide) (by decide)

theorem parse_days (N : Nat) :
    parseInterval (.text (toString N ++ " days")) = some ⟨N, "days"⟩ :=
  parseInterval_numeral N " days" "days".toList rfl (by decide) (by decide)

theorem parse_weeks (N : Nat) :
    parseInterval (.text (toString N ++ " weeks")) = some ⟨N, "weeks"⟩ :=
  parseInterval_numeral N " weeks" "weeks".toList rfl (by decide) (by decide)

theorem parse_months (N : Nat) :
    parseInterval (.text (toString N ++ " months")) = some ⟨N, "months"⟩ :=
  parseInterval_numeral N " months" "months".toList rfl (by decide) (by decide)

/-! ### The calendar -/

theorem yoe_bounds (doe : Int) (h0 : 0 ≤ doe) (h1 : doe ≤ 146096) :
    0 ≤ (doe - doe / 1460 + doe / 36524 - doe / 146096) / 365 ∧
    (doe - doe / 1460 + doe / 36524 - doe / 146096) / 365 ≤ 399 := by
  omega

theorem doy_bounds (doe : Int) (h0 : 0 ≤ doe) (h1 : doe ≤ 146096) :
    0 ≤ doe - (365 * ((doe - doe / 1460 + doe / 36524 - doe / 146096) / 365)
      + (doe - doe / 1460 + doe / 36524 - doe / 146096) / 365 / 4
      - (doe - doe / 1460 + doe / 36524 - doe / 146096) / 365 / 100) ∧
    doe - (365 * ((doe - doe / 1460 + doe / 36524 - doe / 146096) / 365)
      + (doe - doe / 1460 + doe / 36524 - doe / 146096) / 365 / 4
      - (doe - doe / 1460 + doe / 36524 - doe / 146096) / 365 / 100) ≤ 365 := by
  have hf : doe / 36524 = 0 ∨ doe / 36524 = 1 ∨ doe / 36524 = 2 ∨ doe / 36524 = 3 ∨
      doe / 36524 = 4 := by omega
  have hd : (doe - doe / 1460 + doe / 36524 - doe / 146096) / 365 / 100 = 0 ∨
      (doe - doe / 1460 + doe / 36524 - doe / 146096) / 365 / 100 = 1 ∨
      (doe - doe / 1460 + doe / 36524 - doe / 146096) / 365 / 100 = 2 ∨
      (doe - doe / 1460 + doe / 36524 - doe / 146096) / 365 / 100 = 3 := by omega
  rcases hf with hf | hf | hf | hf | hf <;> rcases hd with hd | hd | hd | hd <;> omega

/-- The civil date of a day number has a month index 0..11 and a day 1..31, and
it is a date of that day number. -/
theorem civil_roundtrip (z : Int) :
    0 ≤ (civilFromDays z).2.1 ∧ (civilFromDays z).2.1 ≤ 11 ∧
    1 ≤ (civilFromDays z).2.2 ∧ (civilFromDays z).2.2 ≤ 31 ∧
    daysFromCivil (civilFromDays z).1 (civilFromDays z).2.1 + (civilFromDays z).2.2 - 1 = z := by
  have hz : z = (z + 719468 - (z + 719468) / 146097 * 146097) + (z + 719468) / 146097 * 146097
      - 719468 := by ring
  have hdoe0 : 0 ≤ z + 719468 - (z + 719468) / 146097 * 146097 := by omega
  have hdoe1 : z + 719468 - (z + 719468) / 146097 * 146097 ≤ 146096 := by omega
  simp only [civilFromDays, daysFromCivil]
  generalize hdoe : z + 719468 - (z + 719468) / 146097 * 146097 = doe at *
  generalize (z + 719468) / 146097 = era at *
  have hy := yoe_bounds doe hdoe0 hdoe1
  have hd := doy_bounds doe hdoe0 hdoe1
  generalize (doe - doe / 1460 + doe / 36524 - doe / 146096) / 365 = yoe at *
  generalize hdoy : doe - (365 * yoe + yoe / 4 - yoe / 100) = doy at *
  have hg : (yoe + era * 400) / 400 = era := by omega
  have hg1 : (yoe + era * 400 + 1 - 1) / 400 = era := by omega
  have hmp0 : 0 ≤ (5 * doy + 2) / 153 := by omega
  have hmp1 : (5 * doy + 2) / 153 ≤ 11 := by omega
  have hmp2 : 153 * ((5 * doy + 2) / 153) ≤ 5 * doy + 2 := by omega
  have hmp3 : 5 * doy + 2 < 153 * ((5 * doy + 2) / 153) + 153 := by omega
  generalize (5 * doy + 2) / 153 = mp at *
  subst hz
  split_ifs <;> simp only [hg, hg1, add_sub_cancel_right, sub_add_cancel] <;> omega

/-! ### Bucket starts by unit -/

theorem loopStep_congr (p q : IntervalSpec)
    (h : ∀ t, bucketStart p t = bucketStart q t) : loopStep p = loopStep q := by
  funext st b
  unfold loopStep
  rw [h]

/-- The loop depends on the target only through the bucket starts. -/
theorem bucketLoop_congr (p q : IntervalSpec) (bars : List Bar)
    (h : ∀ t, bucketStart p t = bucketStart q t) : bucketLoop p bars = bucketLoop q bars := by
  unfold bucketLoop
  rw [loopStep_congr p q h]

theorem getMinutes_bounds (t : Int) : 0 ≤ getMinutes t ∧ getMinutes t < 60 := by
  unfold getMinutes
  omega

theorem getHours_bounds (t : Int) : 0 ≤ getHours t ∧ getHours t < 24 := by
  unfold getHours
  omega

theorem floor_mul_bounds (x : Int) (N : Nat) (hx : 0 ≤ x) (hN : 1 ≤ N) :
    0 ≤ x / (N : Int) * (N : Int) ∧ x / (N : Int) * (N : Int) ≤ x := by
  have hN0 : (0 : Int) < N := by exact_mod_cast hN
  exact ⟨Int.mul_nonneg (Int.ediv_nonneg hx hN0.le) hN0.le, Int.ediv_mul_le x hN0.ne'⟩

/-- The bucket start for a minute unit, as the start of the hour plus the
aligned minutes. -/
theorem bucketStart_minute_unit (N : Nat) (u : String) (hu : u = "minute" ∨ u = "minutes")
    (t : Int) :
    bucketStart ⟨N, u⟩ t = t / 3600000 * 3600000 + (getMinutes t / (N : Int) * (N : Int)) * 60000 := by
  have hinc : includes u "minute" = true := by
    rcases hu with rfl | rfl <;> decide
  unfold bucketStart
  simp only [hinc, if_true, setMinutes, makeDate, makeTime, dayOf, getHours, msPerDay,
    msPerHour, msPerMinute]
  generalize getMinutes t / (N : Int) * (N : Int) = y
  omega

/-- The bucket start for an hour unit, as the start of the day plus the aligned
hours. -/
theorem bucketStart_hour_unit (N : Nat) (u : String) (hu : u = "hour" ∨ u = "hours")
    (t : Int) :
    bucketStart ⟨N, u⟩ t = t / 86400000 * 86400000 + (getHours t / (N : Int) * (N : Int)) * 3600000 := by
  have h1 : includes u "minute" = false := by rcases hu with rfl | rfl <;> decide
  have h2 : includes u "hour" = true := by rcases hu with rfl | rfl <;> decide
  unfold bucketStart
  simp only [h1, h2, if_true, Bool.false_eq_true, if_false, setHours, makeDate, makeTime,
    dayOf, msPerDay, msPerHour, msPerMinute]
  generalize getHours t / (N : Int) * (N : Int) = y
  omega

theorem aligned_eq_iff (N : Nat) (hN : 1 ≤ N) (x y : Int) :
    x / (N : Int) * (N : Int) = y / (N : Int) * (N : Int) ↔ x / (N : Int) = y / (N : Int) := by
  have hN0 : (N : Int) ≠ 0 := by
    have : (0 : Int) < N := by exact_mod_cast hN
    exact this.ne'
  exact ⟨fun h => Int.eq_of_mul_eq_mul_right hN0 h, fun h => by rw [h]⟩

/-- C23: for the target `N minutes` with `1 ≤ N ≤ 2^53` the bucket start of the
time value of a valid date lies in the
same hour, has the minute of the hour `floor(minute / N) * N` and no seconds or
milliseconds; for `N hours` it lies on the same day, has the hour of the day
`floor(hour / N) * N` and no minutes, seconds or milliseconds. Two timestamps
have the same bucket start exactly when they lie in the same hour with equal
`floor(minute / N)`, respectively on the same day with equal `floor(hour / N)`. -/
theorem minute_hour_alignment (N : Nat) (hN : 1 ≤ N) (_hNb : N ≤ maxExactInt) (t t2 : Int)
    (_ht : InDateRange t) (_ht2 : InDateRange t2) :
    (parseInterval (.text (toString N ++ " minutes")) = some ⟨N, "minutes"⟩ ∧
      bucketStart ⟨N, "minutes"⟩ t / 3600000 = t / 3600000 ∧
      getMinutes (bucketStart ⟨N, "minutes"⟩ t) = getMinutes t / (N : Int) * (N : Int) ∧
      bucketStart ⟨N, "minutes"⟩ t % 60000 = 0 ∧
      (bucketStart ⟨N, "minutes"⟩ t = bucketStart ⟨N, "minutes"⟩ t2 ↔
        t / 3600000 = t2 / 3600000 ∧
          getMinutes t / (N : Int) = getMinutes t2 / (N : Int))) ∧
    (parseInterval (.text (toString N ++ " hours")) = some ⟨N, "hours"⟩ ∧
      bucketStart ⟨N, "hours"⟩ t / 86400000 = t / 86400000 ∧
      getHours (bucketStart ⟨N, "hours"⟩ t) = getHours t / (N : Int) * (N : Int) ∧
      bucketStart ⟨N, "hours"⟩ t % 3600000 = 0 ∧
      (bucketStart ⟨N, "hours"⟩ t = bucketStart ⟨N, "hours"⟩ t2 ↔
        t / 86400000 = t2 / 86400000 ∧ getHours t / (N : Int) = getHours t2 / (N : Int))) := by
  constructor
  · have hm := getMinutes_bounds t
    have hm2 := getMinutes_bounds t2
    have hy := floor_mul_bounds (getMinutes t) N hm.1 hN
    have hy2 := floor_mul_bounds (getMinutes t2) N hm2.1 hN
    have hiff := aligned_eq_iff N hN (getMinutes t) (getMinutes t2)
    rw [bucketStart_minute_unit N "minutes" (Or.inr rfl) t,
      bucketStart_minute_unit N "minutes" (Or.inr rfl) t2]
    refine ⟨parse_minutes N, ?_, ?_, ?_, ?_⟩
    · omega
    · generalize getMinutes t / (N : Int) * (N : Int) = y at *
      unfold getMinutes msPerMinute
      omega
    · omega
    · rw [← hiff]
      generalize getMinutes t / (N : Int) * (N : Int) = y at *
      generalize getMinutes t2 / (N : Int) * (N : Int) = y2 at *
      omega
  · have hm := getHours_bounds t
    have hm2 := getHours_bounds t2
    have hy := floor_mul_bounds (getHours t) N hm.1 hN
    have hy2 := floor_mul_bounds (getHours t2) N hm2.1 hN
    have hiff := aligned_eq_iff N hN (getHours t) (getHours t2)
    rw [bucketStart_hour_unit N "hours" (Or.inr rfl) t,
      bucketStart_hour_unit N "hours" (Or.inr rfl) t2]
    refine ⟨parse_hours N, ?_, ?_, ?_, ?_⟩
    · omega
    · generalize getHours t / (N : Int) * (N : Int) = y at *
      unfold getHours msPerHour
      omega
    · omega
    · rw [← hiff]
      generalize getHours t / (N : Int) * (N : Int) = y at *
      generalize getHours t2 / (N : Int) * (N : Int) = y2 at *
      omega

/-- Witness for C23: at 22:13:20 of 14 November 2023 the bucket of `5 minutes`
starts at minute 10 of the hour. -/
theorem minute_hour_alignment_witness :
    getMinutes 1700000000000 = 13 ∧
    getMinutes (bucketStart ⟨5, "minutes"⟩ 1700000000000) = 10 ∧
    bucketStart ⟨5, "minutes"⟩ 1700000000000 % 60000 = 0 := by
  have h := (minute_hour_alignment 5 (by decide) (by decide) 1700000000000 0 (by decide)
    (by decide)).1
  refine ⟨by decide, ?_, h.2.2.2.1⟩
  rw [h.2.2.1]
  decide

/-- The validator accepts every whole number of minutes, at least one, for the
source `1 minute`. -/
theorem validated_minutes (N : Nat) (hN : 1 ≤ N) :
    canTransformData "1 minute" (toString N ++ " minutes") = true := by
  have hp := parse_minutes N
  have hN0 : (N : ℚ) ≠ 0 := by
    have : (0 : ℚ) < N := by exact_mod_cast hN
    exact this.ne'
  have hu : "minutes" ∈ timeUnits := by decide
  rw [canTransformData_resolved "1 minute" _ ⟨1, "minute"⟩ ⟨N, "minutes"⟩ 1 N
    (no_tick_of_time_unit _ _ hp hu) (no_range_of_time_unit _ _ hp hu)
    (by decide) hp (by simp [getMinutesFromUnit]) (by simp [getMinutesFromUnit])
    (by norm_num) hN0]
  have hmod : jsMod (N : ℚ) 1 = 0 :=
    (jsMod_eq_zero_iff _ 1 (by norm_num) (Nat.cast_nonneg N)).mpr ⟨N, by simp⟩
  have hle : (1 : ℚ) ≤ N := by exact_mod_cast hN
  simp [hmod, hle]

theorem bucketStart_over_range (N : Nat) (hN : 60 ≤ N) (t : Int) :
    bucketStart ⟨N, "minutes"⟩ t = bucketStart ⟨1, "hour"⟩ t := by
  have hm := getMinutes_bounds t
  have hz : getMinutes t / (N : Int) = 0 :=
    Int.ediv_eq_zero_of_lt hm.1 (by omega)
  rw [bucketStart_minute_unit N "minutes" (Or.inr rfl) t,
    bucketStart_hour_unit 1 "hour" (Or.inl rfl) t, hz]
  unfold getHours msPerHour
  simp only [Nat.cast_one]
  omega

/-- C30: for every `N` with `60 ≤ N ≤ 2^53` and every bar sequence, the target
`N minutes` gives the same result as the target `1 hour`. -/
theorem minutes_over_range (N : Nat) (hN : 60 ≤ N) (_hNb : N ≤ maxExactInt)
    (bars : List Bar) :
    transformDataToInterval bars (.text (toString N ++ " minutes")) =
      transformDataToInterval bars (.text "1 hour") := by
  by_cases hb : bars = []
  · subst hb
    rfl
  · have h1 : (1 : ℚ) ≤ (N : ℚ) := by
      have : 1 ≤ N := by omega
      exact_mod_cast this
    rw [transform_aggregates bars _ ⟨N, "minutes"⟩ N hb (parse_minutes N)
        (by simp [getMinutesFromUnit]) h1,
      transform_aggregates bars (.text "1 hour") ⟨1, "hour"⟩ 60 hb (by decide)
        (by simp [getMinutesFromUnit]) (by norm_num),
      bucketLoop_congr _ _ bars (bucketStart_over_range N hN)]

/-- Witness for C30: the target `90 minutes`, which the validator accepts for
the source `1 minute`, gives the hourly result on the sample bars. -/
theorem minutes_over_range_witness :
    canTransformData "1 minute" "90 minutes" = true ∧
    transformDataToInterval sampleBars (.text "90 minutes") =
      transformDataToInterval sampleBars (.text "1 hour") := by
  have e : toString 90 ++ " minutes" = "90 minutes" := by decide
  have h := minutes_over_range 90 (by decide) (by decide) sampleBars
  have hv := validated_minutes 90 (by decide)
  rw [e] at h hv
  exact ⟨hv, h⟩

theorem bucketStart_day_unit (N : Nat) (u : String) (hu : u = "day" ∨ u = "days") (t : Int) :
    bucketStart ⟨N, u⟩ t =
      if 1 < N then (dayOf t / (N : Int) * (N : Int)) * msPerDay else dayOf t * msPerDay := by
  have h1 : includes u "minute" = false := by rcases hu with rfl | rfl <;> decide
  have h2 : includes u "hour" = false := by rcases hu with rfl | rfl <;> decide
  have h3 : includes u "day" = true := by rcases hu with rfl | rfl <;> decide
  have hmid : (t / 86400000 * 86400000 + (0 * 3600000 + 0 * 60000 + 0 * 1000 + 0))
      / (1000 * 60 * 60 * 24) = t / 86400000 := by omega
  unfold bucketStart
  simp only [h1, h2, h3, if_true, Bool.false_eq_true, if_false, setHours, makeDate, makeTime,
    dayOf, msPerDay, msPerHour, msPerMinute, hmid]
  by_cases hN : 1 < N
  · have hc : (N : Int) > 1 := by exact_mod_cast hN
    simp only [hc, hN, if_true]
    ring
  · have hc : ¬ (N : Int) > 1 := by
      intro h
      exact hN (by exact_mod_cast h)
    simp only [hc, hN, if_false]
    omega

/-- C24: for the target `1 day` the bucket start is midnight of the day of the
timestamp; for `N days` with `1 < N ≤ 2^53` it is the start of day number
`floor(daysSinceEpoch / N) * N` counted from 1970-01-01, so two timestamps have
the same bucket start exactly when their `floor(daysSinceEpoch / N)` are equal;
the bucket start of a bar is a function of its own timestamp, so dropping a
prefix of the input leaves the bucket starts of the later bars as they were.
The timestamps and their bucket starts are time values of valid dates. -/
theorem day_alignment (N : Nat) (hN : 1 < N) (_hNb : N ≤ maxExactInt) (t t2 : Int)
    (_ht : InDateRange t ∧ InDateRange (bucketStart ⟨N, "days"⟩ t))
    (_ht2 : InDateRange t2 ∧ InDateRange (bucketStart ⟨N, "days"⟩ t2))
    (bars : List Bar)
    (_hbars : ∀ b ∈ bars, InDateRange b.date ∧ InDateRange (bucketStart ⟨N, "days"⟩ b.date))
    (k : Nat) :
    (parseInterval (.text "1 day") = some ⟨1, "day"⟩ ∧
      bucketStart ⟨1, "day"⟩ t = dayOf t * msPerDay ∧
      bucketStart ⟨1, "day"⟩ t ≤ t ∧ t < bucketStart ⟨1, "day"⟩ t + msPerDay) ∧
    (parseInterval (.text (toString N ++ " days")) = some ⟨N, "days"⟩ ∧
      bucketStart ⟨N, "days"⟩ t = (dayOf t / (N : Int) * (N : Int)) * msPerDay ∧
      (bucketStart ⟨N, "days"⟩ t = bucketStart ⟨N, "days"⟩ t2 ↔
        dayOf t / (N : Int) = dayOf t2 / (N : Int))) ∧
    (bars.drop k).map (fun b => bucketStart ⟨N, "days"⟩ b.date) =
      (bars.map (fun b => bucketStart ⟨N, "days"⟩ b.date)).drop k := by
  refine ⟨⟨by decide, ?_, ?_, ?_⟩, ⟨parse_days N, ?_, ?_⟩, by rw [List.map_drop]⟩
  · rw [bucketStart_day_unit 1 "day" (Or.inl rfl) t]
    simp
  · rw [bucketStart_day_unit 1 "day" (Or.inl rfl) t]
    simp only [lt_self_iff_false, if_false, dayOf, msPerDay]
    omega
  · rw [bucketStart_day_unit 1 "day" (Or.inl rfl) t]
    simp only [lt_self_iff_false, if_false, dayOf, msPerDay]
    omega
  · rw [bucketStart_day_unit N "days" (Or.inr rfl) t, if_pos hN]
  · rw [bucketStart_day_unit N "days" (Or.inr rfl) t, if_pos hN,
      bucketStart_day_unit N "days" (Or.inr rfl) t2, if_pos hN,
      ← aligned_eq_iff N (by omega) (dayOf t) (dayOf t2)]
    unfold msPerDay
    omega

/-- Witness for C24: 14 and 15 November 2023 are the days 19675 and 19676 since
the epoch, in the same bucket of `3 days`, which starts on day 19674. -/
theorem day_alignment_witness :
    dayOf 1700000000000 = 19675 ∧ dayOf 1700086400000 = 19676 ∧
    bucketStart ⟨3, "days"⟩ 1700000000000 = 19674 * msPerDay ∧
    bucketStart ⟨3, "days"⟩ 1700000000000 = bucketStart ⟨3, "days"⟩ 1700086400000 := by
  have h := (day_alignment 3 (by decide) (by decide) 1700000000000 1700086400000
    (by decide) (by decide) [] (by simp) 0).2.1
  refine ⟨by decide, by decide, ?_, h.2.2.mpr (by decide)⟩
  rw [h.2.1]
  decide

/-- The method `setDate` moves the day and keeps the time of the day. -/
theorem setDate_eq (t date : Int) :
    setDate t date = (dayOf t + (date - getDate t)) * msPerDay + timeWithinDay t := by
  obtain ⟨h0, h11, -, -, hrt⟩ := civil_roundtrip (dayOf t)
  have hdiv : (civilFromDays (dayOf t)).2.1 / 12 = 0 := by omega
  have hmod : (civilFromDays (dayOf t)).2.1 % 12 = (civilFromDays (dayOf t)).2.1 := by omega
  unfold setDate makeDate makeDay getFullYear getMonth getDate
  rw [hdiv, hmod, add_zero]
  have : daysFromCivil (civilFromDays (dayOf t)).1 (civilFromDays (dayOf t)).2.1 + date - 1
      = dayOf t + (date - (civilFromDays (dayOf t)).2.2) := by omega
  rw [this]

theorem bucketStart_week_unit (N : Nat) (u : String) (hu : u = "week" ∨ u = "weeks")
    (t : Int) :
    bucketStart ⟨N, u⟩ t = (dayOf t - (getDay t + 6) % 7) * msPerDay := by
  have h1 : includes u "minute" = false := by rcases hu with rfl | rfl <;> decide
  have h2 : includes u "hour" = false := by rcases hu with rfl | rfl <;> decide
  have h3 : includes u "day" = false := by rcases hu with rfl | rfl <;> decide
  have h4 : includes u "week" = true := by rcases hu with rfl | rfl <;> decide
  unfold bucketStart
  simp only [h1, h2, h3, h4, if_true, Bool.false_eq_true, if_false, setDate_eq]
  generalize (getDay t + 6) % 7 = dow
  unfold setHours makeDate makeTime dayOf timeWithinDay msPerDay msPerHour msPerMinute
  omega

theorem parse_week (N : Nat) :
    parseInterval (.text (toString N ++ " week")) = some ⟨N, "week"⟩ :=
  parseInterval_numeral N " week" "week".toList rfl (by decide) (by decide)

theorem transform_weeks_eq (N : Nat) (hN : 1 ≤ N) (bars : List Bar) (suffix u : String)
    (hu : u = "week" ∨ u = "weeks")
    (hp : parseInterval (.text (toString N ++ suffix)) = some ⟨N, u⟩) :
    transformDataToInterval bars (.text (toString N ++ suffix)) =
      transformDataToInterval bars (.text "1 week") := by
  by_cases hb : bars = []
  · subst hb
    rfl
  · have h1 : (1 : ℚ) ≤ (N : ℚ) * 10080 := by
      have : (1 : ℚ) ≤ (N : ℚ) := by exact_mod_cast hN
      linarith
    have hm : getMinutesFromUnit (N : ℚ) u = some ((N : ℚ) * 10080) := by
      rcases hu with rfl | rfl <;> simp [getMinutesFromUnit]
    rw [transform_aggregates bars _ ⟨N, u⟩ _ hb hp hm h1,
      transform_aggregates bars (.text "1 week") ⟨1, "week"⟩ 10080 hb (by decide)
        (by simp [getMinutesFromUnit]) (by norm_num),
      bucketLoop_congr ⟨N, u⟩ ⟨1, "week"⟩ bars (fun t => by
        rw [bucketStart_week_unit N u hu t, bucketStart_week_unit 1 "week" (Or.inl rfl) t])]

/-- C26: for the target `N weeks` (or `N week`) with `N ≥ 1` the bucket start of
a timestamp is Monday 00:00 of the Monday-to-Sunday week that contains it (for a
Sunday, six days before its midnight); the value `N` is not used, so the result
of the transformation is the one for `1 week`. -/
theorem week_alignment (N : Nat) (hN : 1 ≤ N) (t : Int) (bars : List Bar) :
    parseInterval (.text (toString N ++ " weeks")) = some ⟨N, "weeks"⟩ ∧
    bucketStart ⟨N, "weeks"⟩ t = (dayOf t - (getDay t + 6) % 7) * msPerDay ∧
    getDay (bucketStart ⟨N, "weeks"⟩ t) = 1 ∧
    bucketStart ⟨N, "weeks"⟩ t % msPerDay = 0 ∧
    bucketStart ⟨N, "weeks"⟩ t ≤ t ∧ t < bucketStart ⟨N, "weeks"⟩ t + 7 * msPerDay ∧
    (getDay t = 0 → bucketStart ⟨N, "weeks"⟩ t = (dayOf t - 6) * msPerDay) ∧
    transformDataToInterval bars (.text (toString N ++ " weeks")) =
      transformDataToInterval bars (.text "1 week") ∧
    transformDataToInterval bars (.text (toString N ++ " week")) =
      transformDataToInterval bars (.text "1 week") := by
  have hb := bucketStart_week_unit N "weeks" (Or.inr rfl) t
  refine ⟨parse_weeks N, hb, ?_, ?_, ?_, ?_, ?_,
    transform_weeks_eq N hN bars " weeks" "weeks" (Or.inr rfl) (parse_weeks N),
    transform_weeks_eq N hN bars " week" "week" (Or.inl rfl) (parse_week N)⟩
  all_goals
    rw [hb]
    unfold getDay dayOf msPerDay
    omega

/-- Witness for C26: Tuesday 14 November 2023, 22:13:20, belongs to the week
that starts on Monday 13 November, 00:00, also for the target `2 weeks`. -/
theorem week_alignment_witness :
    getDay 1700000000000 = 2 ∧ bucketStart ⟨2, "weeks"⟩ 1700000000000 = 1699833600000 ∧
    transformDataToInterval sampleBars (.text "2 weeks") =
      transformDataToInterval sampleBars (.text "1 week") := by
  have h := week_alignment 2 (by decide) 1700000000000 sampleBars
  have e : toString 2 ++ " weeks" = "2 weeks" := by decide
  refine ⟨by decide, ?_, ?_⟩
  · rw [h.2.1]
    decide
  · have h2 := h.2.2.2.2.2.2.2.1
    rw [e] at h2
    exact h2

/-! ### The invariant of the bars -/

theorem foldl_max_ge (l : List ℚ) : ∀ a : ℚ, a ≤ l.foldl max a ∧ ∀ x ∈ l, x ≤ l.foldl max a := by
  induction l with
  | nil => intro a; simp
  | cons y l ih =>
    intro a
    obtain ⟨h1, h2⟩ := ih (max a y)
    simp only [List.foldl_cons, List.mem_cons, forall_eq_or_imp]
    exact ⟨le_trans (le_max_left a y) h1, le_trans (le_max_right a y) h1, h2⟩

theorem foldl_min_le (l : List ℚ) : ∀ a : ℚ, l.foldl min a ≤ a ∧ ∀ x ∈ l, l.foldl min a ≤ x := by
  induction l with
  | nil => intro a; simp
  | cons y l ih =>
    intro a
    obtain ⟨h1, h2⟩ := ih (min a y)
    simp only [List.foldl_cons, List.mem_cons, forall_eq_or_imp]
    exact ⟨le_trans h1 (min_le_left a y), le_trans h1 (min_le_right a y), h2⟩

/-- The fields of the aggregate of a non-empty group. -/
theorem aggregate_fields (f : Bar) (rest : List Bar) (a : Bar)
    (h : aggregateCandles (f :: rest) = some a) :
    a.open_ = f.open_ ∧ a.close = ((f :: rest).getLastD f).close ∧
    a.high = (rest.map (fun b => b.high)).foldl max f.high ∧
    a.low = (rest.map (fun b => b.low)).foldl min f.low ∧
    a.volume = f.volume + (rest.map (fun b => b.volume)).sum := by
  have e : aggStep (f.high, f.low, 0) f = (f.high, f.low, f.volume) := by
    unfold aggStep
    simp
  unfold aggregateCandles at h
  simp only [List.foldl_cons, e, foldl_aggStep, Option.some.injEq] at h
  subst h
  exact ⟨rfl, rfl, rfl, rfl, rfl⟩

theorem getLastD_mem (f : Bar) (rest : List Bar) : (f :: rest).getLastD f ∈ f :: rest := by
  rw [List.getLastD_eq_getLast?]
  cases h : (f :: rest).getLast? with
  | none => simp at h
  | some x => exact List.mem_of_getLast?_eq_some h

theorem sum_nonneg_of_all (l : List ℚ) (h : ∀ x ∈ l, 0 ≤ x) : 0 ≤ l.sum := by
  induction l with
  | nil => simp
  | cons y l ih =>
    rw [List.sum_cons]
    exact add_nonneg (h y (List.mem_cons_self _ _))
      (ih (fun x hx => h x (List.mem_cons_of_mem _ hx)))

/-- The aggregate of a group of valid bars is valid, and has a non-negative
volume when the bars have. -/
theorem aggregate_valid (g : List Bar) (a : Bar) (h : aggregateCandles g = some a) :
    ((∀ b ∈ g, ohlcValid b) → ohlcValid a) ∧ ((∀ b ∈ g, 0 ≤ b.volume) → 0 ≤ a.volume) := by
  cases g with
  | nil => cases h
  | cons f rest =>
    obtain ⟨ho, hc, hh, hl, hv⟩ := aggregate_fields f rest a h
    have hlast := getLastD_mem f rest
    constructor
    · intro hall
      have hf := hall f (List.mem_cons_self _ _)
      have hla := hall _ hlast
      obtain ⟨hmax1, hmax2⟩ := foldl_max_ge (rest.map (fun b => b.high)) f.high
      obtain ⟨hmin1, hmin2⟩ := foldl_min_le (rest.map (fun b => b.low)) f.low
      have hlh : ((f :: rest).getLastD f).high ≤ a.high := by
        rw [hh]
        rcases List.mem_cons.mp hlast with e | e
        · rw [e]; exact hmax1
        · exact hmax2 _ (List.mem_map_of_mem _ e)
      have hll : a.low ≤ ((f :: rest).getLastD f).low := by
        rw [hl]
        rcases List.mem_cons.mp hlast with e | e
        · rw [e]; exact hmin1
        · exact hmin2 _ (List.mem_map_of_mem _ e)
      unfold ohlcValid at hf hla ⊢
      rw [ho, hc]
      rw [← hh] at hmax1
      rw [← hl] at hmin1
      refine ⟨le_min ?_ ?_, max_le ?_ ?_⟩
      · exact le_trans hmin1 (le_trans hf.1 (min_le_left _ _))
      · exact le_trans hll (le_trans hla.1 (min_le_right _ _))
      · exact le_trans (le_trans (le_max_left _ _) hf.2) hmax1
      · exact le_trans (le_trans (le_max_right _ _) hla.2) hlh
    · intro hall
      rw [hv]
      exact add_nonneg (hall f (List.mem_cons_self _ _))
        (sum_nonneg_of_all _ (by
          intro x hx
          obtain ⟨b, hb, rfl⟩ := List.mem_map.mp hx
          exact hall b (List.mem_cons_of_mem _ hb)))

/-- Every bar emitted by the loop is the aggregate of a group of input bars. -/
theorem bucketLoop_mem (p : IntervalSpec) (bars : List Bar) (a : Bar)
    (h : a ∈ bucketLoop p bars) :
    ∃ g, aggregateCandles g = some a ∧ ∀ b ∈ g, b ∈ bars := by
  rw [bucketLoop_eq_splitBy] at h
  obtain ⟨g, hg, hag⟩ := List.mem_filterMap.mp h
  refine ⟨g, hag, ?_⟩
  intro b hb
  have : b ∈ (bars.splitBy (sameBucket p)).flatten := List.mem_flatten.mpr ⟨g, hg, hb⟩
  rwa [List.flatten_splitBy] at this

/-- C27: when every input bar has its low at most its open and close and its
high at least both, every bar of a normal return has too; and when every input
volume is non-negative, so is every output volume. -/
theorem transform_preserves_invariant (bars : List Bar) (target : IntervalInput)
    (out : List Bar) (h : transformDataToInterval bars target = .ok out) :
    ((∀ b ∈ bars, ohlcValid b) → ∀ b ∈ out, ohlcValid b) ∧
    ((∀ b ∈ bars, 0 ≤ b.volume) → ∀ b ∈ out, 0 ≤ b.volume) := by
  rcases transform_ok_inv bars target out h with rfl | ⟨p, m, -, -, -, -, rfl⟩
  · exact ⟨fun h => h, fun h => h⟩
  · constructor
    · intro hall a ha
      obtain ⟨g, hg, hsub⟩ := bucketLoop_mem p bars a ha
      exact (aggregate_valid g a hg).1 (fun b hb => hall b (hsub b hb))
    · intro hall a ha
      obtain ⟨g, hg, hsub⟩ := bucketLoop_mem p bars a ha
      exact (aggregate_valid g a hg).2 (fun b hb => hall b (hsub b hb))

/-- Witness for C27: the two bars obtained from the three valid sample bars for
`5 minutes` are valid and have non-negative volumes. -/
theorem transform_preserves_invariant_witness :
    (∀ b ∈ sampleOut, ohlcValid b) ∧ (∀ b ∈ sampleOut, 0 ≤ b.volume) := by
  have h := transform_preserves_invariant sampleBars (.text "5 minutes") sampleOut
    sample_transform
  constructor
  · apply h.1
    intro b hb
    simp only [sampleBars, List.mem_cons, List.mem_singleton, List.not_mem_nil, or_false] at hb
    rcases hb with rfl | rfl | rfl <;> (unfold ohlcValid; norm_num)
  · apply h.2
    intro b hb
    simp only [sampleBars, List.mem_cons, List.mem_singleton, List.not_mem_nil, or_false] at hb
    rcases hb with rfl | rfl | rfl <;> norm_num

/-! ### The candle-count estimate -/

theorem lookup_rangeDays (r : String) (d : Int) (h : rangeDays r = some d) :
    truthyLookup rangeToDays r = some (d : ℚ) ∧
    truthyLookup rangeToMinutes r = some (1440 * (d : ℚ)) := by
  unfold rangeDays at h
  split_ifs at h <;> cases h <;> subst r <;>
    simp [truthyLookup, rangeToDays, rangeToMinutes, List.lookup] <;> norm_num

theorem lookup_open_range (r : String) (h : r = "YTD" ∨ r = "All") :
    truthyLookup rangeToDays r = none ∧ truthyLookup rangeToMinutes r = none := by
  rcases h with rfl | rfl <;> simp [truthyLookup, rangeToDays, rangeToMinutes, List.lookup]

theorem includesChars_of_infix (p pat q : List Char) :
    includesChars (p ++ pat ++ q) pat = true := by
  unfold includesChars
  rw [List.any_eq_true]
  refine ⟨pat ++ q, (List.mem_tails _ _).mpr ?_, ?_⟩
  · rw [List.append_assoc]
    exact List.suffix_append _ _
  · exact List.isPrefixOf_iff_prefix.mpr (List.prefix_append _ _)

theorem toList_append (a b : String) : (a ++ b).toList = a.toList ++ b.toList := by
  show (a ++ b).data = _
  rw [String.data_append]
  rfl

theorem firstToken_numeral (N : Nat) (suffix : String) (u : List Char)
    (hs : suffix.toList = ' ' :: u) :
    firstToken (toString N ++ suffix) = (toString N).toList := by
  obtain ⟨-, hdig, -⟩ := numeral_spec N
  unfold firstToken
  rw [toList_append, hs, List.takeWhile_append_of_pos, List.takeWhile_cons_of_neg (by simp),
    List.append_nil]
  intro c hc
  have := hdig c hc
  simp only [decide_eq_true_eq]
  rintro rfl
  revert this
  decide

theorem radixDigit_ten (c : Char) (h : isDigitChar c = true) :
    radixDigit 10 c = some (c.toNat - '0'.toNat) := by
  simp only [isDigitChar, Bool.and_eq_true, decide_eq_true_eq] at h
  have h9 : '9'.toNat = 57 := rfl
  have h0 : '0'.toNat = 48 := rfl
  unfold radixDigit
  simp only [h, and_self, if_true, Option.filter]
  have : c.toNat - '0'.toNat < 10 := by omega
  rw [h0] at this
  simp [this]

theorem foldl_radix_ten (ds : List Char) (hd : ∀ c ∈ ds, isDigitChar c = true) :
    ∀ a : Nat, ds.foldl (fun acc c => 10 * acc + (radixDigit 10 c).getD 0) a =
      ds.foldl (fun acc c => 10 * acc + (c.toNat - '0'.toNat)) a := by
  induction ds with
  | nil => intro a; rfl
  | cons c cs ih =>
    intro a
    rw [List.foldl_cons, List.foldl_cons, radixDigit_ten c (hd c (List.mem_cons_self _ _)),
      ih (fun x hx => hd x (List.mem_cons_of_mem _ hx))]
    rfl

/-- On a non-empty string of decimal digits `parseInt` gives its decimal
value. -/
theorem jsParseInt_digits (ds : List Char) (hne : ds ≠ [])
    (hd : ∀ c ∈ ds, isDigitChar c = true) : jsParseInt ds = some (parseInt ds : Int) := by
  cases ds with
  | nil => exact absurd rfl hne
  | cons c cs =>
    have hc := hd c (List.mem_cons_self _ _)
    have hsp : isSpaceChar c = false := digit_not_space c hc
    have hminus : c ≠ '-' := by rintro rfl; revert hc; decide
    have hplus : c ≠ '+' := by rintro rfl; revert hc; decide
    have hhex : ¬ ((c :: cs).take 2 = ['0', 'x'] ∨ (c :: cs).take 2 = ['0', 'X']) := by
      cases cs with
      | nil => simp
      | cons d ds =>
        have hdd := hd d (List.mem_cons_of_mem _ (List.mem_cons_self _ _))
        have hx : d ≠ 'x' := by rintro rfl; revert hdd; decide
        have hX : d ≠ 'X' := by rintro rfl; revert hdd; decide
        simp [hx, hX]
    have htake : (c :: cs).takeWhile (fun c => (radixDigit 10 c).isSome) = c :: cs := by
      rw [List.takeWhile_eq_self_iff]
      intro x hx
      rw [radixDigit_ten x (hd x hx)]
      rfl
    unfold jsParseInt
    simp only [List.dropWhile_cons, hsp, Bool.false_eq_true, if_false, List.head?_cons,
      Option.some.injEq, hminus, hplus, or_self, decide_False, hhex, htake, reduceCtorEq]
    rw [foldl_radix_ten (c :: cs) hd 0]
    rfl

theorem floorQuotient_pos (total : Int) (N : Nat) (hN : 1 ≤ N) :
    floorQuotient (total : ℚ) (some (N : Int)) = .int (total / (N : Int)) := by
  have hN0 : (N : Int) ≠ 0 := by omega
  unfold floorQuotient
  simp only [hN0, if_false]
  rw [show ((N : Int) : ℚ) = (N : ℚ) from by push_cast; rfl, Rat.floor_intCast_div_natCast]

theorem rangeDays_pos (r : String) (d : Int) (h : rangeDays r = some d) : 0 < d := by
  unfold rangeDays at h
  split_ifs at h <;> cases h <;> decide

/-- A range token has a number of days, or the lookup of the days fails. -/
theorem rangeDays_or_none (r : String) :
    (∃ d, rangeDays r = some d) ∨ truthyLookup rangeToDays r = none := by
  unfold rangeDays
  split_ifs with h1 h2 h3 h4 h5 h6 h7
  · exact Or.inl ⟨_, rfl⟩
  · exact Or.inl ⟨_, rfl⟩
  · exact Or.inl ⟨_, rfl⟩
  · exact Or.inl ⟨_, rfl⟩
  · exact Or.inl ⟨_, rfl⟩
  · exact Or.inl ⟨_, rfl⟩
  · exact Or.inl ⟨_, rfl⟩
  · right
    by_cases hy : r = "YTD"
    · exact (lookup_open_range r (Or.inl hy)).1
    · by_cases ha : r = "All"
      · exact (lookup_open_range r (Or.inr ha)).1
      · have e1 : (r == "1D") = false := beq_eq_false_iff_ne.mpr h1
        have e2 : (r == "5D") = false := beq_eq_false_iff_ne.mpr h2
        have e3 : (r == "1M") = false := beq_eq_false_iff_ne.mpr h3
        have e4 : (r == "3M") = false := beq_eq_false_iff_ne.mpr h4
        have e5 : (r == "6M") = false := beq_eq_false_iff_ne.mpr h5
        have e6 : (r == "1Y") = false := beq_eq_false_iff_ne.mpr h6
        have e7 : (r == "5Y") = false := beq_eq_false_iff_ne.mpr h7
        have e8 : (r == "YTD") = false := beq_eq_false_iff_ne.mpr hy
        have e9 : (r == "All") = false := beq_eq_false_iff_ne.mpr ha
        simp only [truthyLookup, rangeToDays, List.lookup, e1, e2, e3, e4, e5, e6, e7, e8, e9]

/-- The estimate for a tick interval written as a numeral, a space and a
word. -/
theorem estimate_tick (N : Nat) (hN : 1 ≤ N) (suffix : String) (u : List Char)
    (hs : suffix.toList = ' ' :: u) (hinc : includes (toString N ++ suffix) "tick" = true)
    (r : String) :
    (∀ d, rangeDays r = some d →
      calculateCandleCount (toString N ++ suffix) r = .int (1000 * d / (N : Int))) ∧
    (truthyLookup rangeToDays r = none →
      calculateCandleCount (toString N ++ suffix) r = .null) := by
  obtain ⟨hne, hdig, hval⟩ := numeral_spec N
  constructor
  · intro d hd
    unfold calculateCandleCount
    simp only [hinc, if_true, (lookup_rangeDays r d hd).1, firstToken_numeral N suffix u hs,
      jsParseInt_digits _ hne hdig, hval]
    rw [show (d : ℚ) * 1000 = ((1000 * d : Int) : ℚ) from by push_cast; ring]
    exact floorQuotient_pos _ N hN
  · intro hnone
    unfold calculateCandleCount
    simp only [hinc, if_true, hnone]

/-- The estimate for a range interval written as a numeral, a space and a
word. -/
theorem estimate_range (N : Nat) (hN : 1 ≤ N) (suffix : String) (u : List Char)
    (hs : suffix.toList = ' ' :: u) (hinc1 : includes (toString N ++ suffix) "tick" = false)
    (hinc : includes (toString N ++ suffix) "range" = true) (r : String) :
    (∀ d, rangeDays r = some d →
      calculateCandleCount (toString N ++ suffix) r = .int (100 * d / (N : Int))) ∧
    (truthyLookup rangeToDays r = none →
      calculateCandleCount (toString N ++ suffix) r = .null) := by
  obtain ⟨hne, hdig, hval⟩ := numeral_spec N
  constructor
  · intro d hd
    unfold calculateCandleCount
    simp only [hinc1, hinc, if_true, Bool.false_eq_true, if_false, (lookup_rangeDays r d hd).1,
      firstToken_numeral N suffix u hs, jsParseInt_digits _ hne hdig, hval]
    rw [show (d : ℚ) * 100 = ((100 * d : Int) : ℚ) from by push_cast; ring]
    exact floorQuotient_pos _ N hN
  · intro hnone
    unfold calculateCandleCount
    simp only [hinc1, hinc, if_true, Bool.false_eq_true, if_false, hnone]

theorem includes_numeral_word (N : Nat) (suffix : String) (pat q : List Char)
    (hs : suffix.toList = ' ' :: (pat ++ q)) (w : String) (hw : w.toList = pat) :
    includes (toString N ++ suffix) w = true := by
  unfold includes
  rw [toList_append, hs, hw]
  have := includesChars_of_infix ((toString N).toList ++ [' ']) pat q
  simpa using this

theorem no_tick_numeral (N : Nat) (suffix : String) (h : 'k' ∉ suffix.toList) :
    includes (toString N ++ suffix) "tick" = false := by
  obtain ⟨-, hdig, -⟩ := numeral_spec N
  cases hi : includes (toString N ++ suffix) "tick" with
  | false => rfl
  | true =>
    have hk := includesChars_mem _ _ hi 'k' (by decide)
    rw [toList_append] at hk
    rcases List.mem_append.mp hk with hk | hk
    · have := hdig _ hk
      revert this
      decide
    · exact absurd hk h

/-- C22: for the interval `N tick` or `N ticks` with `N ≥ 1` and a bounded range
token of `d` days the estimate is `floor(1000 d / N)`; for `N range` or
`N ranges` it is `floor(100 d / N)`; for the tokens `YTD` and `All` it is none;
and for every one of the nine range tokens the result is none or a non-negative
integer. -/
theorem tick_range_estimate (N : Nat) (hN : 1 ≤ N) (r : String) :
    (∀ d, rangeDays r = some d →
      calculateCandleCount (toString N ++ " tick") r = .int (1000 * d / (N : Int)) ∧
      calculateCandleCount (toString N ++ " ticks") r = .int (1000 * d / (N : Int)) ∧
      calculateCandleCount (toString N ++ " range") r = .int (100 * d / (N : Int)) ∧
      calculateCandleCount (toString N ++ " ranges") r = .int (100 * d / (N : Int))) ∧
    ((r = "YTD" ∨ r = "All") →
      calculateCandleCount (toString N ++ " tick") r = .null ∧
      calculateCandleCount (toString N ++ " ticks") r = .null ∧
      calculateCandleCount (toString N ++ " range") r = .null ∧
      calculateCandleCount (toString N ++ " ranges") r = .null) ∧
    (r ∈ rangeTokens → ∀ suffix ∈ [" tick", " ticks", " range", " ranges"],
      calculateCandleCount (toString N ++ suffix) r = .null ∨
      ∃ n : Int, 0 ≤ n ∧ calculateCandleCount (toString N ++ suffix) r = .int n) := by
  have hN0 : (0 : Int) < N := by exact_mod_cast hN
  have t1 := estimate_tick N hN " tick" "tick".toList rfl
    (includes_numeral_word N " tick" "tick".toList [] rfl "tick" rfl) r
  have t2 := estimate_tick N hN " ticks" "ticks".toList rfl
    (includes_numeral_word N " ticks" "tick".toList ['s'] rfl "tick" rfl) r
  have r1 := estimate_range N hN " range" "range".toList rfl
    (no_tick_numeral N " range" (by decide))
    (includes_numeral_word N " range" "range".toList [] rfl "range" rfl) r
  have r2 := estimate_range N hN " ranges" "ranges".toList rfl
    (no_tick_numeral N " ranges" (by decide))
    (includes_numeral_word N " ranges" "range".toList ['s'] rfl "range" rfl) r
  refine ⟨fun d hd => ⟨t1.1 d hd, t2.1 d hd, r1.1 d hd, r2.1 d hd⟩, ?_, ?_⟩
  · intro hr
    have hn := (lookup_open_range r hr).1
    exact ⟨t1.2 hn, t2.2 hn, r1.2 hn, r2.2 hn⟩
  · intro _ suffix hsuf
    simp only [List.mem_cons, List.mem_singleton, List.not_mem_nil, or_false] at hsuf
    rcases rangeDays_or_none r with ⟨d, hd⟩ | hn
    · have hd0 := rangeDays_pos r d hd
      right
      rcases hsuf with rfl | rfl | rfl | rfl
      · exact ⟨_, Int.ediv_nonneg (by omega) hN0.le, t1.1 d hd⟩
      · exact ⟨_, Int.ediv_nonneg (by omega) hN0.le, t2.1 d hd⟩
      · exact ⟨_, Int.ediv_nonneg (by omega) hN0.le, r1.1 d hd⟩
      · exact ⟨_, Int.ediv_nonneg (by omega) hN0.le, r2.1 d hd⟩
    · left
      rcases hsuf with rfl | rfl | rfl | rfl
      · exact t1.2 hn
      · exact t2.2 hn
      · exact r1.2 hn
      · exact r2.2 hn

/-- Witness for C22: `10 ticks` over `5D` gives 500, `7 ranges` over `1Y` gives
5214, and `10 ticks` over the range token `YTD` gives none or a non-negative
integer. -/
theorem tick_range_estimate_witness :
    calculateCandleCount "10 ticks" "5D" = .int 500 ∧
    calculateCandleCount "7 ranges" "1Y" = .int 5214 ∧
    "YTD" ∈ rangeTokens ∧
    (calculateCandleCount "10 ticks" "YTD" = .null ∨
      ∃ n : Int, 0 ≤ n ∧ calculateCandleCount "10 ticks" "YTD" = .int n) := by
  have e1 : toString 10 ++ " ticks" = "10 ticks" := by decide
  have e2 : toString 7 ++ " ranges" = "7 ranges" := by decide
  have h1 := ((tick_range_estimate 10 (by decide) "5D").1 5 (by decide)).2.1
  have h2 := ((tick_range_estimate 7 (by decide) "1Y").1 365 (by decide)).2.2.2
  have h3 := (tick_range_estimate 10 (by decide) "YTD").2.2 (by decide) " ticks" (by decide)
  rw [e1] at h1 h3
  rw [e2] at h2
  exact ⟨h1, h2, by decide, h3⟩

theorem floor_lit (x : ℚ) (z : Int) (h1 : (z : ℚ) ≤ x) (h2 : x < (z : ℚ) + 1) : ⌊x⌋ = z :=
  Int.floor_eq_iff.mpr ⟨h1, h2⟩

/-- For the range tokens `YTD` and `All` the estimate is `null`, whatever the
interval. -/
theorem estimate_open_range (interval r : String) (h : r = "YTD" ∨ r = "All") :
    calculateCandleCount interval r = .null := by
  obtain ⟨h1, h2⟩ := lookup_open_range r h
  unfold calculateCandleCount
  simp only [h1, h2]
  split_ifs
  · rfl
  · rfl
  · cases truthyLookup intervalToMinutes interval <;> rfl

/-- The estimate for an interval of the table of minutes and a bounded range
token. -/
theorem estimate_time (interval r : String) (im : ℚ) (d : Int)
    (h1 : includes interval "tick" = false) (h2 : includes interval "range" = false)
    (hl : truthyLookup intervalToMinutes interval = some im) (hd : rangeDays r = some d) :
    calculateCandleCount interval r = .int ⌊1440 * (d : ℚ) / im⌋ := by
  unfold calculateCandleCount
  simp only [h1, h2, Bool.false_eq_true, if_false, hl, (lookup_rangeDays r d hd).2]

/-- An entry of the table of minutes whose estimate agrees with the length
the resolver gives to the interval. -/
theorem table_entry (interval u : String) (v : Nat) (m im : ℚ) (r : String)
    (hp : parseInterval (.text interval) = some ⟨v, u⟩)
    (hm : getMinutesFromUnit (v : ℚ) u = some m) (hpos : 0 < m)
    (h1 : includes interval "tick" = false) (h2 : includes interval "range" = false)
    (hl : intervalToMinutes.lookup interval = some (some im))
    (hfl : ∀ d, rangeDays r = some d → ⌊1440 * (d : ℚ) / im⌋ = ⌊1440 * (d : ℚ) / m⌋)
    (him : im ≠ 0) :
    ∀ d, rangeDays r = some d →
      ∃ p m, parseInterval (.text interval) = some p ∧
        getMinutesFromUnit (p.value : ℚ) p.unit = some m ∧ 0 < m ∧
        calculateCandleCount interval r = .int ⌊1440 * (d : ℚ) / m⌋ := by
  intro d hd
  refine ⟨⟨v, u⟩, m, hp, hm, hpos, ?_⟩
  have hl2 : truthyLookup intervalToMinutes interval = some im := by
    unfold truthyLookup
    rw [hl]
    simp [him]
  rw [estimate_time interval r im d h1 h2 hl2 hd, hfl d hd]

/-- The table of minutes holds 525600 for `12 months` where the resolver gives
518400; the two estimates agree for every bounded range token. -/
theorem twelve_months_floor (r : String) (d : Int) (hd : rangeDays r = some d) :
    ⌊1440 * (d : ℚ) / 525600⌋ = ⌊1440 * (d : ℚ) / 518400⌋ := by
  unfold rangeDays at hd
  split_ifs at hd <;> cases hd
  · rw [floor_lit _ 0 (by norm_num) (by norm_num), floor_lit _ 0 (by norm_num) (by norm_num)]
  · rw [floor_lit _ 0 (by norm_num) (by norm_num), floor_lit _ 0 (by norm_num) (by norm_num)]
  · rw [floor_lit _ 0 (by norm_num) (by norm_num), floor_lit _ 0 (by norm_num) (by norm_num)]
  · rw [floor_lit _ 0 (by norm_num) (by norm_num), floor_lit _ 0 (by norm_num) (by norm_num)]
  · rw [floor_lit _ 0 (by norm_num) (by norm_num), floor_lit _ 0 (by norm_num) (by norm_num)]
  · rw [floor_lit _ 1 (by norm_num) (by norm_num), floor_lit _ 1 (by norm_num) (by norm_num)]
  · rw [floor_lit _ 5 (by norm_num) (by norm_num), floor_lit _ 5 (by norm_num) (by norm_num)]

/-- C21 (counterexample): `6 hours` and `3 days`, entries of the exported list of
intervals, parse and resolve to 360 and 4320 minutes, yet the estimate over
`1D` and over `5D` is `null` where the quotients have the floors 4 and 1. -/
theorem time_estimate_outside_table :
    parseInterval (.text "6 hours") = some ⟨6, "hours"⟩ ∧
    getMinutesFromUnit ((6 : Nat) : ℚ) "hours" = some 360 ∧
    rangeDays "1D" = some 1 ∧ ⌊1440 * ((1 : Int) : ℚ) / 360⌋ = 4 ∧
    calculateCandleCount "6 hours" "1D" = .null ∧
    parseInterval (.text "3 days") = some ⟨3, "days"⟩ ∧
    getMinutesFromUnit ((3 : Nat) : ℚ) "days" = some 4320 ∧
    rangeDays "5D" = some 5 ∧ ⌊1440 * ((5 : Int) : ℚ) / 4320⌋ = 1 ∧
    calculateCandleCount "3 days" "5D" = .null := by
  have a1 : includes "6 hours" "tick" = false := by decide
  have a2 : includes "6 hours" "range" = false := by decide
  have a3 : intervalToMinutes.lookup "6 hours" = none := rfl
  have b1 : includes "3 days" "tick" = false := by decide
  have b2 : includes "3 days" "range" = false := by decide
  have b3 : intervalToMinutes.lookup "3 days" = none := rfl
  refine ⟨by decide, by simp [getMinutesFromUnit]; norm_num, by decide,
    floor_lit _ 4 (by norm_num) (by norm_num), ?_, by decide,
    by simp [getMinutesFromUnit]; norm_num, by decide, floor_lit _ 1 (by norm_num) (by norm_num), ?_⟩
  · simp [calculateCandleCount, a1, a2, truthyLookup, a3]
  · simp [calculateCandleCount, b1, b2, truthyLookup, b3]

/-- C21 (amended): for the range tokens `YTD` and `All` the estimate is none for
every interval; for each of the 24 time intervals of the table of minutes and
every bounded range token of `d` days the interval parses and resolves to
`m > 0` minutes and the estimate is `floor(1440 d / m)`. -/
theorem time_estimate_table :
    (∀ interval r : String, (r = "YTD" ∨ r = "All") →
      calculateCandleCount interval r = .null) ∧
    (∀ interval ∈ tableIntervals, ∀ (r : String) (d : Int), rangeDays r = some d →
      ∃ p m, parseInterval (.text interval) = some p ∧
        getMinutesFromUnit (p.value : ℚ) p.unit = some m ∧ 0 < m ∧
        calculateCandleCount interval r = .int ⌊1440 * (d : ℚ) / m⌋) := by
  refine ⟨estimate_open_range, ?_⟩
  intro interval hmem r
  simp only [tableIntervals, List.mem_cons, List.mem_singleton, List.not_mem_nil,
    or_false] at hmem
  rcases hmem with rfl | rfl | rfl | rfl | rfl | rfl | rfl | rfl | rfl | rfl | rfl | rfl |
    rfl | rfl | rfl | rfl | rfl | rfl | rfl | rfl | rfl | rfl | rfl | rfl
  · exact table_entry "1 second" "second" 1 (1 / 60) (1 / 60) r (by decide)
      (by simp [getMinutesFromUnit]) (by norm_num) (by decide) (by decide) rfl
      (fun _ _ => rfl) (by norm_num)
  · exact table_entry "5 seconds" "seconds" 5 (5 / 60) (5 / 60) r (by decide)
      (by simp [getMinutesFromUnit]) (by norm_num) (by decide) (by decide) rfl
      (fun _ _ => rfl) (by norm_num)
  · exact table_entry "10 seconds" "seconds" 10 (10 / 60) (10 / 60) r (by decide)
      (by simp [getMinutesFromUnit]) (by norm_num) (by decide) (by decide) rfl
      (fun _ _ => rfl) (by norm_num)
  · exact table_entry "15 seconds" "seconds" 15 (15 / 60) (15 / 60) r (by decide)
      (by simp [getMinutesFromUnit]) (by norm_num) (by decide) (by decide) rfl
      (fun _ _ => rfl) (by norm_num)
  · exact table_entry "30 seconds" "seconds" 30 (30 / 60) (30 / 60) r (by decide)
      (by simp [getMinutesFromUnit]) (by norm_num) (by decide) (by decide) rfl
      (fun _ _ => rfl) (by norm_num)
  · exact table_entry "45 seconds" "seconds" 45 (45 / 60) (45 / 60) r (by decide)
      (by simp [getMinutesFromUnit]) (by norm_num) (by decide) (by decide) rfl
      (fun _ _ => rfl) (by norm_num)
  · exact table_entry "1 minute" "minute" 1 1 1 r (by decide)
      (by simp [getMinutesFromUnit]) (by norm_num) (by decide) (by decide) rfl
      (fun _ _ => rfl) (by norm_num)
  · exact table_entry "2 minutes" "minutes" 2 2 2 r (by decide)
      (by simp [getMinutesFromUnit]) (by norm_num) (by decide) (by decide) rfl
      (fun _ _ => rfl) (by norm_num)
  · exact table_entry "3 minutes" "minutes" 3 3 3 r (by decide)
      (by simp [getMinutesFromUnit]) (by norm_num) (by decide) (by decide) rfl
      (fun _ _ => rfl) (by norm_num)
  · exact table_entry "5 minutes" "minutes" 5 5 5 r (by decide)
      (by simp [getMinutesFromUnit]) (by norm_num) (by decide) (by decide) rfl
      (fun _ _ => rfl) (by norm_num)
  · exact table_entry "10 minutes" "minutes" 10 10 10 r (by decide)
      (by simp [getMinutesFromUnit]) (by norm_num) (by decide) (by decide) rfl
      (fun _ _ => rfl) (by norm_num)
  · exact table_entry "15 minutes" "minutes" 15 15 15 r (by decide)
      (by simp [getMinutesFromUnit]) (by norm_num) (by decide) (by decide) rfl
      (fun _ _ => rfl) (by norm_num)
  · exact table_entry "30 minutes" "minutes" 30 30 30 r (by decide)
      (by simp [getMinutesFromUnit]) (by norm_num) (by decide) (by decide) rfl
      (fun _ _ => rfl) (by norm_num)
  · exact table_entry "45 minutes" "minutes" 45 45 45 r (by decide)
      (by simp [getMinutesFromUnit]) (by norm_num) (by decide) (by decide) rfl
      (fun _ _ => rfl) (by norm_num)
  · exact table_entry "1 hour" "hour" 1 60 60 r (by decide)
      (by simp [getMinutesFromUnit]) (by norm_num) (by decide) (by decide) rfl
      (fun _ _ => rfl) (by norm_num)
  · exact table_entry "2 hours" "hours" 2 120 120 r (by decide)
      (by simp [getMinutesFromUnit]; norm_num) (by norm_num) (by decide) (by decide) rfl
      (fun _ _ => rfl) (by norm_num)
  · exact table_entry "3 hours" "hours" 3 180 180 r (by decide)
      (by simp [getMinutesFromUnit]; norm_num) (by norm_num) (by decide) (by decide) rfl
      (fun _ _ => rfl) (by norm_num)
  · exact table_entry "4 hours" "hours" 4 240 240 r (by decide)
      (by simp [getMinutesFromUnit]; norm_num) (by norm_num) (by decide) (by decide) rfl
      (fun _ _ => rfl) (by norm_num)
  · exact table_entry "1 day" "day" 1 1440 1440 r (by decide)
      (by simp [getMinutesFromUnit]) (by norm_num) (by decide) (by decide) rfl
      (fun _ _ => rfl) (by norm_num)
  · exact table_entry "1 week" "week" 1 10080 10080 r (by decide)
      (by simp [getMinutesFromUnit]) (by norm_num) (by decide) (by decide) rfl
      (fun _ _ => rfl) (by norm_num)
  · exact table_entry "1 month" "month" 1 43200 43200 r (by decide)
      (by simp [getMinutesFromUnit]) (by norm_num) (by decide) (by decide) rfl
      (fun _ _ => rfl) (by norm_num)
  · exact table_entry "3 months" "months" 3 129600 129600 r (by decide)
      (by simp [getMinutesFromUnit]; norm_num) (by norm_num) (by decide) (by decide) rfl
      (fun _ _ => rfl) (by norm_num)
  · exact table_entry "6 months" "months" 6 259200 259200 r (by decide)
      (by simp [getMinutesFromUnit]; norm_num) (by norm_num) (by decide) (by decide) rfl
      (fun _ _ => rfl) (by norm_num)
  · exact table_entry "12 months" "months" 12 518400 525600 r (by decide)
      (by simp [getMinutesFromUnit]; norm_num) (by norm_num) (by decide) (by decide) rfl
      (twelve_months_floor r) (by norm_num)

/-- Witness for C21 (amended): `5 minutes` over `1D` gives 288 candles. -/
theorem time_estimate_table_witness :
    "5 minutes" ∈ tableIntervals ∧ rangeDays "1D" = some 1 ∧
    calculateCandleCount "5 minutes" "1D" = .int 288 := by
  refine ⟨by decide, by decide, ?_⟩
  obtain ⟨p, m, hp, hm, -, hc⟩ :=
    time_estimate_table.2 "5 minutes" (by decide) "1D" 1 (by decide)
  have e : parseInterval (.text "5 minutes") = some ⟨5, "minutes"⟩ := by decide
  rw [e] at hp
  cases hp
  have hm5 : m = 5 := by
    have h5 : getMinutesFromUnit ((5 : Nat) : ℚ) "minutes" = some 5 := by
      simp [getMinutesFromUnit]
    rw [h5] at hm
    exact (Option.some.inj hm).symm
  rw [hc, hm5, floor_lit _ 288 (by norm_num) (by norm_num)]

/-! ### Month targets and the year-to-date filter at years 0..99 -/

/-- C25 (the code at the failing input): a bar dated 1 June of the year 50 has
month index 5, yet its bucket start for `1 month` is 1 June 1950 and for
`3 months` 1 April 1950, not a day of the year 50; it equals the bucket start of
a bar dated 15 June 1950, so the two bars, 1900 calendar years apart, are
aggregated into one bar. -/
theorem month_alignment_two_digit_year :
    getFullYear ancientBar.date = 50 ∧ getMonth ancientBar.date = 5 ∧
    bucketStart ⟨1, "month"⟩ ancientBar.date = -618105600000 ∧
    getFullYear (bucketStart ⟨1, "month"⟩ ancientBar.date) = 1950 ∧
    bucketStart ⟨3, "months"⟩ ancientBar.date = -623376000000 ∧
    getFullYear (bucketStart ⟨3, "months"⟩ ancientBar.date) = 1950 ∧
    daysFromCivil 50 5 * msPerDay = -60576249600000 ∧
    daysFromCivil 50 3 * msPerDay = -60581520000000 ∧
    getFullYear laterBar.date = 1950 ∧ getMonth laterBar.date = 5 ∧
    bucketStart ⟨1, "month"⟩ laterBar.date = bucketStart ⟨1, "month"⟩ ancientBar.date ∧
    transformDataToInterval centuryBars (.text "1 month") = .ok centuryOut := by
  have hd : ancientBar.date = -60576249600000 := rfl
  have hl : laterBar.date = -616896000000 := rfl
  have b1 : bucketStart ⟨1, "month"⟩ (-60576249600000) = -618105600000 := by decide
  have b3 : bucketStart ⟨3, "months"⟩ (-60576249600000) = -623376000000 := by decide
  have b2 : bucketStart ⟨1, "month"⟩ (-616896000000) = -618105600000 := by decide
  refine ⟨by decide, by decide, by rw [hd, b1], by rw [hd, b1]; decide, by rw [hd, b3],
    by rw [hd, b3]; decide, by decide, by decide, by decide, by decide,
    by rw [hd, hl, b1, b2], ?_⟩
  rw [transform_aggregates centuryBars _ ⟨1, "month"⟩ 43200 (by decide) (by decide)
    (by simp [getMinutesFromUnit]) (by norm_num)]
  simp [bucketLoop, centuryBars, centuryOut, ancientBar, laterBar, loopStep, flushGroup,
    aggregateCandles, aggStep, b1, b2]
  norm_num

/-- C29 (the code at the failing input): for the one bar dated 1 June of the year
50 and the token `YTD` the output of `filterDataByRange` is empty, so it has no
last bar while the input has one. -/
theorem filterDataByRange_drops_anchor :
    ancientBars ≠ [] ∧
    filterDataByRange ancientBars "YTD" = [] ∧
    ancientBars.getLast? = some ancientBar ∧
    (filterDataByRange ancientBars "YTD").getLast? = none := by
  have hd : ancientBar.date = -60576249600000 := rfl
  have hstart : rangeStartDate ancientBar.date "YTD" = some (-631152000000) := by decide
  have hout : filterDataByRange ancientBars "YTD" = [] := by
    rw [filterDataByRange_eq ancientBars ancientBar "YTD" rfl, hstart]
    simp [ancientBars, hd]
  refine ⟨by simp [ancientBars], hout, rfl, ?_⟩
  rw [hout]
  rfl

/-! ### Candle lengths on consecutive one-minute bars -/

/-- Quotient and remainder of the predecessor of `c` by a positive `M`. -/
theorem pred_div_mod (c M : Int) (hM : 0 < M) :
    (c % M ≠ 0 → (c - 1) / M = c / M ∧ (c - 1) % M = c % M - 1) ∧
    (c % M = 0 → (c - 1) / M = c / M - 1 ∧ (c - 1) % M = M - 1) := by
  have h1 := Int.ediv_add_emod c M
  have h2 := Int.emod_nonneg c hM.ne'
  have h3 := Int.emod_lt_of_pos c hM
  constructor
  · intro h
    exact (Int.ediv_emod_unique hM).mpr ⟨by linarith, by omega, by omega⟩
  · intro h
    refine (Int.ediv_emod_unique hM).mpr ⟨?_, by omega, by omega⟩
    rw [mul_sub, mul_one]
    omega

theorem groupsFrom_nonempty (key : Bar → Int) (bs : List Bar) :
    ∀ (cur : List Bar) (k : Int), groupsFrom key cur k bs ≠ [] := by
  induction bs with
  | nil => intro cur k; simp [groupsFrom]
  | cons b bs ih =>
    intro cur k
    unfold groupsFrom
    split_ifs
    · exact ih _ _
    · simp

/-- When the open group holds the bars of its bucket read so far, every group
but the last has `M` bars. -/
theorem groupsFrom_full (key : Bar → Int) (F : Int → Int) (hF : Function.Injective F)
    (M : Int) (hM : 0 < M) (bs : List Bar) :
    ∀ (cur : List Bar) (c : Int), (cur.length : Int) = (c - 1) % M + 1 →
      (∀ i (h : i < bs.length), key bs[i] = F ((c + (i : Int)) / M)) →
      ∀ g ∈ (groupsFrom key cur (F ((c - 1) / M)) bs).dropLast, (g.length : Int) = M := by
  induction bs with
  | nil =>
    intro cur c _ _ g hg
    simp [groupsFrom] at hg
  | cons b bs ih =>
    intro cur c hcur hkey g hg
    have hb : key b = F (c / M) := by
      have := hkey 0 (by simp)
      simpa using this
    have hkey2 : ∀ i (h : i < bs.length), key bs[i] = F ((c + 1 + (i : Int)) / M) := by
      intro i h
      have := hkey (i + 1) (by simp; omega)
      simp only [List.getElem_cons_succ] at this
      rw [this]
      push_cast
      ring_nf
    obtain ⟨p1, p2⟩ := pred_div_mod c M hM
    unfold groupsFrom at hg
    by_cases hz : c % M = 0
    · obtain ⟨q1, q2⟩ := p2 hz
      have hne : key b ≠ F ((c - 1) / M) := by
        rw [hb]
        intro e
        have := hF e
        omega
      rw [if_neg hne, List.dropLast_cons_of_ne_nil (groupsFrom_nonempty _ _ _ _)] at hg
      rcases List.mem_cons.mp hg with rfl | hg
      · omega
      · have := ih [b] (c + 1) (by simp; omega) hkey2
        rw [show c + 1 - 1 = c from by ring, ← hb] at this
        exact this g hg
    · obtain ⟨q1, q2⟩ := p1 hz
      have he : key b = F ((c - 1) / M) := by rw [hb, q1]
      rw [if_pos he] at hg
      have := ih (cur ++ [b]) (c + 1) (by simp; omega) hkey2
      rw [show c + 1 - 1 = c from by ring, ← q1] at this
      exact this g hg

/-- Whatever the open group holds, every group but the first and the last has
`M` bars. -/
theorem groupsFrom_interior (key : Bar → Int) (F : Int → Int) (hF : Function.Injective F)
    (M : Int) (hM : 0 < M) (bs : List Bar) :
    ∀ (cur : List Bar) (c : Int),
      (∀ i (h : i < bs.length), key bs[i] = F ((c + (i : Int)) / M)) →
      ∀ g ∈ (groupsFrom key cur (F ((c - 1) / M)) bs).tail.dropLast, (g.length : Int) = M := by
  induction bs with
  | nil =>
    intro cur c _ g hg
    simp [groupsFrom] at hg
  | cons b bs ih =>
    intro cur c hkey g hg
    have hb : key b = F (c / M) := by
      have := hkey 0 (by simp)
      simpa using this
    have hkey2 : ∀ i (h : i < bs.length), key bs[i] = F ((c + 1 + (i : Int)) / M) := by
      intro i h
      have := hkey (i + 1) (by simp; omega)
      simp only [List.getElem_cons_succ] at this
      rw [this]
      push_cast
      ring_nf
    obtain ⟨p1, p2⟩ := pred_div_mod c M hM
    unfold groupsFrom at hg
    by_cases hz : c % M = 0
    · obtain ⟨q1, q2⟩ := p2 hz
      have hne : key b ≠ F ((c - 1) / M) := by
        rw [hb]
        intro e
        have := hF e
        omega
      rw [if_neg hne, List.tail_cons] at hg
      have := groupsFrom_full key F hF M hM bs [b] (c + 1) (by simp; omega) hkey2
      rw [show c + 1 - 1 = c from by ring, ← hb] at this
      exact this g hg
    · obtain ⟨q1, q2⟩ := p1 hz
      have he : key b = F ((c - 1) / M) := by rw [hb, q1]
      rw [if_pos he] at hg
      have := ih (cur ++ [b]) (c + 1) hkey2
      rw [show c + 1 - 1 = c from by ring, ← q1] at this
      exact this g hg

theorem splitBy_cons_groupsFrom (p : IntervalSpec) (b : Bar) (bs : List Bar) :
    (b :: bs).splitBy (sameBucket p) =
      groupsFrom (fun x => bucketStart p x.date) [b] (bucketStart p b.date) bs := by
  have := splitBy_loop_eq (fun b => bucketStart p b.date) bs b [] []
  have e : sameBucket p = fun a b => bucketStart p a.date == bucketStart p b.date := rfl
  rw [e]
  show List.splitBy.loop _ bs b [] [] = _
  rw [this]
  simp

/-- When the bucket start of bar `i` is an injective function of
`floor((c + i) / M)`, every maximal run of bars with one bucket start, other
than the first and the last run, has `M` bars. -/
theorem splitBy_interior (p : IntervalSpec) (F : Int → Int) (hF : Function.Injective F)
    (M : Int) (hM : 0 < M) (c : Int) (bars : List Bar)
    (hkey : ∀ i (h : i < bars.length), bucketStart p bars[i].date = F ((c + (i : Int)) / M)) :
    ∀ g ∈ (bars.splitBy (sameBucket p)).tail.dropLast, (g.length : Int) = M := by
  cases bars with
  | nil =>
    intro g hg
    simp [List.splitBy] at hg
  | cons b bs =>
    rw [splitBy_cons_groupsFrom]
    have hb : bucketStart p b.date = F (c / M) := by
      have := hkey 0 (by simp)
      simpa using this
    have hkey2 : ∀ i (h : i < bs.length),
        (fun x : Bar => bucketStart p x.date) bs[i] = F ((c + 1 + (i : Int)) / M) := by
      intro i h
      have := hkey (i + 1) (by simp; omega)
      simp only [List.getElem_cons_succ] at this
      show bucketStart p bs[i].date = _
      rw [this]
      push_cast
      ring_nf
    have := groupsFrom_interior (fun x => bucketStart p x.date) F hF M hM bs [b] (c + 1) hkey2
    rw [show c + 1 - 1 = c from by ring, ← hb] at this
    exact this

theorem divisors_twenty_four (N : Nat) (hdiv : N ∣ 24) :
    N = 1 ∨ N = 2 ∨ N = 3 ∨ N = 4 ∨ N = 6 ∨ N = 8 ∨ N = 12 ∨ N = 24 := by
  have hle : N ≤ 24 := Nat.le_of_dvd (by norm_num) hdiv
  interval_cases N <;> omega

/-- Dividing by the minutes of `N` days is dividing by 1440 and then by `N`. -/
theorem ediv_mul_day (x N : Int) (hN : 0 < N) : x / (N * 1440) = x / 1440 / N := by
  have h1 := Int.ediv_add_emod x 1440
  have h2 := Int.ediv_add_emod (x / 1440) N
  have h3 := Int.emod_nonneg (x / 1440) hN.ne'
  have h4 := Int.emod_lt_of_pos (x / 1440) hN
  have h5 : 0 ≤ x % 1440 := by omega
  have h6 : x % 1440 < 1440 := by omega
  have hpos : 0 < N * 1440 := by positivity
  have e : N * 1440 * (x / 1440 / N) = 1440 * (N * (x / 1440 / N)) := by ring
  exact ((@Int.ediv_emod_unique x (N * 1440) (1440 * (x / 1440 % N) + x % 1440)
    (x / 1440 / N) hpos).mpr ⟨by rw [e]; linarith, by linarith, by linarith⟩).1

theorem key_minutes (N : Nat) (hdiv : N ∣ 60) (u : String) (hu : u = "minute" ∨ u = "minutes")
    (t0 : Int) (i : Nat) :
    bucketStart ⟨N, u⟩ (t0 + 60000 * (i : Int)) =
      60000 * ((N : Int) * ((t0 / 60000 + (i : Int)) / (N : Int))) := by
  rw [bucketStart_minute_unit N u hu]
  unfold getMinutes msPerMinute
  rcases divisors_sixty N hdiv with h | h | h | h | h | h | h | h | h | h | h | h <;>
    subst h <;> simp only [Nat.cast_ofNat, Nat.cast_one] <;> omega

theorem key_hours (N : Nat) (hdiv : N ∣ 24) (u : String) (hu : u = "hour" ∨ u = "hours")
    (t0 : Int) (i : Nat) :
    bucketStart ⟨N, u⟩ (t0 + 60000 * (i : Int)) =
      3600000 * ((N : Int) * ((t0 / 60000 + (i : Int)) / ((N : Int) * 60))) := by
  rw [bucketStart_hour_unit N u hu]
  unfold getHours msPerHour
  rcases divisors_twenty_four N hdiv with h | h | h | h | h | h | h | h <;>
    subst h <;> simp only [Nat.cast_ofNat, Nat.cast_one] <;> omega

theorem key_days (N : Nat) (hN : 1 ≤ N) (u : String) (hu : u = "day" ∨ u = "days")
    (t0 : Int) (i : Nat) :
    bucketStart ⟨N, u⟩ (t0 + 60000 * (i : Int)) =
      86400000 * ((N : Int) * ((t0 / 60000 + (i : Int)) / ((N : Int) * 1440))) := by
  have hd : dayOf (t0 + 60000 * (i : Int)) = (t0 / 60000 + (i : Int)) / 1440 := by
    unfold dayOf msPerDay
    omega
  have hq : (t0 / 60000 + (i : Int)) / ((N : Int) * 1440) =
      (t0 / 60000 + (i : Int)) / 1440 / (N : Int) := by
    exact ediv_mul_day _ _ (by exact_mod_cast hN)
  have hms : msPerDay = 86400000 := by decide
  rw [bucketStart_day_unit N u hu, hd, hq, hms]
  split_ifs with h1
  · ring
  · have : N = 1 := by omega
    subst this
    simp only [Nat.cast_one, Int.ediv_one]
    ring

theorem key_weeks (N : Nat) (u : String) (hu : u = "week" ∨ u = "weeks") (t0 : Int) (i : Nat) :
    bucketStart ⟨N, u⟩ (t0 + 60000 * (i : Int)) =
      86400000 * (7 * ((t0 / 60000 + 4320 + (i : Int)) / 10080) - 3) := by
  rw [bucketStart_week_unit N u hu]
  unfold getDay dayOf msPerDay
  omega

/-- The runs of bars with one bucket start, each mapped to the bar of the
aggregation law, are the bars that the loop returns. -/
theorem splitBy_map_runBar (p : IntervalSpec) (bars : List Bar) :
    (bars.splitBy (sameBucket p)).map runBar = (bucketLoop p bars).map some := by
  rw [bucketLoop_eq_splitBy]
  have hnil := List.nil_not_mem_splitBy (sameBucket p) bars
  generalize bars.splitBy (sameBucket p) = gs at hnil
  induction gs with
  | nil => rfl
  | cons g gs ih =>
    have hg : g ≠ [] := fun e => hnil (e ▸ List.mem_cons_self _ _)
    have hrest : [] ∉ gs := fun e => hnil (List.mem_cons_of_mem _ e)
    cases g with
    | nil => exact absurd rfl hg
    | cons f rest =>
      have : ∃ a, aggregateCandles (f :: rest) = some a := ⟨_, rfl⟩
      obtain ⟨a, ha⟩ := this
      rw [List.filterMap_cons, ha, List.map_cons, List.map_cons, ← ih hrest,
        ← aggregateCandles_eq_runBar, ha]

/-- The interior runs have `M` bars when the bucket start of bar `i` is
`a * floor((c + i) / M) + b` with `a ≠ 0`. -/
theorem splitBy_interior_affine (p : IntervalSpec) (a b : Int) (ha : a ≠ 0) (M : Nat)
    (hM : 1 ≤ M) (c : Int) (bars : List Bar)
    (hkey : ∀ i (h : i < bars.length),
      bucketStart p bars[i].date = a * ((c + (i : Int)) / (M : Int)) + b) :
    ∀ g ∈ (bars.splitBy (sameBucket p)).tail.dropLast, g.length = M := by
  have hinj : Function.Injective (fun q : Int => a * q + b) := by
    intro x y h
    have h2 : a * x = a * y := by
      have : a * x + b = a * y + b := h
      linarith
    exact Int.eq_of_mul_eq_mul_left ha h2
  intro g hg
  have := splitBy_interior p (fun q : Int => a * q + b) hinj (M : Int) (by exact_mod_cast hM)
    c bars hkey g hg
  exact_mod_cast this

/-- On consecutive one-minute bars and an aligned target that resolves to `M`
minutes, every run of bars with one bucket start, other than the first and the
last run, has `M` bars. -/
theorem aligned_interior (p : IntervalSpec) (M : Nat) (hM : 1 ≤ M)
    (hm : getMinutesFromUnit p.value p.unit = some (M : ℚ)) (hal : IsAlignedTarget p)
    (bars : List Bar) (t0 : Int)
    (hdates : ∀ i (h : i < bars.length), bars[i].date = t0 + 60000 * (i : Int)) :
    ∀ g ∈ (bars.splitBy (sameBucket p)).tail.dropLast, g.length = M := by
  obtain ⟨N, u⟩ := p
  dsimp only at hm
  unfold IsAlignedTarget at hal
  dsimp only at hal
  rcases hal with ⟨hu, hdiv⟩ | ⟨hu, hdiv⟩ | hu | ⟨hu, hv⟩ | ⟨hu, hv⟩
  · have hMN : M = N := by
      have : (N : ℚ) = (M : ℚ) := by
        rcases hu with rfl | rfl <;> simpa [getMinutesFromUnit] using hm
      exact_mod_cast this.symm
    subst hMN
    refine splitBy_interior_affine _ (60000 * (M : Int)) 0 (by positivity) M hM (t0 / 60000)
      bars ?_
    intro i h
    rw [hdates i h, key_minutes M hdiv u hu]
    ring
  · have hMN : M = N * 60 := by
      have : (N : ℚ) * 60 = (M : ℚ) := by
        rcases hu with rfl | rfl <;> simpa [getMinutesFromUnit] using hm
      exact_mod_cast this.symm
    subst hMN
    have hN : 1 ≤ N := by omega
    refine splitBy_interior_affine _ (3600000 * (N : Int)) 0 (by positivity) (N * 60) hM
      (t0 / 60000) bars ?_
    intro i h
    rw [hdates i h, key_hours N hdiv u hu]
    push_cast
    ring
  · have hMN : M = N * 1440 := by
      have : (N : ℚ) * 1440 = (M : ℚ) := by
        rcases hu with rfl | rfl <;> simpa [getMinutesFromUnit] using hm
      exact_mod_cast this.symm
    subst hMN
    have hN : 1 ≤ N := by omega
    refine splitBy_interior_affine _ (86400000 * (N : Int)) 0 (by positivity) (N * 1440) hM
      (t0 / 60000) bars ?_
    intro i h
    rw [hdates i h, key_days N hN u hu]
    push_cast
    ring
  · have hMN : M = 10080 := by
      have : (N : ℚ) * 10080 = (M : ℚ) := by
        rcases hu with rfl | rfl <;> simpa [getMinutesFromUnit] using hm
      rw [hv] at this
      have h2 : ((10080 : Nat) : ℚ) = (M : ℚ) := by
        rw [← this]
        norm_num
      exact_mod_cast h2.symm
    subst hMN
    refine splitBy_interior_affine _ (86400000 * 7) (-(86400000 * 3)) (by norm_num) 10080 hM
      (t0 / 60000 + 4320) bars ?_
    intro i h
    rw [hdates i h, key_weeks N u hu]
    push_cast
    ring
  · have hMN : M = 1 := by
      have : (N : ℚ) / 60 = (M : ℚ) := by
        rcases hu with rfl | rfl <;> simpa [getMinutesFromUnit] using hm
      rw [hv] at this
      have h2 : ((1 : Nat) : ℚ) = (M : ℚ) := by rw [← this]; norm_num
      exact_mod_cast h2.symm
    subst hMN
    refine splitBy_interior_affine _ 60000 t0 (by norm_num) 1 hM 0 bars ?_
    intro i h
    rw [hdates i h, bucketStart_seconds N u hu]
    simp only [Nat.cast_one, Int.ediv_one, zero_add]
    ring

/-- C28 (counterexample): the validator accepts `7 minutes` for the source
`1 minute` and the target resolves to 7 minutes, yet for the six consecutive
one-minute bars 00:55 to 01:00 the second of the three output bars, neither the
first nor the last, aggregates the four bars 00:56 to 00:59. -/
theorem seven_minutes_short_candle :
    canTransformData "1 minute" "7 minutes" = true ∧
    parseInterval (.text "7 minutes") = some ⟨7, "minutes"⟩ ∧
    getMinutesFromUnit ((7 : Nat) : ℚ) "minutes" = some 7 ∧
    (∀ i (h : i < hourEndBars.length), hourEndBars[i].date = 3300000 + 60000 * (i : Int)) ∧
    transformDataToInterval hourEndBars (.text "7 minutes") = .ok hourEndOut ∧
    hourEndBars.splitBy (sameBucket ⟨7, "minutes"⟩) =
      [hourEndBars.take 1, (hourEndBars.drop 1).take 4, hourEndBars.drop 5] ∧
    ((hourEndBars.drop 1).take 4).length = 4 := by
  have e : toString 7 ++ " minutes" = "7 minutes" := by decide
  have hv := validated_minutes 7 (by decide)
  rw [e] at hv
  have b0 : bucketStart ⟨7, "minutes"⟩ 3300000 = 2940000 := by decide
  have b1 : bucketStart ⟨7, "minutes"⟩ 3360000 = 3360000 := by decide
  have b2 : bucketStart ⟨7, "minutes"⟩ 3420000 = 3360000 := by decide
  have b3 : bucketStart ⟨7, "minutes"⟩ 3480000 = 3360000 := by decide
  have b4 : bucketStart ⟨7, "minutes"⟩ 3540000 = 3360000 := by decide
  have b5 : bucketStart ⟨7, "minutes"⟩ 3600000 = 3600000 := by decide
  refine ⟨hv, by decide, by simp [getMinutesFromUnit], ?_, ?_, ?_, by simp [hourEndBars]⟩
  · intro i h
    have h6 : i < 6 := by simpa [hourEndBars] using h
    interval_cases i <;> simp [hourEndBars]
  · rw [transform_aggregates hourEndBars _ ⟨7, "minutes"⟩ 7 (by decide) (by decide)
      (by simp [getMinutesFromUnit]) (by norm_num)]
    simp [bucketLoop, hourEndBars, hourEndOut, loopStep, flushGroup, aggregateCandles, aggStep,
      b0, b1, b2, b3, b4, b5]
    norm_num
  · simp [hourEndBars, List.splitBy, List.splitBy.loop, sameBucket, b0, b1, b2, b3, b4, b5]

/-- C28 (amended): for a target that the validator accepts for the source
`1 minute`, that resolves to `M ≤ 2^53` minutes and is aligned (a number of
minutes dividing 60, a number of hours dividing 24, a number of days, one week,
or sixty seconds), and for consecutive one-minute bars whose timestamps and
bucket starts are time values of valid dates, the transformation returns one bar
per maximal run of bars with one bucket start, the runs are consecutive pieces
of the input, and every run other than the first and the last has exactly `M`
bars. -/
theorem validated_candle_length (t : String) (p : IntervalSpec) (M : Nat) (bars : List Bar)
    (t0 : Int) (hv : canTransformData "1 minute" t = true)
    (hp : parseInterval (.text t) = some p)
    (hm : getMinutesFromUnit p.value p.unit = some (M : ℚ)) (_hMb : M ≤ maxExactInt)
    (hal : IsAlignedTarget p)
    (hdates : ∀ i (h : i < bars.length), bars[i].date = t0 + 60000 * (i : Int))
    (_hvalid : ∀ b ∈ bars, InDateRange b.date ∧ InDateRange (bucketStart p b.date)) :
    ∃ out, transformDataToInterval bars (.text t) = .ok out ∧
      (bars.splitBy (sameBucket p)).map runBar = out.map some ∧
      (bars.splitBy (sameBucket p)).flatten = bars ∧
      ∀ g ∈ (bars.splitBy (sameBucket p)).tail.dropLast, g.length = M := by
  obtain ⟨sp, tp, sm, tm, -, htp, -, htm, -, h0, -⟩ := canTransformData_true_inv _ _ hv
  rw [hp] at htp
  cases htp
  rw [hm] at htm
  cases htm
  have hM : 1 ≤ M := by
    rcases Nat.eq_zero_or_pos M with h | h
    · rw [h] at h0
      exact absurd rfl h0
    · exact h
  have hout : transformDataToInterval bars (.text t) = .ok (bucketLoop p bars) := by
    cases bars with
    | nil => simp [transformDataToInterval, bucketLoop_nil]
    | cons b bs =>
      exact transform_aggregates (b :: bs) _ p M (by simp) hp hm (by exact_mod_cast hM)
  exact ⟨bucketLoop p bars, hout, splitBy_map_runBar p bars, List.flatten_splitBy _ _,
    aligned_interior p M hM hm hal bars t0 hdates⟩

/-- Witness for C28 (amended): sixty one-minute bars 00:00 to 00:59 and the
target `5 minutes`. -/
theorem validated_candle_length_witness :
    IsAlignedTarget ⟨5, "minutes"⟩ ∧
    ∃ out, transformDataToInterval exampleBars (.text "5 minutes") = .ok out ∧
      (exampleBars.splitBy (sameBucket ⟨5, "minutes"⟩)).map runBar = out.map some ∧
      (exampleBars.splitBy (sameBucket ⟨5, "minutes"⟩)).flatten = exampleBars ∧
      ∀ g ∈ (exampleBars.splitBy (sameBucket ⟨5, "minutes"⟩)).tail.dropLast, g.length = 5 := by
  have hal : IsAlignedTarget ⟨5, "minutes"⟩ := by decide
  have hvalid : ∀ b ∈ exampleBars,
      InDateRange b.date ∧ InDateRange (bucketStart ⟨5, "minutes"⟩ b.date) := by
    intro b hb
    simp only [exampleBars, List.mem_map, List.mem_range] at hb
    obtain ⟨i, hi, rfl⟩ := hb
    rw [bucketStart_minutes 5 (by decide)]
    unfold InDateRange
    simp only [Nat.cast_ofNat]
    omega
  exact ⟨hal, validated_candle_length "5 minutes" ⟨5, "minutes"⟩ 5 exampleBars 0
    validated_one_to_five (by decide) (by simp [getMinutesFromUnit]) (by decide) hal
    (by intro i h; simp only [exampleBars, List.getElem_map, List.getElem_range, zero_add])
    hvalid⟩

/-! ### The range filter away from the years 0..99 -/

theorem daysFromCivil_month_mono (y m : Int) (h0 : 0 ≤ m) (h1 : m ≤ 11) :
    daysFromCivil y 0 ≤ daysFromCivil y m := by
  unfold daysFromCivil
  have hm : m = 0 ∨ m = 1 ∨ m = 2 ∨ m = 3 ∨ m = 4 ∨ m = 5 ∨ m = 6 ∨ m = 7 ∨ m = 8 ∨ m = 9 ∨
      m = 10 ∨ m = 11 := by omega
  rcases hm with h | h | h | h | h | h | h | h | h | h | h | h <;> subst h <;>
    norm_num <;> omega

/-- January 1, 00:00, of the calendar year of a time value is not after it. -/
theorem startOfYear_le (t : Int) : startOfYear (getFullYear t) ≤ t := by
  obtain ⟨h0, h11, h1, -, hrt⟩ := civil_roundtrip (dayOf t)
  have hmono := daysFromCivil_month_mono (civilFromDays (dayOf t)).1 _ h0 h11
  have hms : msPerDay = 86400000 := by decide
  have hday : dayOf t * 86400000 ≤ t := by
    unfold dayOf
    rw [hms]
    omega
  unfold startOfYear getFullYear
  rw [hms]
  omega

/-- The start date of a range token is not after the end date, unless the token
is `YTD` and the year of the end date is one of 0..99. -/
theorem rangeStartDate_le (endDate c : Int) (r : String)
    (h : rangeStartDate endDate r = some c)
    (hy : r = "YTD" → ¬ (0 ≤ getFullYear endDate ∧ getFullYear endDate ≤ 99)) :
    c ≤ endDate := by
  unfold rangeStartDate at h
  split_ifs at h with h1 h2 h3 h4 h5 h6 h7 h8 <;> cases h
  · omega
  · omega
  · omega
  · omega
  · omega
  · rw [newDate_start_of_year _ (hy h6)]
    exact startOfYear_le endDate
  · omega
  · omega

theorem filter_getLast (c : Int) (data : List Bar) (last : Bar)
    (h : data.getLast? = some last) (hc : c ≤ last.date) :
    (data.filter (fun b => decide (b.date ≥ c))).getLast? = some last := by
  obtain ⟨ys, rfl⟩ := List.getLast?_eq_some_iff.mp h
  have : decide (last.date ≥ c) = true := by simpa using hc
  have e : [last].filter (fun b => decide (b.date ≥ c)) = [last] := by
    simp [List.filter, this]
  rw [List.filter_append, e, List.getLast?_concat]

/-- Unless the token is `YTD` and the last bar lies in a year 0..99, the output
of `filterDataByRange` for a non-empty input ends with the last bar of the input
and filtering it again changes nothing. -/
theorem filterDataByRange_keeps_anchor (data : List Bar) (last : Bar) (r : String)
    (hlast : data.getLast? = some last)
    (hy : r = "YTD" → ¬ (0 ≤ getFullYear last.date ∧ getFullYear last.date ≤ 99)) :
    (filterDataByRange data r).getLast? = some last ∧
    filterDataByRange (filterDataByRange data r) r = filterDataByRange data r := by
  have e := filterDataByRange_eq data last r hlast
  cases hs : rangeStartDate last.date r with
  | none =>
    rw [hs] at e
    rw [e]
    exact ⟨hlast, e⟩
  | some c =>
    rw [hs] at e
    have hc := rangeStartDate_le last.date c r hs hy
    have hl := filter_getLast c data last hlast hc
    rw [e]
    refine ⟨hl, ?_⟩
    rw [filterDataByRange_eq _ last r hl, hs]
    simp only [List.filter_filter, Bool.and_self]

/-! ### Month targets away from the years 0..99 -/

/-- The year of the era is recovered from the day of the era. -/
theorem yoe_recover (yoe doy : Int) (h0 : 0 ≤ yoe) (h1 : yoe ≤ 399) (hd0 : 0 ≤ doy)
    (hd1 : doy ≤ 337) :
    (yoe * 365 + yoe / 4 - yoe / 100 + doy - (yoe * 365 + yoe / 4 - yoe / 100 + doy) / 1460
      + (yoe * 365 + yoe / 4 - yoe / 100 + doy) / 36524
      - (yoe * 365 + yoe / 4 - yoe / 100 + doy) / 146096) / 365 = yoe := by
  have hc : yoe / 100 = 0 ∨ yoe / 100 = 1 ∨ yoe / 100 = 2 ∨ yoe / 100 = 3 := by omega
  have hr : yoe % 4 = 0 ∨ yoe % 4 = 1 ∨ yoe % 4 = 2 ∨ yoe % 4 = 3 := by omega
  have hz : (yoe * 365 + yoe / 4 - yoe / 100 + doy) / 146096 = 0 := by omega
  have hf : (yoe * 365 + yoe / 4 - yoe / 100 + doy) / 36524 = yoe / 100 := by
    rcases hc with hc | hc | hc | hc <;> omega
  rw [hz, hf]
  have he : (yoe * 365 + yoe / 4 - yoe / 100 + doy) / 1460 = yoe / 4 ∨
      (yoe * 365 + yoe / 4 - yoe / 100 + doy) / 1460 = yoe / 4 + 1 := by
    rcases hc with hc | hc | hc | hc <;> rcases hr with hr | hr | hr | hr <;> omega
  rcases he with he | he <;> rw [he] <;>
    rcases hc with hc | hc | hc | hc <;> rcases hr with hr | hr | hr | hr <;> omega

/-- The civil date computed from a day number given by era, year of the era
and shifted month. -/
theorem civil_core (era yoe mp : Int) (h0 : 0 ≤ yoe) (h1 : yoe ≤ 399) (hm0 : 0 ≤ mp)
    (hm1 : mp ≤ 11) :
    civilFromDays (era * 146097 + (yoe * 365 + yoe / 4 - yoe / 100 + (153 * mp + 2) / 5)
        - 719468) =
      (if (if mp < 10 then mp + 2 else mp - 10) ≤ 1 then yoe + era * 400 + 1
        else yoe + era * 400, if mp < 10 then mp + 2 else mp - 10, 1) := by
  have hmp : (5 * ((153 * mp + 2) / 5) + 2) / 153 = mp := by omega
  have hd0 : 0 ≤ (153 * mp + 2) / 5 := by omega
  have hd1 : (153 * mp + 2) / 5 ≤ 337 := by omega
  generalize hgen : (153 * mp + 2) / 5 = doy at hmp hd0 hd1 ⊢
  have hrec := yoe_recover yoe doy h0 h1 hd0 hd1
  have e1 : era * 146097 + (yoe * 365 + yoe / 4 - yoe / 100 + doy) - 719468 + 719468 =
      era * 146097 + (yoe * 365 + yoe / 4 - yoe / 100 + doy) := by ring
  have e2 : (era * 146097 + (yoe * 365 + yoe / 4 - yoe / 100 + doy)) / 146097 = era := by
    omega
  have e3 : era * 146097 + (yoe * 365 + yoe / 4 - yoe / 100 + doy) - era * 146097 =
      yoe * 365 + yoe / 4 - yoe / 100 + doy := by ring
  have e5 : yoe * 365 + yoe / 4 - yoe / 100 + doy - (365 * yoe + yoe / 4 - yoe / 100) = doy := by
    ring
  simp only [civilFromDays]
  rw [e1, e2, e3, hrec, e5, hmp, hgen]
  simp

/-- The civil date of the first day of a month. -/
theorem civil_of_days (y m : Int) (h0 : 0 ≤ m) (h1 : m ≤ 11) :
    civilFromDays (daysFromCivil y m) = (y, m, 1) := by
  unfold daysFromCivil
  by_cases hm : m ≤ 1
  · simp only [hm, if_true]
    rw [civil_core ((y - 1) / 400) (y - 1 - (y - 1) / 400 * 400) (m + 10) (by omega) (by omega)
      (by omega) (by omega)]
    have h10 : ¬ (m + 10 < 10) := by omega
    simp only [h10, if_false]
    have : m + 10 - 10 = m := by ring
    rw [this]
    simp only [hm, if_true]
    congr 1
    ring
  · simp only [hm, if_false]
    rw [civil_core (y / 400) (y - y / 400 * 400) (m - 2) (by omega) (by omega)
      (by omega) (by omega)]
    have h10 : m - 2 < 10 := by omega
    simp only [h10, if_true]
    have : m - 2 + 2 = m := by ring
    rw [this]
    simp only [hm, if_false]
    congr 1
    ring

theorem dayOf_mul (d : Int) : dayOf (d * msPerDay) = d ∧ timeWithinDay (d * msPerDay) = 0 := by
  have hms : msPerDay = 86400000 := by decide
  unfold dayOf timeWithinDay
  rw [hms]
  omega

/-- Year, month and day of the first day of a month, 00:00. -/
theorem first_of_month (y m : Int) (h0 : 0 ≤ m) (h1 : m ≤ 11) :
    getFullYear (daysFromCivil y m * msPerDay) = y ∧
    getMonth (daysFromCivil y m * msPerDay) = m ∧
    getDate (daysFromCivil y m * msPerDay) = 1 := by
  unfold getFullYear getMonth getDate
  rw [(dayOf_mul _).1, civil_of_days y m h0 h1]
  exact ⟨rfl, rfl, rfl⟩

/-- The bucket start for a month unit when the year of the timestamp is not one
of 0..99: the first day of the aligned month of that year. -/
theorem bucketStart_month_unit (N : Nat) (hN : 1 ≤ N) (u : String)
    (hu : u = "month" ∨ u = "months") (t : Int)
    (hy : ¬ (0 ≤ getFullYear t ∧ getFullYear t ≤ 99)) :
    bucketStart ⟨N, u⟩ t =
      daysFromCivil (getFullYear t) (getMonth t / (N : Int) * (N : Int)) * msPerDay := by
  have h1 : includes u "minute" = false := by rcases hu with rfl | rfl <;> decide
  have h2 : includes u "hour" = false := by rcases hu with rfl | rfl <;> decide
  have h3 : includes u "day" = false := by rcases hu with rfl | rfl <;> decide
  have h4 : includes u "week" = false := by rcases hu with rfl | rfl <;> decide
  have h5 : includes u "month" = true := by rcases hu with rfl | rfl <;> decide
  obtain ⟨hm0, hm11, -, -, -⟩ := civil_roundtrip (dayOf t)
  have hm0 : 0 ≤ getMonth t := hm0
  have hm11 : getMonth t ≤ 11 := hm11
  have hN0 : (0 : Int) < N := by exact_mod_cast hN
  have ha := floor_mul_bounds (getMonth t) N hm0 hN
  have hfirst : newDate (getFullYear t) (getMonth t) 1 =
      daysFromCivil (getFullYear t) (getMonth t) * msPerDay := by
    have hdiv : getMonth t / 12 = 0 := by omega
    have hmod : getMonth t % 12 = getMonth t := by omega
    unfold newDate makeDate makeDay makeTime
    simp only [hy, if_false, hdiv, hmod]
    ring_nf
  unfold bucketStart
  simp only [h1, h2, h3, h4, h5, if_true, Bool.false_eq_true, if_false, hfirst]
  split_ifs with hgt
  · obtain ⟨hyf, hmf, hdf⟩ := first_of_month (getFullYear t) (getMonth t) hm0 hm11
    unfold setMonth makeDate makeDay
    rw [hmf, hyf, hdf, (dayOf_mul _).2]
    have hdiv : getMonth t / (N : Int) * (N : Int) / 12 = 0 := by omega
    have hmod : getMonth t / (N : Int) * (N : Int) % 12 = getMonth t / (N : Int) * (N : Int) := by
      omega
    rw [hdiv, hmod]
    ring_nf
  · have h1N : (N : Int) = 1 := by
      simp only [gt_iff_lt, not_lt] at hgt
      omega
    rw [h1N]
    simp

/-- Month alignment when the years of the timestamps are not among 0..99: the
bucket start is the first day, 00:00, of month `floor(month / N) * N` of the
year of the timestamp, and two timestamps have the same bucket start exactly
when they have the same year and the same `floor(month / N)`. -/
theorem month_alignment_outside (N : Nat) (hN : 1 ≤ N) (u : String)
    (hu : u = "month" ∨ u = "months") (t t2 : Int)
    (hy : ¬ (0 ≤ getFullYear t ∧ getFullYear t ≤ 99))
    (hy2 : ¬ (0 ≤ getFullYear t2 ∧ getFullYear t2 ≤ 99)) :
    getFullYear (bucketStart ⟨N, u⟩ t) = getFullYear t ∧
    getMonth (bucketStart ⟨N, u⟩ t) = getMonth t / (N : Int) * (N : Int) ∧
    getDate (bucketStart ⟨N, u⟩ t) = 1 ∧
    timeWithinDay (bucketStart ⟨N, u⟩ t) = 0 ∧
    (bucketStart ⟨N, u⟩ t = bucketStart ⟨N, u⟩ t2 ↔
      getFullYear t = getFullYear t2 ∧ getMonth t / (N : Int) = getMonth t2 / (N : Int)) := by
  have key : ∀ s : Int, ¬ (0 ≤ getFullYear s ∧ getFullYear s ≤ 99) →
      civilFromDays (dayOf (bucketStart ⟨N, u⟩ s)) =
        (getFullYear s, getMonth s / (N : Int) * (N : Int), 1) ∧
      timeWithinDay (bucketStart ⟨N, u⟩ s) = 0 := by
    intro s hs
    obtain ⟨hm0, hm11, -, -, -⟩ := civil_roundtrip (dayOf s)
    have hm0 : 0 ≤ getMonth s := hm0
    have hm11 : getMonth s ≤ 11 := hm11
    have ha := floor_mul_bounds (getMonth s) N hm0 hN
    rw [bucketStart_month_unit N hN u hu s hs, (dayOf_mul _).1, (dayOf_mul _).2,
      civil_of_days _ _ ha.1 (by omega)]
    exact ⟨rfl, rfl⟩
  obtain ⟨k1, k1t⟩ := key t hy
  obtain ⟨k2, -⟩ := key t2 hy2
  refine ⟨?_, ?_, ?_, k1t, ?_⟩
  · show (civilFromDays (dayOf (bucketStart ⟨N, u⟩ t))).1 = _
    rw [k1]
  · show (civilFromDays (dayOf (bucketStart ⟨N, u⟩ t))).2.1 = _
    rw [k1]
  · show (civilFromDays (dayOf (bucketStart ⟨N, u⟩ t))).2.2 = _
    rw [k1]
  · constructor
    · intro e
      rw [e, k2] at k1
      have e1 := (Prod.mk.inj k1).1
      have e2 := (Prod.mk.inj (Prod.mk.inj k1).2).1
      exact ⟨e1.symm, ((aligned_eq_iff N hN _ _).mp e2).symm⟩
    · rintro ⟨e1, e2⟩
      rw [bucketStart_month_unit N hN u hu t hy, bucketStart_month_unit N hN u hu t2 hy2,
        e1, e2]

/-! ### The divisibility test on a rounded quotient -/

/-- C5 (the code at the failing input): the source `20 seconds` resolves to
`20 / 60` minutes and the target `1 minute` to 1 minute, which is at least the
source length and exactly three times it, so the rule of the claim makes the
pair transformable. The source is outside `ExactMinutes`: the code holds the
quotient `20 / 60` as the binary64 number nearest to it, `thirdBinary64`, a
53-bit multiple of `2^-54` less than half a unit `2^-55` away from one third.
The remainder of 1 by that number is `2^-54`, not zero, so the test
`targetMinutes % rawMinutes === 0` fails and the return expression
`targetMinutes >= rawMinutes && targetMinutes % rawMinutes === 0` of
`canTransformData` is false on the numbers of the code. -/
theorem divisibility_rounded_quotient :
    parseInterval (.text "20 seconds") = some ⟨20, "seconds"⟩ ∧
    parseInterval (.text "1 minute") = some ⟨1, "minute"⟩ ∧
    getMinutesFromUnit ((20 : Nat) : ℚ) "seconds" = some (20 / 60) ∧
    getMinutesFromUnit ((1 : Nat) : ℚ) "minute" = some 1 ∧
    ((1 : ℚ) ≥ 20 / 60 ∧ (1 : ℚ) = ((3 : ℤ) : ℚ) * (20 / 60)) ∧
    ¬ ExactMinutes ⟨20, "seconds"⟩ ∧
    thirdBinary64 = 6004799503160661 / 2 ^ 54 ∧
    (2 : ℚ) ^ 52 ≤ 6004799503160661 ∧ (6004799503160661 : ℚ) < 2 ^ 53 ∧
    |(20 : ℚ) / 60 - thirdBinary64| < 1 / 2 ^ 55 ∧
    truncQ (1 / thirdBinary64) = 3 ∧
    jsMod 1 thirdBinary64 = 1 / 2 ^ 54 ∧
    jsMod 1 thirdBinary64 ≠ 0 ∧
    (decide ((1 : ℚ) ≥ thirdBinary64) && decide (jsMod 1 thirdBinary64 = 0)) = false := by
  have htr : truncQ (1 / thirdBinary64) = 3 := by
    unfold truncQ thirdBinary64
    rw [if_pos (by norm_num)]
    exact floor_lit _ 3 (by norm_num) (by norm_num)
  have hmod : jsMod 1 thirdBinary64 = 1 / 2 ^ 54 := by
    unfold jsMod
    rw [htr]
    unfold thirdBinary64
    norm_num
  refine ⟨by decide, by decide, by simp [getMinutesFromUnit], by simp [getMinutesFromUnit],
    ⟨by norm_num, by norm_num⟩, ?_, by unfold thirdBinary64; norm_num, by norm_num,
    by norm_num, ?_, htr, hmod, by rw [hmod]; norm_num, ?_⟩
  · intro h
    have := h.2.1 (Or.inr rfl)
    revert this
    decide
  · unfold thirdBinary64
    rw [abs_lt]
    constructor <;> norm_num
  · have hne : ¬ jsMod 1 thirdBinary64 = 0 := by
      rw [hmod]
      norm_num
    simp [hne]

end OpenView
